import Mathlib

set_option maxRecDepth 8000

/-!
Verification of the plan-manager, query-decomposition and benchmark
orchestrator of the agentic-context-engineering-optimization repository.

The plan file is modelled as a list of lines (each a `String`, newline-free
for well-formed files).  All text operations of the source (sed address
ranges, sed substitutions, Python regex anchor searches) act on this
representation; substitutions of the form `s/@TAG:[^@]*@/.../` are modelled
character-exactly by a leftmost-match scanner over the characters of a line.
-/

namespace PlanSpec

/-- Substring test: does the character list `cs` contain `pat` as a
contiguous sublist?  This models the Python `in` operator and the fact that
an unanchored regex/sed address `/pat/` matches a line iff the literal
pattern occurs somewhere in it. -/
def containsL (cs pat : List Char) : Bool :=
  pat.isPrefixOf cs ||
    match cs with
    | [] => false
    | _ :: t => containsL t pat

/-- A line of the plan file, as its list of characters (newline excluded). -/
abbrev Line := List Char

/-- Character list of a string literal (used to spell patterns and values). -/
def strL (s : String) : Line := s.data

/-- Leftmost match of the regex `@TAG:C*@` (value class `C` given by `keep`,
`+` instead of `*` when `allowEmpty` is false) at the very start of `cs`.
Returns the captured value and the characters after the closing `@`.
Greedy matching of the value class followed by a literal `@` is exact:
a shorter backtracked value would have to be followed by a class character,
never by `@`, since the class excludes `@`. -/
def anchorAt (tag : Line) (keep : Char → Bool) (allowEmpty : Bool) (cs : Line) :
    Option (Line × Line) :=
  if ('@' :: tag ++ [':']).isPrefixOf cs then
    let r := cs.drop (tag.length + 2)
    let v := r.takeWhile keep
    match r.drop v.length with
    | '@' :: rest => if allowEmpty || !v.isEmpty then some (v, rest) else none
    | _ => none
  else none

/-- Model of `sed s/@TAG:C*@/@TAG:newVal@/` on one line: replace the leftmost
occurrence of the anchor pattern, leave the line unchanged when there is no
match. -/
def subAnchor (tag : Line) (keep : Char → Bool) (allowEmpty : Bool) (newVal : Line) :
    Line → Line
  | [] => []
  | c :: cs =>
    match anchorAt tag keep allowEmpty (c :: cs) with
    | some (_, rest) => '@' :: tag ++ ':' :: newVal ++ '@' :: rest
    | none => c :: subAnchor tag keep allowEmpty newVal cs

/-- Model of `re.search` for the pattern `@TAG:(C*)@` inside one line:
value captured at the leftmost match, `none` when the line has no match. -/
def findAnchorIn (tag : Line) (keep : Char → Bool) (allowEmpty : Bool) :
    Line → Option Line
  | [] => none
  | c :: cs =>
    match anchorAt tag keep allowEmpty (c :: cs) with
    | some (v, _) => some v
    | none => findAnchorIn tag keep allowEmpty cs

/-- Model of `re.search` for `@TAG:(C*)@` over a sequence of lines (the
Python regex searches the joined text; a match never spans a newline because
the value class excludes nothing that would let it, in well-formed files the
whole anchor sits on one line). -/
def findAnchorLines (tag : Line) (keep : Char → Bool) (allowEmpty : Bool) :
    List Line → Option Line
  | [] => none
  | l :: ls =>
    match findAnchorIn tag keep allowEmpty l with
    | some v => some v
    | none => findAnchorLines tag keep allowEmpty ls

/-- Value class `[^@]` of the anchor regexes. -/
def notAt (c : Char) : Bool := c != '@'

/-- Does the sed address regex `PRE[0-9]+` followed by three dashes match
starting exactly here?  `pre` is the concrete part of the address (for
instance `---STEP:007:`).  Greedy digit matching followed by the dashes is
exact, as for `anchorAt`. -/
def stepPatAt (pre : Line) (cs : Line) : Bool :=
  pre.isPrefixOf cs &&
    (let r := cs.drop pre.length
     let d := r.takeWhile Char.isDigit
     !d.isEmpty && (strL "---").isPrefixOf (r.drop d.length))

/-- Does the line contain a match of that address regex anywhere? -/
def hasStepPat (pre : Line) : Line → Bool
  | [] => false
  | c :: cs => stepPatAt pre (c :: cs) || hasStepPat pre cs

/-- Decimal digits, fuelled structural helper (the fuel always suffices
when it exceeds the number). -/
def natCharsAux : Nat → Nat → Line
  | 0, _ => []
  | fuel + 1, n =>
    if n < 10 then [Nat.digitChar n]
    else natCharsAux fuel (n / 10) ++ [Nat.digitChar (n % 10)]

/-- Decimal digits of a natural number, most significant first: the
characters produced by Python `str(n)` / `f-string {n}` for `n ≥ 0`. -/
def natChars (n : Nat) : Line := natCharsAux (n + 1) n

/-- Python `f"{n:03d}"` for `n ≥ 0`: the decimal digits, left-padded with
zeros to width 3. -/
def pad3 (n : Nat) : Line :=
  List.replicate (3 - (natChars n).length) '0' ++ natChars n

/-- Python `f"{n:06d}"` for `n ≥ 0`. -/
def pad6 (n : Nat) : Line :=
  List.replicate (6 - (natChars n).length) '0' ++ natChars n

/-- Numeric value of a digit string (the successful case of Python `int`). -/
def natOfDigits (ds : Line) : Nat :=
  ds.foldl (fun a c => 10 * a + (c.toNat - 48)) 0

/-- Python `int(s)` on a captured anchor value: succeeds exactly on a
non-empty all-digit string (sign and surrounding whitespace never occur in
the files under consideration); any other shape raises, which the caller
turns into `none`. -/
def intParse (ds : Line) : Option Nat :=
  if !ds.isEmpty && ds.all Char.isDigit then some (natOfDigits ds) else none

/-! ## Data model of the plan file

The on-disk plan file of `plan_manager.py` is modelled structurally
(`FFile`) together with an exact rendering function to lines.  The
rendering follows `PlanManager._initialize_file` and
`PlanManager.write_plan` character by character. -/

/-- One step block as stored in the file (`write_plan` emits it with
status `pending` and empty result; `update_step_status` mutates the two
trailing anchors). -/
structure FStep where
  step_nr : Nat
  skill_name : Line
  rationale : Line
  sub_query : Line
  status : Line
  result : Line
deriving Repr, DecidableEq

/-- One plan record as stored in the file. -/
structure FPlan where
  plan_num : Nat
  plan_id : Line
  timestamp : Line
  multi_steps : Bool
  total_steps : Nat
  query : Line
  context : List (Line × Line)
  steps : List FStep
deriving Repr, DecidableEq

/-- The whole plan file: header metadata plus the plan records in file
order. -/
structure FFile where
  file_created : Line
  last_updated : Line
  total_plans : Nat
  plans : List FPlan
deriving Repr, DecidableEq

/-- An anchor line `@TAG:value@`. -/
def atLine (tag v : Line) : Line := '@' :: tag ++ ':' :: v ++ ['@']

/-- Python `str(b).lower()` for a boolean. -/
def boolChars (b : Bool) : Line := if b then strL "true" else strL "false"

/-- The separator line of 80 equal signs emitted after each plan entry. -/
def eqLine : Line := List.replicate 80 '='

/-- The line `---STEP:MMM:NNNNNN---` opening a step block. -/
def stepMarker (nr : Nat) (pn : Line) : Line :=
  strL "---STEP:" ++ pad3 nr ++ ':' :: pn ++ strL "---"

/-- The line `---END_STEP:MMM:NNNNNN---` closing a step block. -/
def endStepMarker (nr : Nat) (pn : Line) : Line :=
  strL "---END_STEP:" ++ pad3 nr ++ ':' :: pn ++ strL "---"

/-- The lines a single step contributes to a plan entry, exactly as
`write_plan` emits them (`@SUB_QUERY:` is present only for a non-empty
sub-query). -/
def stepLines (pn : Line) (s : FStep) : List Line :=
  [[], stepMarker s.step_nr pn,
   atLine (strL "STEP_NR") (natChars s.step_nr),
   atLine (strL "SKILL_NAME") s.skill_name,
   atLine (strL "RATIONALE") s.rationale] ++
  (if s.sub_query.isEmpty then [] else [atLine (strL "SUB_QUERY") s.sub_query]) ++
  [atLine (strL "STATUS") s.status,
   atLine (strL "RESULT") s.result,
   endStepMarker s.step_nr pn]

/-- The context block lines: emitted only when the context dictionary is
non-empty, and inside it only pairs with a non-empty value get a line. -/
def ctxLines (pn : Line) (ctx : List (Line × Line)) : List Line :=
  if ctx.isEmpty then []
  else
    [[], strL ">>>CONTEXT:" ++ pn ++ strL ">>>"] ++
    (ctx.filter (fun kv => !kv.2.isEmpty)).map (fun kv => atLine kv.1 kv.2) ++
    [strL "<<<CONTEXT:" ++ pn ++ strL "<<<"]

/-- All lines of one plan entry, exactly the result of splitting the
`plan_entry` string built by `write_plan` at its newlines (the entry both
starts and ends with a newline, and the file always ends with a newline, so
concatenating entries concatenates their line lists). -/
def planEntryLines (p : FPlan) : List Line :=
  [[], strL "<<<PLAN:" ++ pad6 p.plan_num ++ strL ">>>",
   atLine (strL "PLAN_ID") p.plan_id,
   atLine (strL "PLAN_NUMBER") (pad6 p.plan_num),
   atLine (strL "TIMESTAMP") p.timestamp,
   atLine (strL "MULTI_STEPS") (boolChars p.multi_steps),
   atLine (strL "TOTAL_STEPS") (natChars p.total_steps),
   [], strL ">>>QUERY:" ++ pad6 p.plan_num ++ strL ">>>",
   p.query,
   strL "<<<QUERY:" ++ pad6 p.plan_num ++ strL "<<<"] ++
  ctxLines (pad6 p.plan_num) p.context ++
  [[], strL ">>>STEPS:" ++ pad6 p.plan_num ++ strL ">>>"] ++
  (p.steps.flatMap (stepLines (pad6 p.plan_num))) ++
  [strL "<<<STEPS:" ++ pad6 p.plan_num ++ strL "<<<",
   [], strL "<<<END_PLAN:" ++ pad6 p.plan_num ++ strL ">>>",
   [], eqLine]

/-- The number of step blocks of a rendered record: its `---STEP:` marker
lines. -/
def countStepMarkers (ls : List Line) : Nat :=
  ls.countP (fun l => (strL "---STEP:").isPrefixOf l)

/-- The header lines written by `_initialize_file`. -/
def headerLines (created updated : Line) (total : Nat) : List Line :=
  [eqLine,
   strL "                    QUERY DECOMPOSITION PLANS",
   eqLine,
   [],
   atLine (strL "FILE_CREATED") created,
   atLine (strL "LAST_UPDATED") updated,
   atLine (strL "TOTAL_PLANS") (natChars total),
   [],
   strL "This file stores query decomposition plans in a grep-friendly anchor format.",
   strL "Each plan can be easily searched, modified, or have steps added/updated.",
   [],
   eqLine,
   []]

/-- Exact rendering of a plan file state to its list of lines. -/
def renderFile (F : FFile) : List Line :=
  headerLines F.file_created F.last_updated F.total_plans ++
  F.plans.flatMap planEntryLines

/-! ## The sed passes of `update_step_status`

`update_step_status` runs, per call, one `sed` invocation substituting the
`@STATUS:` anchor inside the address range
`@PLAN_ID:<id>@` .. `<<<END_PLAN:` restricted to the inner range
`---STEP:MMM:[0-9]+---` .. `---END_STEP:MMM:[0-9]+---`, optionally a second
invocation doing the same for `@RESULT:`, and finally
`_update_metadata_fast`, a plain `sed` substituting the `@LAST_UPDATED:`
anchor on every line.  GNU sed two-address ranges are modelled exactly:
a range opens on a line matching the first address (that line is processed,
and is not tested against the second address), stays open until a line
matching the second address (processed inclusively), and the state of the
inner range only advances on lines for which the outer range is active. -/

/-- Configuration of one nested-range sed substitution command. -/
structure SedCfg where
  outerStart : Line → Bool
  outerEnd : Line → Bool
  innerStart : Line → Bool
  innerEnd : Line → Bool
  sub : Line → Line

/-- Processing of one line by the inner range block: the substitution runs
exactly on lines for which the inner range is active or opening. -/
def innerStep (cfg : SedCfg) (inn : Bool) (l : Line) : Line × Bool :=
  if inn then (cfg.sub l, !cfg.innerEnd l)
  else if cfg.innerStart l then (cfg.sub l, true)
  else (l, false)

/-- Run the sed command over the lines, from the given outer/inner range
states. -/
def sedRun (cfg : SedCfg) : Bool → Bool → List Line → List Line
  | _, _, [] => []
  | false, inn, l :: ls =>
    if cfg.outerStart l then
      let p := innerStep cfg inn l
      p.1 :: sedRun cfg true p.2 ls
    else
      l :: sedRun cfg false inn ls
  | true, inn, l :: ls =>
    let p := innerStep cfg inn l
    p.1 :: sedRun cfg (!cfg.outerEnd l) p.2 ls

/-- Final range state after running the sed command over the lines. -/
def sedSt (cfg : SedCfg) : Bool → Bool → List Line → Bool × Bool
  | o, i, [] => (o, i)
  | false, inn, l :: ls =>
    if cfg.outerStart l then
      sedSt cfg true (innerStep cfg inn l).2 ls
    else
      sedSt cfg false inn ls
  | true, inn, l :: ls =>
    sedSt cfg (!cfg.outerEnd l) (innerStep cfg inn l).2 ls

/-- The sed command of `update_step_status` substituting anchor `tag` with
`newVal` for plan `pid` and step number `nr`. -/
def updCfg (pid : Line) (nr : Nat) (tag : Line) (allowEmpty : Bool) (newVal : Line) :
    SedCfg where
  outerStart l := containsL l (atLine (strL "PLAN_ID") pid)
  outerEnd l := containsL l (strL "<<<END_PLAN:")
  innerStart l := hasStepPat (strL "---STEP:" ++ pad3 nr ++ [':']) l
  innerEnd l := hasStepPat (strL "---END_STEP:" ++ pad3 nr ++ [':']) l
  sub := subAnchor tag notAt allowEmpty newVal

/-- The `_update_metadata_fast` pass: substitute `@LAST_UPDATED:[^@]*@` on
every line of the file. -/
def metaFastPass (ts : Line) (ls : List Line) : List Line :=
  ls.map (subAnchor (strL "LAST_UPDATED") notAt true ts)

/-- The `_update_metadata` pass used by `write_plan`: substitute
`@LAST_UPDATED:[^@]*@` and then `@TOTAL_PLANS:[0-9]+@` on every line. -/
def metaFullPass (ts : Line) (total : Nat) (ls : List Line) : List Line :=
  (metaFastPass ts ls).map (subAnchor (strL "TOTAL_PLANS") Char.isDigit false (natChars total))

/-- Sanitisation of the `result` argument on the sed path of
`update_step_status`: replace every `@` by `(at)`, every newline by a
space, every double quote by a backslash-escaped quote, then keep the
first 500 characters.  Python `str.replace` with a one-character needle is
exactly this character-wise expansion, and the slice `[:500]` counts
characters. -/
def listRepl (c : Char) (rep : Line) (l : Line) : Line :=
  l.flatMap (fun x => if x = c then rep else [x])

/-- The quote character (") and the backslash character. -/
def quoteChar : Char := Char.ofNat 34

def backslashChar : Char := Char.ofNat 92

/-- Sed-path sanitiser of `update_step_status`. -/
def sanitizeSed (r : Line) : Line :=
  (listRepl quoteChar [backslashChar, quoteChar]
    (listRepl '\n' [' '] (listRepl '@' (strL "(at)") r))).take 500

/-- Python-fallback sanitiser of `_update_step_status_python_fallback`
(no quote escaping there). -/
def sanitizeFallback (r : Line) : Line :=
  (listRepl '\n' [' '] (listRepl '@' (strL "(at)") r)).take 500

/-- The backquote character. -/
def backquoteChar : Char := Char.ofNat 96

/-- A character that reaches the file unchanged when inserted into the sed
replacement of `update_step_status`.  The replacement travels through a
double-quoted bash string and then through the sed replacement parser; the
code escapes backslash, slash and ampersand for sed (and the result
sanitiser additionally escapes double quotes), so slash and ampersand
round-trip, but a double quote, backslash, dollar or backquote in the
value is consumed, expanded or re-escaped by bash or by sed before it
reaches the file (verified: a result containing a double quote is stored
without it, and a lone backslash is dropped by the sed replacement).
Those four characters are therefore excluded from the faithful domain. -/
def sedSafeChar (c : Char) : Bool :=
  !(c == quoteChar) && !(c == backslashChar) && !(c == '$') && !(c == backquoteChar)

/-- A value whose bytes survive the bash/sed transport of
`update_step_status` verbatim. -/
def sedSafe (v : Line) : Bool := v.all sedSafeChar

def sedSafeOpt : Option Line → Bool
  | none => true
  | some r => sedSafe r

/-- A plan-id character that the extended-regex address
`/@PLAN_ID:<id>@/` of the sed command matches literally.  The code escapes
only backslash, slash and ampersand before splicing the id into the
pattern, so any other ERE metacharacter (dot, star, plus, question mark,
brackets, braces, parentheses, bar, caret, dollar) or bash-special
character in the id changes the match or aborts the command; the ids the
program generates (`uuid.uuid4()` text: hex digits and hyphens) are all
covered by this whitelist. -/
def pidSafeChar (c : Char) : Bool := c.isAlphanum || c == '-' || c == '_'

def pidSafe (v : Line) : Bool := v.all pidSafeChar

/-- A character that is literal in a sed replacement spliced in with no
escaping at all.  `_update_metadata` and `_update_metadata_fast` run
`sed -i s/@LAST_UPDATED:[^@]*@/@LAST_UPDATED:<ts>@/` through `subprocess`
in list form (no shell layer) and splice the timestamp in verbatim, so a
backslash or ampersand would be interpreted by sed, a slash would end the
replacement early, and a newline would make the script a syntax error;
the ISO timestamps the code generates contain none of these. -/
def replSafeChar (c : Char) : Bool :=
  !(c == backslashChar) && !(c == '&') && !(c == '/') && !(c == '\n')

/-- A value that is literal as an unescaped sed replacement. -/
def replSafe (v : Line) : Bool := v.all replSafeChar

/-- The sed path of `update_step_status` on the file lines, plus its
return value.  The status pass always runs; the result pass runs only when
a result is given; `_update_metadata_fast` always follows; the function
then returns `True` (sed exits 0 whether or not anything matched).
This models the successful sed branch with the inserted values taken
verbatim.  That is the program's behaviour exactly when the transport is
transparent: the plan id is spliced into the extended-regex address with
only backslash, slash and ampersand escaped, so it must match itself
literally (`pidSafe`); status and result travel through a double-quoted
bash string and the sed replacement parser, where the code's escaping
makes slash and ampersand round-trip but a double quote, backslash, dollar
or backquote is mangled or routed to the Python fallback (`sedSafe`); the
timestamp is spliced unescaped into the metadata replacement (`replSafe`).
Every theorem about this definition hypothesises those predicates, so no
statement quantifies over inputs on which the model and the program
diverge (quotes, backslashes, dollars, backquotes, regex metacharacters),
and the fallback branch — which re-sanitises without quote escaping and
additionally rewrites `@TOTAL_PLANS:` from the in-memory counter in
`_update_metadata` — is never reached on the modelled domain. -/
def updateStepStatus (pid : Line) (nr : Nat) (status : Line) (result : Option Line)
    (ts : Line) (file : List Line) : List Line × Bool :=
  let f1 := sedRun (updCfg pid nr (strL "STATUS") false status) false false file
  let f2 := match result with
    | some r => sedRun (updCfg pid nr (strL "RESULT") true (sanitizeSed r)) false false f1
    | none => f1
  (metaFastPass ts f2, true)

/-! ## Structural update

The intended effect of `update_step_status` on the structured file. -/

/-- Update one step: a step whose number is the target gets the new status
and (when given) the new, already sanitised, result. -/
def updStep (nr : Nat) (st : Line) (res : Option Line) (s : FStep) : FStep :=
  if pad3 s.step_nr = pad3 nr then
    { s with status := st, result := res.getD s.result }
  else s

/-- Update one plan: only a plan whose id is the target is touched. -/
def updPlan (pid : Line) (nr : Nat) (st : Line) (res : Option Line) (p : FPlan) : FPlan :=
  if p.plan_id = pid then { p with steps := p.steps.map (updStep nr st res) } else p

/-- Structural effect of `update_step_status`: the targeted step anchors
and the header's last-updated timestamp. -/
def structUpdate (pid : Line) (nr : Nat) (st : Line) (res : Option Line) (ts : Line)
    (F : FFile) : FFile :=
  { F with last_updated := ts, plans := F.plans.map (updPlan pid nr st res) }

/-! ## The `get_plan` parser

`get_plan` extracts plan blocks with the Python regex
`<<<PLAN:(d6)>>>(.*?)<<<END_PLAN:(backref)>>>` (after a sed prefilter that
only drops lines outside plan blocks), finds the block whose first
`@PLAN_ID:` anchor equals the requested id, and reads the anchors of the
block and of each step sub-block.  Matches of the markers never span a
newline, so the block structure is computed line-wise here; the regex
engine's fallback to a later start marker when an end marker is missing
cannot trigger on well-formed files and is not modelled. -/

/-- Generic scanner: first position of the line where `f` produces a
capture. -/
def scanLineO {α : Type} (f : Line → Option α) : Line → Option α
  | [] => none
  | c :: cs =>
    match f (c :: cs) with
    | some a => some a
    | none => scanLineO f cs

/-- Generic scanner: does `f` match at some position of the line? -/
def scanLine (f : Line → Bool) : Line → Bool
  | [] => false
  | c :: cs => f (c :: cs) || scanLine f cs

/-- Match of `PRE` followed by exactly six digits and `SUF` at the start of
the characters (the shape `\d(6)` of the Python marker regexes: six digit
characters, then the literal suffix — a seventh digit makes the match at
this position fail). -/
def exact6At (pre suf : Line) (cs : Line) : Bool :=
  pre.isPrefixOf cs &&
    (let r := cs.drop pre.length
     (r.take 6).length = 6 && (r.take 6).all Char.isDigit &&
       suf.isPrefixOf (r.drop 6))

/-- Capture of `<<<PLAN:(d6)>>>` at the start of the characters. -/
def planStartAt (cs : Line) : Option Line :=
  if exact6At (strL "<<<PLAN:") (strL ">>>") cs then
    some ((cs.drop 8).take 6)
  else none

/-- Capture of `---STEP:(d3):d6---` at the start of the characters. -/
def stepStartAt (cs : Line) : Option Line :=
  if (strL "---STEP:").isPrefixOf cs then
    let r := cs.drop 8
    let d := r.take 3
    if d.length = 3 && d.all Char.isDigit && exact6At [':'] (strL "---") (r.drop 3) then
      some d
    else none
  else none

/-- One parsed step, exactly the dictionary built by `get_plan`. -/
structure ParsedStep where
  step_nr : Nat
  skill_name : Line
  rationale : Line
  sub_query : Line
  status : Line
  result : Line
deriving Repr, DecidableEq

/-- One parsed plan, exactly the dictionary returned by `get_plan`. -/
structure ParsedPlan where
  plan_id : Line
  plan_number : Line
  timestamp : Option Line
  query : Option Line
  multi_steps : Bool
  total_steps : Nat
  steps : List ParsedStep
deriving Repr, DecidableEq

/-- Parse the anchors of one step's content lines.  `int` on a non-numeric
`@STEP_NR:` value raises, which makes the whole `get_plan` call return
`None`; that exception is propagated as `none` here. -/
def parseStep (ls : List Line) : Option ParsedStep :=
  let nr? : Option Nat :=
    match findAnchorLines (strL "STEP_NR") notAt false ls with
    | some v => intParse v
    | none => some 0
  match nr? with
  | none => none
  | some n =>
    some
      { step_nr := n,
        skill_name := (findAnchorLines (strL "SKILL_NAME") notAt false ls).getD (strL "N/A"),
        rationale := (findAnchorLines (strL "RATIONALE") notAt false ls).getD (strL "N/A"),
        sub_query := (findAnchorLines (strL "SUB_QUERY") notAt false ls).getD [],
        status := (findAnchorLines (strL "STATUS") notAt false ls).getD (strL "pending"),
        result := (findAnchorLines (strL "RESULT") notAt true ls).getD [] }

/-- Scan the block lines for step sub-blocks
`---STEP:(d3):d6---` .. `---END_STEP:(backref):d6---` and parse each one,
in order. -/
def parseStepsAux : Option (Line × List Line) → List Line → Option (List ParsedStep)
  | _, [] => some []
  | none, l :: ls =>
    match scanLineO stepStartAt l with
    | some d3 => parseStepsAux (some (d3, [])) ls
    | none => parseStepsAux none ls
  | some (d3, acc), l :: ls =>
    if scanLine (exact6At (strL "---END_STEP:" ++ d3 ++ [':']) (strL "---")) l then
      match parseStep acc.reverse, parseStepsAux none ls with
      | some st, some rest => some (st :: rest)
      | _, _ => none
    else parseStepsAux (some (d3, l :: acc)) ls

/-- Python whitespace characters stripped by `str.strip` that can occur in
these files. -/
def wsp (c : Char) : Bool := c = ' ' || c = '\n' || c = '\t' || c = '\r'

/-- Python `str.strip()`. -/
def stripL (l : Line) : Line :=
  ((l.dropWhile wsp).reverse.dropWhile wsp).reverse

/-- Extract and strip the query text between the `QUERY` markers. -/
def parseQueryAux : Option (List Line) → List Line → Option Line
  | _, [] => none
  | none, l :: ls =>
    if scanLine (exact6At (strL ">>>QUERY:") (strL ">>>")) l then
      parseQueryAux (some []) ls
    else parseQueryAux none ls
  | some acc, l :: ls =>
    if scanLine (exact6At (strL "<<<QUERY:") (strL "<<<")) l then
      some (stripL (List.intercalate ['\n'] acc.reverse))
    else parseQueryAux (some (l :: acc)) ls

/-- Parse a whole plan block (`plan_id` already matched). -/
def parseBlock (pid pn : Line) (ls : List Line) : Option ParsedPlan :=
  let tot? : Option Nat :=
    match findAnchorLines (strL "TOTAL_STEPS") notAt false ls with
    | some v => intParse v
    | none => some 0
  match tot?, parseStepsAux none ls with
  | some tot, some sts =>
    some
      { plan_id := pid,
        plan_number := pn,
        timestamp := findAnchorLines (strL "TIMESTAMP") notAt false ls,
        query := parseQueryAux none ls,
        multi_steps :=
          (findAnchorLines (strL "MULTI_STEPS") notAt false ls) = some (strL "true"),
        total_steps := tot,
        steps := sts }
  | _, _ => none

/-- Extract all complete plan blocks: plan number and content lines.  An
unterminated trailing block yields no match. -/
def findBlocksAux : Option (Line × List Line) → List Line → List (Line × List Line)
  | _, [] => []
  | none, l :: ls =>
    match scanLineO planStartAt l with
    | some pn => findBlocksAux (some (pn, [])) ls
    | none => findBlocksAux none ls
  | some (pn, acc), l :: ls =>
    if containsL l (strL "<<<END_PLAN:" ++ pn ++ strL ">>>") then
      (pn, acc.reverse) :: findBlocksAux none ls
    else findBlocksAux (some (pn, l :: acc)) ls

def findBlocks (ls : List Line) : List (Line × List Line) :=
  findBlocksAux none ls

/-- Model of `PlanManager.get_plan`. -/
def getPlan (pid : Line) (file : List Line) : Option ParsedPlan :=
  match (findBlocks file).find?
      (fun b => findAnchorLines (strL "PLAN_ID") notAt false b.2 = some pid) with
  | some (pn, ls) => parseBlock pid pn ls
  | none => none

/-! ## `write_plan` -/

/-- One step of a decomposition result passed to `write_plan`. -/
structure DStep where
  step_nr : Nat
  skill_name : Line
  rationale : Line
  sub_query : Line
deriving Repr, DecidableEq

/-- A decomposition result passed to `write_plan`. -/
structure Decomp where
  multi_steps : Bool
  output_steps : List DStep
deriving Repr, DecidableEq

/-- The plan record `write_plan` builds: serial number `num`, fresh id,
`@MULTI_STEPS:` copied from the input flag, `@TOTAL_STEPS:` the length of
the input step list, every step with status `pending` and empty result. -/
def planOfDecomp (num : Nat) (pid ts query : Line) (ctx : List (Line × Line))
    (d : Decomp) : FPlan :=
  { plan_num := num, plan_id := pid, timestamp := ts,
    multi_steps := d.multi_steps,
    total_steps := d.output_steps.length,
    query := query, context := ctx,
    steps := d.output_steps.map (fun s =>
      { step_nr := s.step_nr, skill_name := s.skill_name,
        rationale := s.rationale, sub_query := s.sub_query,
        status := strL "pending", result := [] }) }

/-- Structural effect of `write_plan` on the file. -/
def writePlan (F : FFile) (pid ts query : Line) (ctx : List (Line × Line))
    (d : Decomp) : FFile :=
  { F with
    last_updated := ts
    total_plans := F.total_plans + 1
    plans := F.plans ++ [planOfDecomp (F.total_plans + 1) pid ts query ctx d] }

/-- Line-level effect of `write_plan`: append the rendered entry, then run
`_update_metadata` (both header substitutions).  `count` is the in-memory
`plans_count` before the call.  The append is performed by
`bash -c "cat >> <file> << 'EOF' ... EOF"`: the heredoc delimiter is
single-quoted, so the body is literal (no expansion) and the append is the
pure concatenation modelled here — unless some body line is exactly `EOF`,
which terminates the heredoc early, makes the remaining lines run as
commands (bash exits non-zero) and triggers the Python fallback, which
re-appends the whole entry on top of the partial one.  The only raw line
of the entry is the user query (every other line carries a marker or
anchor decoration), so the theorems about this definition exclude a query
equal to `EOF`; on that domain the model is exact. -/
def writePlanLines (file : List Line) (count : Nat) (pid ts query : Line)
    (ctx : List (Line × Line)) (d : Decomp) : List Line :=
  metaFullPass ts (count + 1)
    (file ++ planEntryLines (planOfDecomp (count + 1) pid ts query ctx d))

/-! ## The Python fallback of `update_step_status`

`_update_step_status_python_fallback` rewrites, inside the block whose
first `@PLAN_ID:` anchor matches, every non-overlapping occurrence of
`---STEP:MMM:d6---` followed (non-greedily, across lines) by an anchor
`@STATUS:[^@]+@` — replacing just that anchor — and similarly for
`@RESULT:[^@]*@`; it then runs `_update_metadata` and returns `True`
unconditionally. -/

/-- Replace, in armed state, the first `tag` anchor after each occurrence
of a line matching `startP`. -/
def fbSub (startP : Line → Bool) (tag : Line) (ae : Bool) (nv : Line) :
    Bool → List Line → List Line
  | _, [] => []
  | false, l :: ls =>
    l :: fbSub startP tag ae nv (startP l) ls
  | true, l :: ls =>
    if (findAnchorIn tag notAt ae l).isSome then
      subAnchor tag notAt ae nv l :: fbSub startP tag ae nv false ls
    else
      l :: fbSub startP tag ae nv true ls

/-- The fallback's transformation of the content of the matching block. -/
def fbUpdateBlock (nr : Nat) (status : Line) (result : Option Line)
    (ls : List Line) : List Line :=
  let startP := fun l => scanLine (exact6At (strL "---STEP:" ++ pad3 nr ++ [':']) (strL "---")) l
  let ls1 := fbSub startP (strL "STATUS") false status false ls
  match result with
  | some r => fbSub startP (strL "RESULT") true (sanitizeFallback r) false ls1
  | none => ls1

/-- The fallback's `re.sub` over the whole file: text outside complete plan
blocks is preserved; a complete block is transformed iff its first
`@PLAN_ID:` anchor equals the target id. -/
def fbFileAux (pid : Line) (nr : Nat) (status : Line) (result : Option Line) :
    Option (Line × Line × List Line) → List Line → List Line
  | none, [] => []
  | some (_, m, acc), [] => m :: acc.reverse
  | none, l :: ls =>
    match scanLineO planStartAt l with
    | some pn => fbFileAux pid nr status result (some (pn, l, [])) ls
    | none => l :: fbFileAux pid nr status result none ls
  | some (pn, m, acc), l :: ls =>
    if containsL l (strL "<<<END_PLAN:" ++ pn ++ strL ">>>") then
      let content := acc.reverse
      let content2 :=
        if findAnchorLines (strL "PLAN_ID") notAt false content = some pid then
          fbUpdateBlock nr status result content
        else content
      (m :: content2) ++ l :: fbFileAux pid nr status result none ls
    else fbFileAux pid nr status result (some (pn, m, l :: acc)) ls

/-- Model of `_update_step_status_python_fallback`: the transformed lines,
the `_update_metadata` pass, and the unconditional `True` return value. -/
def fbUpdate (pid : Line) (nr : Nat) (status : Line) (result : Option Line)
    (ts : Line) (count : Nat) (file : List Line) : List Line × Bool :=
  (metaFullPass ts count (fbFileAux pid nr status result none file), true)

/-! ## `query_decomposition_call` (from `query_decomposition.py`)

After the LM call, the code runs `json.loads` on the response.  Only a
`JSONDecodeError` reaches the fallback branch that builds the synthetic
single-step plan; a successfully parsed dictionary is used as-is, with no
validation of step numbers, skill names or field lengths; parsed JSON that
is not a dictionary is wrapped as a zero-step plan (the inner
`isinstance(parsed_response, dict)` is always false on that branch). -/

/-- Outcome of `json.loads` on the LM response content. -/
inductive LMParse where
  | failure (errMsg : Line)
  | parsedDict (d : Decomp)
  | parsedNonDict
deriving Repr

/-- The synthetic plan built on a `JSONDecodeError`. -/
def errorResponse (userInput errMsg : Line) : Decomp :=
  { multi_steps := false,
    output_steps :=
      [{ step_nr := 1, skill_name := strL "final_response",
         rationale := strL "Error processing query: " ++ errMsg,
         sub_query := userInput }] }

/-- The decomposition result returned by `query_decomposition_call` as a
function of the parse outcome. -/
def decompositionOf (userInput : Line) (p : LMParse) : Decomp :=
  match p with
  | .failure e => errorResponse userInput e
  | .parsedDict d => d
  | .parsedNonDict => { multi_steps := false, output_steps := [] }

/-! ## The benchmark orchestrator
(`compare_context_engineering_optimization_on_off.py`) -/

/-- The connection-related keywords of `_is_retryable_error`, tested by
substring against both the error message and the exception type name. -/
def connectionKeywords : List Line :=
  [strL "ConnectionError", strL "Timeout", strL "timeout",
   strL "Connection reset", strL "Connection refused",
   strL "Network is unreachable", strL "Temporary failure",
   strL "Service temporarily unavailable"]

/-- Model of `_is_retryable_error`: substring tests on `str(exception)` and
`type(exception).__name__`. -/
def isRetryableError (errType errStr : Line) : Bool :=
  containsL errStr (strL "504") || containsL errStr (strL "Gateway Timeout") ||
  ([strL "502", strL "503", strL "504", strL "429"]).any
    (fun code => containsL errStr code) ||
  connectionKeywords.any (fun k => containsL errStr k || containsL errType k)

/-- The transient-error categories as the specification words them (HTTP
429, 502, 503, 504; connection reset, connection refused, timeout; DNS
failure), as a predicate on the error text.  This definition follows the
specification, not the code; it exists to compare the code's retry
predicate against the spec's list. -/
def specTransient (errStr : Line) : Bool :=
  ([strL "429", strL "502", strL "503", strL "504",
    strL "Connection reset", strL "Connection refused",
    strL "timeout", strL "Timeout",
    strL "DNS", strL "Name resolution", strL "name resolution"]).any
    (fun k => containsL errStr k)

/-- Outcome of one attempt of the function passed to
`_retry_with_backoff`. -/
inductive Attempt (α : Type) where
  | ok (a : α)
  | err (errType errStr : Line)

/-- Outcome of the whole retry loop. -/
inductive RetryOutcome (α : Type) where
  | ok (a : α)
  | raised (errType errStr : Line)
deriving Repr, DecidableEq

/-- The base delay before the retry following attempt `attempt`:
`min(initial_delay * backoff_factor ** attempt, max_delay)` with the
default parameters 2.0, 2.0 and 60.0. -/
def backoffBase (attempt : Nat) : ℚ := min ((2 : ℚ) * 2 ^ attempt) 60

/-- The slept delay: the capped base plus `delay * 0.2 * random.random()`
— additive jitter drawn from `[0, 0.2 * delay)`, applied after the cap. -/
def backoffDelay (attempt : Nat) (j : ℚ) : ℚ :=
  backoffBase attempt + backoffBase attempt * (1 / 5) * j

/-- The loop of `_retry_with_backoff`: `fuel` counts the remaining
iterations of `for attempt in range(max_retries + 1)`; a non-retryable
error is re-raised at once; on the last attempt the loop breaks and
re-raises the last error; otherwise the computed delay is slept and the
next attempt runs.  Returns the outcome and the list of slept delays. -/
def runRetryAux {α : Type} (f : Nat → Attempt α) (jit : Nat → ℚ) :
    Nat → Nat → RetryOutcome α × List ℚ
  | _, 0 => (.raised [] [], [])
  | attempt, fuel + 1 =>
    match f attempt with
    | .ok a => (.ok a, [])
    | .err ty st =>
      if isRetryableError ty st = false then (.raised ty st, [])
      else
        match fuel with
        | 0 => (.raised ty st, [])
        | _ + 1 =>
          let r := runRetryAux f jit (attempt + 1) fuel
          (r.1, backoffDelay attempt (jit attempt) :: r.2)

/-- `_retry_with_backoff` with its default arguments (`max_retries = 3`). -/
def runRetry {α : Type} (f : Nat → Attempt α) (jit : Nat → ℚ) :
    RetryOutcome α × List ℚ :=
  runRetryAux f jit 0 4

/-- The reserved skill names the stable-prompt orchestrator
(`run_query_with_optimization`) treats by LLM synthesis instead of a
skill subprocess. -/
def specialSkills : List Line :=
  [strL "final_response", strL "chitchat", strL "none"]

/-- What one loop iteration of `run_query_with_optimization` does to a
step: which external executor it uses, and the status and result passed to
`update_step_status`. -/
structure StepHandling where
  usedSkillSubprocess : Bool
  usedLLM : Bool
  status : Line
  result : Line
deriving Repr, DecidableEq

/-- Model of the step dispatch of `run_query_with_optimization`:
reserved skills (including `none`) get one LLM synthesis call and close as
`completed` with the truncated LLM content; other skills run through the
subprocess executor and close as `completed` or `failed` from its success
flag. -/
def handleStep (skill : Line) (llmContent : Line) (subSuccess : Bool)
    (subOutput subError : Line) : StepHandling :=
  if specialSkills.contains skill then
    { usedSkillSubprocess := false, usedLLM := true,
      status := strL "completed", result := llmContent.take 200 }
  else
    { usedSkillSubprocess := true, usedLLM := false,
      status := if subSuccess then strL "completed" else strL "failed",
      result := if subSuccess then subOutput.take 200
        else strL "Error: " ++ subError }

/-! ## Well-formedness

A plan file is well formed when its free-text values cannot be mistaken
for the markers and anchors of the format: values are `@`-free (the format
reserves `@`), newline-free (they sit on one line), and do not embed the
literal marker prefixes.  Context keys additionally avoid the marker head
characters and the two header tags rewritten by `_update_metadata`. -/

/-- The marker prefixes a well-formed free-text value never contains. -/
def badPats : List Line :=
  [strL "---STEP:", strL "---END_STEP:", strL "<<<PLAN:", strL "<<<END_PLAN:",
   strL ">>>QUERY:", strL "<<<QUERY:", strL ">>>CONTEXT:", strL "<<<CONTEXT:",
   strL ">>>STEPS:", strL "<<<STEPS:"]

/-- A clean free-text value. -/
def cleanVal (v : Line) : Bool :=
  v.all (fun c => !(c == '@') && !(c == '\n')) &&
    badPats.all (fun p => !(containsL v p))

/-- A clean context key (as rendered, after upper-casing): outside the
marker head characters and not one of the three anchor tags the format
itself rewrites or addresses (`LAST_UPDATED`, `TOTAL_PLANS`, `PLAN_ID`). -/
def cleanKey (k : Line) : Bool :=
  k.all (fun c => !(c == '@') && !(c == '\n') && !(c == '-') &&
    !(c == '<') && !(c == '>') && !(c == ':')) &&
  !(k == strL "LAST_UPDATED") && !(k == strL "TOTAL_PLANS") &&
  !(k == strL "PLAN_ID")

/-- Well-formedness of a stored step. -/
def wfStep (s : FStep) : Bool :=
  cleanVal s.skill_name && cleanVal s.rationale && cleanVal s.sub_query &&
  cleanVal s.status && !s.status.isEmpty && cleanVal s.result

/-- Well-formedness of a stored plan record. -/
def wfPlan (p : FPlan) : Bool :=
  cleanVal p.plan_id && !p.plan_id.isEmpty && cleanVal p.timestamp &&
  cleanVal p.query &&
  p.context.all (fun kv => cleanKey kv.1 && cleanVal kv.2) &&
  p.steps.all wfStep

/-- Well-formedness of a whole plan file. -/
def wfFile (F : FFile) : Bool :=
  cleanVal F.file_created && cleanVal F.last_updated && F.plans.all wfPlan

/-! ## Decomposition helpers for the sed commutation proof -/

/-- The anchor lines of one step block, between its two marker lines. -/
def stepAnchorLines (s : FStep) : List Line :=
  [atLine (strL "STEP_NR") (natChars s.step_nr),
   atLine (strL "SKILL_NAME") s.skill_name,
   atLine (strL "RATIONALE") s.rationale] ++
  (if s.sub_query.isEmpty then [] else [atLine (strL "SUB_QUERY") s.sub_query]) ++
  [atLine (strL "STATUS") s.status,
   atLine (strL "RESULT") s.result]

/-- A step block as the update sed command leaves it: the marker lines kept,
every anchor line passed through the substitution when the step is the
target of the address (padded step numbers equal), the block untouched
otherwise. -/
def stepBlockSub (tag : Line) (ae : Bool) (nv : Line) (nr : Nat) (pn : Line)
    (s : FStep) : List Line :=
  if pad3 s.step_nr = pad3 nr then
    [[], stepMarker s.step_nr pn] ++
    (stepAnchorLines s).map (subAnchor tag notAt ae nv) ++
    [endStepMarker s.step_nr pn]
  else stepLines pn s

/-- A plan entry as the update sed command leaves it when the entry's
`@PLAN_ID:` anchor matches: only the target step blocks change. -/
def planEntryLinesSub (tag : Line) (ae : Bool) (nv : Line) (nr : Nat)
    (p : FPlan) : List Line :=
  [[], strL "<<<PLAN:" ++ pad6 p.plan_num ++ strL ">>>",
   atLine (strL "PLAN_ID") p.plan_id,
   atLine (strL "PLAN_NUMBER") (pad6 p.plan_num),
   atLine (strL "TIMESTAMP") p.timestamp,
   atLine (strL "MULTI_STEPS") (boolChars p.multi_steps),
   atLine (strL "TOTAL_STEPS") (natChars p.total_steps),
   [], strL ">>>QUERY:" ++ pad6 p.plan_num ++ strL ">>>",
   p.query,
   strL "<<<QUERY:" ++ pad6 p.plan_num ++ strL "<<<"] ++
  ctxLines (pad6 p.plan_num) p.context ++
  [[], strL ">>>STEPS:" ++ pad6 p.plan_num ++ strL ">>>"] ++
  (p.steps.flatMap (stepBlockSub tag ae nv nr (pad6 p.plan_num))) ++
  [strL "<<<STEPS:" ++ pad6 p.plan_num ++ strL "<<<",
   [], strL "<<<END_PLAN:" ++ pad6 p.plan_num ++ strL ">>>",
   [], eqLine]

/-- Loose well-formedness of a step: clean values, without the
non-emptiness requirement on the status (the intermediate file between the
two sed passes of one `update_step_status` call satisfies this even when
the new status is the empty string). -/
def wfStepLoose (s : FStep) : Bool :=
  cleanVal s.skill_name && cleanVal s.rationale && cleanVal s.sub_query &&
  cleanVal s.status && cleanVal s.result

/-- Loose well-formedness of a plan record. -/
def wfPlanLoose (p : FPlan) : Bool :=
  cleanVal p.plan_id && cleanVal p.timestamp && cleanVal p.query &&
  p.context.all (fun kv => cleanKey kv.1 && cleanVal kv.2) &&
  p.steps.all wfStepLoose

/-- Loose well-formedness of a plan file. -/
def wfFileLoose (F : FFile) : Bool :=
  cleanVal F.file_created && cleanVal F.last_updated && F.plans.all wfPlanLoose

/-- `@`-freeness of the text fields of a step: all that the metadata pass
needs of a line outside the `@LAST_UPDATED:` header anchor. -/
def stepAtFree (s : FStep) : Prop :=
  '@' ∉ s.skill_name ∧ '@' ∉ s.rationale ∧ '@' ∉ s.sub_query ∧
  '@' ∉ s.status ∧ '@' ∉ s.result

/-- `@`-freeness of the text fields of a plan record (context keys must
stay clean so their anchors cannot spell a header tag). -/
def planAtFree (p : FPlan) : Prop :=
  '@' ∉ p.plan_id ∧ '@' ∉ p.timestamp ∧ '@' ∉ p.query ∧
  (∀ kv ∈ p.context, cleanKey kv.1 = true ∧ '@' ∉ kv.2) ∧
  ∀ s ∈ p.steps, stepAtFree s

/-- `@`-freeness of the text fields of a plan file. -/
def fileAtFree (F : FFile) : Prop :=
  '@' ∉ F.file_created ∧ '@' ∉ F.last_updated ∧ ∀ p ∈ F.plans, planAtFree p

/-- The content lines of a plan entry's block as the get_plan block regex
captures them: everything strictly between the plan marker line and the
end-plan marker line. -/
def blockLines (p : FPlan) : List Line :=
  atLine (strL "PLAN_ID") p.plan_id ::
  ([atLine (strL "PLAN_NUMBER") (pad6 p.plan_num),
    atLine (strL "TIMESTAMP") p.timestamp,
    atLine (strL "MULTI_STEPS") (boolChars p.multi_steps),
    atLine (strL "TOTAL_STEPS") (natChars p.total_steps),
    [], strL ">>>QUERY:" ++ pad6 p.plan_num ++ strL ">>>",
    p.query,
    strL "<<<QUERY:" ++ pad6 p.plan_num ++ strL "<<<"] ++
   ctxLines (pad6 p.plan_num) p.context ++
   [[], strL ">>>STEPS:" ++ pad6 p.plan_num ++ strL ">>>"] ++
   p.steps.flatMap (stepLines (pad6 p.plan_num)) ++
   [strL "<<<STEPS:" ++ pad6 p.plan_num ++ strL "<<<", []])

/-- The status-only step update performed by the first sed pass. -/
def updStepSt (nr : Nat) (st : Line) (s : FStep) : FStep :=
  if pad3 s.step_nr = pad3 nr then { s with status := st } else s

/-- The result-only step update performed by the second sed pass. -/
def updStepRes (nr : Nat) (rv : Line) (s : FStep) : FStep :=
  if pad3 s.step_nr = pad3 nr then { s with result := rv } else s

/-- Apply a step transformation to the plans whose id matches. -/
def updPlanBy (pid : Line) (f : FStep → FStep) (p : FPlan) : FPlan :=
  if p.plan_id = pid then { p with steps := p.steps.map f } else p

/-- Apply a step transformation to a whole file's matching plans. -/
def updFileBy (pid : Line) (f : FStep → FStep) (F : FFile) : FFile :=
  { F with plans := F.plans.map (updPlanBy pid f) }

/-! # Theorems -/

theorem containsL_nil (pat : List Char) : containsL [] pat = pat.isPrefixOf [] := by
  simp [containsL]

theorem containsL_cons (c : Char) (cs pat : List Char) :
    containsL (c :: cs) pat = (pat.isPrefixOf (c :: cs) || containsL cs pat) := rfl

/-! ## Substring scanning lemmas

The pattern matchers of the embedding are leftmost scanners; these lemmas
let a scan skip over value segments that cannot start or continue a
match. -/

theorem isPrefixOf_cc (a b : Char) (as bs : List Char) :
    (a :: as).isPrefixOf (b :: bs) = (a == b && as.isPrefixOf bs) := rfl

theorem isPrefixOf_self_append (l t : List Char) : l.isPrefixOf (l ++ t) = true := by
  simp [List.isPrefixOf_iff_prefix, List.prefix_append]

/-- A stop character absent from the pattern bounds a prefix match. -/
theorem isPrefixOf_append_stop {b : Char} :
    ∀ (p : List Char), b ∉ p → ∀ (v rest : List Char),
      p.isPrefixOf (v ++ b :: rest) = p.isPrefixOf v := by
  intro p
  induction p with
  | nil =>
    intro _ v rest
    simp [List.isPrefixOf]
  | cons a p' ih =>
    intro hb v rest
    cases v with
    | nil =>
      simp only [List.nil_append, isPrefixOf_cc]
      have hab : (a == b) = false := by
        simp only [beq_eq_false_iff_ne]
        intro h
        exact hb (h ▸ List.mem_cons_self a p')
      simp [hab, List.isPrefixOf]
    | cons c v' =>
      simp only [List.cons_append, isPrefixOf_cc]
      by_cases hac : a = c
      · subst hac
        rw [ih (fun h => hb (List.mem_cons_of_mem _ h)) v' rest]
      · simp [beq_eq_false_iff_ne.mpr hac]

/-- A stop character absent from the pattern splits a substring scan. -/
theorem containsL_append_stop {b : Char} {p : List Char} (hb : b ∉ p) (hp : p ≠ [])
    (v rest : List Char) :
    containsL (v ++ b :: rest) p = (containsL v p || containsL rest p) := by
  induction v with
  | nil =>
    obtain ⟨a, p', rfl⟩ : ∃ a p', p = a :: p' := by
      cases p with
      | nil => exact absurd rfl hp
      | cons a p' => exact ⟨a, p', rfl⟩
    simp only [List.nil_append, containsL_cons, containsL_nil, isPrefixOf_cc]
    have hab : (a == b) = false := by
      simp only [beq_eq_false_iff_ne]
      intro h
      exact hb (h ▸ List.mem_cons_self a p')
    simp [hab, List.isPrefixOf]
  | cons c v' ih =>
    simp only [List.cons_append, containsL_cons, ih]
    have h2 : p.isPrefixOf ((c :: v') ++ b :: rest) = p.isPrefixOf (c :: v') :=
      isPrefixOf_append_stop p hb (c :: v') rest
    rw [show c :: (v' ++ b :: rest) = (c :: v') ++ b :: rest from rfl, h2]
    simp [Bool.or_assoc]

/-- A value segment free of the pattern's head character is skipped by the
scan. -/
theorem containsL_append_headfree (hd : Char) (pt : List Char) (v rest : List Char)
    (hv : ∀ c ∈ v, ¬c = hd) :
    containsL (v ++ rest) (hd :: pt) = containsL rest (hd :: pt) := by
  induction v with
  | nil => rfl
  | cons c v' ih =>
    simp only [List.cons_append, containsL_cons, isPrefixOf_cc]
    have : (hd == c) = false := by
      simp only [beq_eq_false_iff_ne]
      intro h
      exact hv c (List.mem_cons_self c v') h.symm
    simp only [this, Bool.false_and, Bool.false_or]
    exact ih (fun c hc => hv c (List.mem_cons_of_mem _ hc))

/-- A line free of the pattern's head character contains no match. -/
theorem containsL_eq_false_headfree (hd : Char) (pt : List Char) (l : Line)
    (h : hd ∉ l) : containsL l (hd :: pt) = false := by
  have := containsL_append_headfree hd pt l [] (fun c hc => fun he => h (he ▸ hc))
  rw [List.append_nil] at this
  rw [this]
  rfl

/-- A match of a longer pattern contains a match of its prefix. -/
theorem containsL_mono_pre (s p q : List Char) :
    containsL s (p ++ q) = true → containsL s p = true := by
  induction s with
  | nil =>
    intro h
    rw [containsL_nil] at h ⊢
    rw [List.isPrefixOf_iff_prefix] at h ⊢
    exact ((List.prefix_append p q).trans h)
  | cons c s' ih =>
    intro h
    rw [containsL_cons] at h ⊢
    rcases Bool.or_eq_true_iff.mp h with h1 | h2
    · apply Bool.or_eq_true_iff.mpr
      left
      rw [List.isPrefixOf_iff_prefix] at h1 ⊢
      exact ((List.prefix_append p q).trans h1)
    · exact Bool.or_eq_true_iff.mpr (Or.inr (ih h2))

/-- Prefix comparison of two colon-terminated tags. -/
theorem prefix_tag_colon :
    ∀ (tag K : List Char), ':' ∉ tag → ':' ∉ K → ∀ (rest : List Char),
      (tag ++ [':']).isPrefixOf (K ++ ':' :: rest) = (tag == K) := by
  intro tag
  induction tag with
  | nil =>
    intro K _ hK rest
    cases K with
    | nil => simp [List.isPrefixOf]
    | cons k K' =>
      have : ((':' : Char) == k) = false := by
        simp only [beq_eq_false_iff_ne]
        intro h
        exact hK (h ▸ List.mem_cons_self k K')
      simp [List.isPrefixOf, this]
  | cons t T' ih =>
    intro K ht hK rest
    cases K with
    | nil =>
      have : ((t : Char) == ':') = false := by
        simp only [beq_eq_false_iff_ne]
        intro h
        exact ht (h ▸ List.mem_cons_self t T')
      simp [List.isPrefixOf, this]
    | cons k K' =>
      simp only [List.cons_append, isPrefixOf_cc, List.cons_beq_cons]
      rw [ih K' (fun h => ht (List.mem_cons_of_mem _ h))
        (fun h => hK (List.mem_cons_of_mem _ h)) rest]

/-- Prefix comparison of two `@`-terminated values (both `@`-free). -/
theorem prefix_val_at :
    ∀ (w v : List Char), '@' ∉ w → '@' ∉ v → ∀ (rest : List Char),
      (w ++ ['@']).isPrefixOf (v ++ '@' :: rest) = (w == v) := by
  intro w
  induction w with
  | nil =>
    intro v _ hv rest
    cases v with
    | nil => simp [List.isPrefixOf]
    | cons c v' =>
      have : (('@' : Char) == c) = false := by
        simp only [beq_eq_false_iff_ne]
        intro h
        exact hv (h ▸ List.mem_cons_self c v')
      simp [List.isPrefixOf, this]
  | cons a w' ih =>
    intro v hw hv rest
    cases v with
    | nil =>
      have : ((a : Char) == '@') = false := by
        simp only [beq_eq_false_iff_ne]
        intro h
        exact hw (h ▸ List.mem_cons_self a w')
      simp [List.isPrefixOf, this]
    | cons c v' =>
      simp only [List.cons_append, isPrefixOf_cc, List.cons_beq_cons]
      rw [ih v' (fun h => hw (List.mem_cons_of_mem _ h))
        (fun h => hv (List.mem_cons_of_mem _ h)) rest]

/-- General form: tag-and-colon prefixes compare tag-wise. -/
theorem prefix_tagX :
    ∀ (tag K : List Char), ':' ∉ tag → ':' ∉ K → ∀ (x y : List Char),
      (tag ++ ':' :: x).isPrefixOf (K ++ ':' :: y) = (tag == K && x.isPrefixOf y) := by
  intro tag
  induction tag with
  | nil =>
    intro K _ hK x y
    cases K with
    | nil => simp [List.isPrefixOf, isPrefixOf_cc]
    | cons k K' =>
      have : ((':' : Char) == k) = false := by
        simp only [beq_eq_false_iff_ne]
        intro h
        exact hK (h ▸ List.mem_cons_self k K')
      simp [isPrefixOf_cc, this]
  | cons t T' ih =>
    intro K ht hK x y
    cases K with
    | nil =>
      have : ((t : Char) == ':') = false := by
        simp only [beq_eq_false_iff_ne]
        intro h
        exact ht (h ▸ List.mem_cons_self t T')
      simp [isPrefixOf_cc, this]
    | cons k K' =>
      simp only [List.cons_append, isPrefixOf_cc, List.cons_beq_cons]
      rw [ih K' (fun h => ht (List.mem_cons_of_mem _ h))
        (fun h => hK (List.mem_cons_of_mem _ h)) x y]
      simp [Bool.and_assoc]

theorem append_cons_isPrefixOf_nil (l : List Char) (x : Char) (y : List Char) :
    (l ++ x :: y).isPrefixOf ([] : List Char) = false := by
  cases l <;> rfl

theorem containsL_single_at (p q : List Char) :
    containsL ['@'] ('@' :: (p ++ ':' :: q)) = false := by
  rw [containsL_cons, isPrefixOf_cc, append_cons_isPrefixOf_nil p ':' q]
  simp [containsL_nil, List.isPrefixOf]

/-- A non-empty segment whose characters do not occur in the pattern splits
a substring scan into the parts before and after it. -/
theorem containsL_block (v : Line) (hvne : v ≠ []) (p : List Char) (hp : p ≠ [])
    (hdisj : ∀ c ∈ v, c ∉ p) (w rest : Line) :
    containsL (w ++ v ++ rest) p = (containsL w p || containsL rest p) := by
  obtain ⟨c, v', rfl⟩ : ∃ c v', v = c :: v' := by
    cases v with
    | nil => exact absurd rfl hvne
    | cons c v' => exact ⟨c, v', rfl⟩
  obtain ⟨hd, pt, rfl⟩ : ∃ hd pt, p = hd :: pt := by
    cases p with
    | nil => exact absurd rfl hp
    | cons hd pt => exact ⟨hd, pt, rfl⟩
  rw [show w ++ (c :: v') ++ rest = w ++ c :: (v' ++ rest) from by simp]
  rw [containsL_append_stop (hdisj c (List.mem_cons_self c v')) (by simp) w (v' ++ rest)]
  rw [containsL_append_headfree hd pt v' rest
    (fun d hd2 he => hdisj d (List.mem_cons_of_mem _ hd2)
      (he ▸ List.mem_cons_self hd pt))]

theorem isPrefixOf_append_cancel (P A B : List Char) :
    (P ++ A).isPrefixOf (P ++ B) = A.isPrefixOf B := by
  induction P with
  | nil => rfl
  | cons p P' ih => simp [isPrefixOf_cc, ih]

/-! ## Digit string facts -/

theorem digitChar_isDigit (n : Nat) (h : n < 10) : (Nat.digitChar n).isDigit = true := by
  interval_cases n <;> decide

theorem natCharsAux_all_digit :
    ∀ (fuel n : Nat), ∀ c ∈ natCharsAux fuel n, c.isDigit = true := by
  intro fuel
  induction fuel with
  | zero => intro n c hc; simp [natCharsAux] at hc
  | succ f ih =>
    intro n c hc
    unfold natCharsAux at hc
    by_cases h : n < 10
    · rw [if_pos h] at hc
      simp only [List.mem_singleton] at hc
      subst hc
      exact digitChar_isDigit n h
    · rw [if_neg h] at hc
      rcases List.mem_append.mp hc with h1 | h2
      · exact ih (n / 10) c h1
      · simp only [List.mem_singleton] at h2
        subst h2
        exact digitChar_isDigit _ (Nat.mod_lt n (by omega))

theorem natChars_all_digit (n : Nat) : ∀ c ∈ natChars n, c.isDigit = true :=
  natCharsAux_all_digit (n + 1) n

theorem natChars_ne_nil (n : Nat) : natChars n ≠ [] := by
  unfold natChars natCharsAux
  by_cases h : n < 10
  · simp [h]
  · simp [h]

theorem pad3_all_digit (n : Nat) : ∀ c ∈ pad3 n, c.isDigit = true := by
  intro c hc
  unfold pad3 at hc
  rcases List.mem_append.mp hc with h1 | h2
  · rw [List.eq_of_mem_replicate h1]
    decide
  · exact natChars_all_digit n c h2

theorem pad3_ne_nil (n : Nat) : pad3 n ≠ [] := by
  unfold pad3
  intro h
  rcases List.append_eq_nil.mp h with ⟨_, h2⟩
  exact natChars_ne_nil n h2

theorem pad6_all_digit (n : Nat) : ∀ c ∈ pad6 n, c.isDigit = true := by
  intro c hc
  unfold pad6 at hc
  rcases List.mem_append.mp hc with h1 | h2
  · rw [List.eq_of_mem_replicate h1]
    decide
  · exact natChars_all_digit n c h2

theorem pad6_ne_nil (n : Nat) : pad6 n ≠ [] := by
  unfold pad6
  intro h
  rcases List.append_eq_nil.mp h with ⟨_, h2⟩
  exact natChars_ne_nil n h2

/-- Splitting at a digit block: the block's characters avoid any pattern
made of non-digit characters. -/
theorem containsL_digit_block (d : Line) (hd : d ≠ []) (hdig : ∀ c ∈ d, c.isDigit = true)
    (p : List Char) (hp : p ≠ []) (hpd : ∀ c ∈ p, c.isDigit = false) (w rest : Line) :
    containsL (w ++ d ++ rest) p = (containsL w p || containsL rest p) :=
  containsL_block d hd p hp
    (fun c hc hcp => by
      have h1 := hdig c hc
      have h2 := hpd c hcp
      rw [h1] at h2
      exact absurd h2 (by decide))
    w rest

/-! ## Step-marker address lemmas -/

theorem takeWhile_all_stop (keep : Char → Bool) :
    ∀ (v : List Char) (x : Char) (rest : List Char), (∀ c ∈ v, keep c = true) →
      keep x = false → (v ++ x :: rest).takeWhile keep = v := by
  intro v
  induction v with
  | nil =>
    intro x rest _ hx
    simp [List.takeWhile_cons, hx]
  | cons c v' ih =>
    intro x rest hv hx
    simp only [List.cons_append, List.takeWhile_cons, hv c (List.mem_cons_self c v'),
      if_true]
    rw [ih x rest (fun d hd => hv d (List.mem_cons_of_mem _ hd)) hx]


theorem hasStepPat_nil (pre : Line) : hasStepPat pre [] = false := rfl

theorem hasStepPat_cons (pre : Line) (c : Char) (cs : Line) :
    hasStepPat pre (c :: cs) = (stepPatAt pre (c :: cs) || hasStepPat pre cs) := rfl

theorem hasStepPat_of_not_contains (pre : Line) :
    ∀ (l : Line), containsL l pre = false → hasStepPat pre l = false := by
  intro l
  induction l with
  | nil => intro _; rfl
  | cons c cs ih =>
    intro h
    rw [containsL_cons] at h
    rcases Bool.or_eq_false_iff.mp h with ⟨h1, h2⟩
    rw [hasStepPat_cons]
    have hs : stepPatAt pre (c :: cs) = false := by
      unfold stepPatAt
      rw [h1]
      rfl
    rw [hs, ih h2]
    rfl

theorem isPrefixOf_append_mismatch (a b : Char) (hab : a ≠ b) (P A B X Y : Line) :
    ((P ++ a :: A) ++ X).isPrefixOf ((P ++ b :: B) ++ Y) = false := by
  rw [show ((P ++ a :: A) ++ X : Line) = P ++ (a :: (A ++ X)) from by simp,
    show ((P ++ b :: B) ++ Y : Line) = P ++ (b :: (B ++ Y)) from by simp,
    isPrefixOf_append_cancel, isPrefixOf_cc]
  simp [beq_eq_false_iff_ne.mpr hab]

/-- The generic positive case: the address matches at the very start of a
marker whose digit run follows immediately. -/
theorem stepPatAt_exact (pre pn : Line) (hpn : ∀ c ∈ pn, c.isDigit = true)
    (hpne : pn ≠ []) :
    stepPatAt pre (pre ++ (pn ++ strL "---")) = true := by
  simp only [stepPatAt]
  rw [isPrefixOf_self_append, List.drop_left]
  rw [show strL "---" = '-' :: strL "--" from rfl]
  rw [takeWhile_all_stop Char.isDigit pn '-' (strL "--") hpn (by decide)]
  rw [List.drop_left]
  have hne : pn.isEmpty = false := by
    cases pn with
    | nil => exact absurd rfl hpne
    | cons c cs => rfl
  simp [hne]

/-- No occurrence of a dash-word pattern in the tail of a step marker
(everything after its first character). -/
theorem contains_marker_tail (wtail : Line) (m : Nat) (pn : Line)
    (hpn : ∀ c ∈ pn, c.isDigit = true) (hpne : pn ≠ [])
    (p : List Char) (hp : p ≠ []) (hpd : ∀ c ∈ p, c.isDigit = false)
    (hphead : ∀ pt, p = ':' :: pt → False)
    (h1 : containsL wtail p = false) (h2 : containsL (strL "---") p = false) :
    containsL (wtail ++ (pad3 m ++ ':' :: (pn ++ strL "---"))) p = false := by
  rw [show (wtail ++ (pad3 m ++ ':' :: (pn ++ strL "---")) : Line) =
    wtail ++ pad3 m ++ (':' :: (pn ++ strL "---")) from by simp]
  rw [containsL_digit_block (pad3 m) (pad3_ne_nil m) (pad3_all_digit m) p hp hpd]
  rw [h1]
  obtain ⟨hd, pt, rfl⟩ : ∃ hd pt, p = hd :: pt := by
    cases p with
    | nil => exact absurd rfl hp
    | cons hd pt => exact ⟨hd, pt, rfl⟩
  rw [containsL_cons, isPrefixOf_cc]
  have hcol : (hd == ':') = false := by
    simp only [beq_eq_false_iff_ne]
    intro h
    exact hphead pt (by rw [h])
  rw [show (pn ++ strL "---" : Line) = [] ++ pn ++ strL "---" from by simp]
  rw [containsL_digit_block pn hpne hpn (hd :: pt) (by simp) hpd]
  rw [h2, containsL_nil]
  rw [show ([] : List Char) = ([] : Line) from rfl]
  simp [hcol, List.isPrefixOf]

/-- The sed address for step `nr` matches a step marker exactly when the
padded numbers agree. -/
theorem hasStepPat_stepMarker (nr m : Nat) (pn : Line)
    (hpn : ∀ c ∈ pn, c.isDigit = true) (hpne : pn ≠ []) :
    hasStepPat (strL "---STEP:" ++ pad3 nr ++ [':']) (stepMarker m pn) =
      (pad3 nr == pad3 m) := by
  have hcons : stepMarker m pn =
      '-' :: (strL "--STEP:" ++ (pad3 m ++ ':' :: (pn ++ strL "---"))) := by
    unfold stepMarker
    rw [show strL "---STEP:" = '-' :: strL "--STEP:" from rfl]
    simp
  rw [hcons, hasStepPat_cons, ← hcons]
  have htail : hasStepPat (strL "---STEP:" ++ pad3 nr ++ [':'])
      (strL "--STEP:" ++ (pad3 m ++ ':' :: (pn ++ strL "---"))) = false := by
    apply hasStepPat_of_not_contains
    have hmono := containsL_mono_pre
      (strL "--STEP:" ++ (pad3 m ++ ':' :: (pn ++ strL "---")))
      (strL "---STEP:") (pad3 nr ++ [':'])
    have hbase : containsL (strL "--STEP:" ++ (pad3 m ++ ':' :: (pn ++ strL "---")))
        (strL "---STEP:") = false := by
      apply contains_marker_tail _ m pn hpn hpne _ (by decide) (by decide)
        (fun pt h => by simp [strL] at h) (by decide) (by decide)
    rw [show (strL "---STEP:" ++ pad3 nr ++ [':'] : Line) =
      strL "---STEP:" ++ (pad3 nr ++ [':']) from by simp]
    cases hc : containsL (strL "--STEP:" ++ (pad3 m ++ ':' :: (pn ++ strL "---")))
        (strL "---STEP:" ++ (pad3 nr ++ [':'])) with
    | false => rfl
    | true => rw [hmono hc] at hbase; exact absurd hbase (by simp)
  rw [htail]
  by_cases he : pad3 nr = pad3 m
  · rw [he]
    have hm : stepMarker m pn =
        (strL "---STEP:" ++ pad3 m ++ [':']) ++ (pn ++ strL "---") := by simp [stepMarker]
    rw [hm, stepPatAt_exact _ pn hpn hpne]
    simp [beq_iff_eq, he]
  · have hpre : (strL "---STEP:" ++ pad3 nr ++ [':']).isPrefixOf (stepMarker m pn) =
        false := by
      rw [show stepMarker m pn =
        strL "---STEP:" ++ (pad3 m ++ ':' :: (pn ++ strL "---")) from by simp [stepMarker]]
      rw [show (strL "---STEP:" ++ pad3 nr ++ [':'] : Line) =
        strL "---STEP:" ++ (pad3 nr ++ [':']) from by simp]
      rw [isPrefixOf_append_cancel]
      rw [prefix_tag_colon (pad3 nr) (pad3 m)
        (fun h => by have := pad3_all_digit nr ':' h; simp at this)
        (fun h => by have := pad3_all_digit m ':' h; simp at this)]
      simp [beq_eq_false_iff_ne.mpr he]
    unfold stepPatAt
    rw [hpre]
    simp [beq_eq_false_iff_ne.mpr he]

/-- The end-step address never matches a step marker. -/
theorem hasStepPat_end_on_stepMarker (nr m : Nat) (pn : Line)
    (hpn : ∀ c ∈ pn, c.isDigit = true) (hpne : pn ≠ []) :
    hasStepPat (strL "---END_STEP:" ++ pad3 nr ++ [':']) (stepMarker m pn) = false := by
  apply hasStepPat_of_not_contains
  have hshape : stepMarker m pn =
      strL "---STEP:" ++ (pad3 m ++ ':' :: (pn ++ strL "---")) := by
    unfold stepMarker
    simp
  have hbase : containsL (stepMarker m pn) (strL "---END_STEP:") = false := by
    rw [hshape]
    apply contains_marker_tail _ m pn hpn hpne _ (by decide) (by decide)
      (fun pt h => by simp [strL] at h) (by decide) (by decide)
  rw [show (strL "---END_STEP:" ++ pad3 nr ++ [':'] : Line) =
    strL "---END_STEP:" ++ (pad3 nr ++ [':']) from by simp]
  cases hc : containsL (stepMarker m pn) (strL "---END_STEP:" ++ (pad3 nr ++ [':'])) with
  | false => rfl
  | true =>
    rw [containsL_mono_pre _ _ _ hc] at hbase
    exact absurd hbase (by simp)

/-- The step address never matches an end-step marker. -/
theorem hasStepPat_step_on_endMarker (nr m : Nat) (pn : Line)
    (hpn : ∀ c ∈ pn, c.isDigit = true) (hpne : pn ≠ []) :
    hasStepPat (strL "---STEP:" ++ pad3 nr ++ [':']) (endStepMarker m pn) = false := by
  apply hasStepPat_of_not_contains
  have hshape : endStepMarker m pn =
      strL "---END_STEP:" ++ (pad3 m ++ ':' :: (pn ++ strL "---")) := by
    unfold endStepMarker
    simp
  have hbase : containsL (endStepMarker m pn) (strL "---STEP:") = false := by
    rw [hshape]
    apply contains_marker_tail _ m pn hpn hpne _ (by decide) (by decide)
      (fun pt h => by simp [strL] at h) (by decide) (by decide)
  rw [show (strL "---STEP:" ++ pad3 nr ++ [':'] : Line) =
    strL "---STEP:" ++ (pad3 nr ++ [':']) from by simp]
  cases hc : containsL (endStepMarker m pn) (strL "---STEP:" ++ (pad3 nr ++ [':'])) with
  | false => rfl
  | true =>
    rw [containsL_mono_pre _ _ _ hc] at hbase
    exact absurd hbase (by simp)

/-- The end-step address matches an end-step marker exactly when the padded
numbers agree. -/
theorem hasStepPat_endMarker (nr m : Nat) (pn : Line)
    (hpn : ∀ c ∈ pn, c.isDigit = true) (hpne : pn ≠ []) :
    hasStepPat (strL "---END_STEP:" ++ pad3 nr ++ [':']) (endStepMarker m pn) =
      (pad3 nr == pad3 m) := by
  have hcons : endStepMarker m pn =
      '-' :: (strL "--END_STEP:" ++ (pad3 m ++ ':' :: (pn ++ strL "---"))) := by
    unfold endStepMarker
    rw [show strL "---END_STEP:" = '-' :: strL "--END_STEP:" from rfl]
    simp
  rw [hcons, hasStepPat_cons, ← hcons]
  have htail : hasStepPat (strL "---END_STEP:" ++ pad3 nr ++ [':'])
      (strL "--END_STEP:" ++ (pad3 m ++ ':' :: (pn ++ strL "---"))) = false := by
    apply hasStepPat_of_not_contains
    have hbase : containsL (strL "--END_STEP:" ++ (pad3 m ++ ':' :: (pn ++ strL "---")))
        (strL "---END_STEP:") = false := by
      apply contains_marker_tail _ m pn hpn hpne _ (by decide) (by decide)
        (fun pt h => by simp [strL] at h) (by decide) (by decide)
    rw [show (strL "---END_STEP:" ++ pad3 nr ++ [':'] : Line) =
      strL "---END_STEP:" ++ (pad3 nr ++ [':']) from by simp]
    cases hc : containsL (strL "--END_STEP:" ++ (pad3 m ++ ':' :: (pn ++ strL "---")))
        (strL "---END_STEP:" ++ (pad3 nr ++ [':'])) with
    | false => rfl
    | true =>
      rw [containsL_mono_pre _ _ _ hc] at hbase
      exact absurd hbase (by simp)
  rw [htail]
  by_cases he : pad3 nr = pad3 m
  · rw [he]
    have hm : endStepMarker m pn =
        (strL "---END_STEP:" ++ pad3 m ++ [':']) ++ (pn ++ strL "---") := by
      simp [endStepMarker]
    rw [hm, stepPatAt_exact _ pn hpn hpne]
    simp [beq_iff_eq, he]
  · have hpre : (strL "---END_STEP:" ++ pad3 nr ++ [':']).isPrefixOf
        (endStepMarker m pn) = false := by
      rw [show endStepMarker m pn =
        strL "---END_STEP:" ++ (pad3 m ++ ':' :: (pn ++ strL "---"))
        from by simp [endStepMarker]]
      rw [show (strL "---END_STEP:" ++ pad3 nr ++ [':'] : Line) =
        strL "---END_STEP:" ++ (pad3 nr ++ [':']) from by simp]
      rw [isPrefixOf_append_cancel]
      rw [prefix_tag_colon (pad3 nr) (pad3 m)
        (fun h => by have := pad3_all_digit nr ':' h; simp at this)
        (fun h => by have := pad3_all_digit m ':' h; simp at this)]
      simp [beq_eq_false_iff_ne.mpr he]
    unfold stepPatAt
    rw [hpre]
    simp [beq_eq_false_iff_ne.mpr he]

/-! ## Anchor matching and substitution lemmas -/

/-- The anchor matcher succeeds at the start of a rendered anchor. -/
theorem anchorAt_pos (tag : Line) (keep : Char → Bool) (ae : Bool) (v rest : Line)
    (hv : ∀ c ∈ v, keep c = true) (hk : keep '@' = false)
    (hok : (ae || !v.isEmpty) = true) :
    anchorAt tag keep ae (atLine tag v ++ rest) = some (v, rest) := by
  have hshape : atLine tag v ++ rest = ('@' :: tag ++ [':']) ++ (v ++ '@' :: rest) := by
    simp [atLine]
  have hlen : ('@' :: tag ++ [':']).length = tag.length + 2 := by
    simp
  unfold anchorAt
  rw [hshape, isPrefixOf_self_append, ← hlen, List.drop_left]
  simp only [takeWhile_all_stop keep v '@' rest hv hk, List.drop_left]
  simp [hok]

/-- The anchor substitution rewrites exactly the rendered anchor line. -/
theorem subAnchor_atLine (tag : Line) (keep : Char → Bool) (ae : Bool) (nv v : Line)
    (hv : ∀ c ∈ v, keep c = true) (hk : keep '@' = false)
    (hok : (ae || !v.isEmpty) = true) :
    subAnchor tag keep ae nv (atLine tag v) = atLine tag nv := by
  have ha : anchorAt tag keep ae (atLine tag v) = some (v, []) := by
    have := anchorAt_pos tag keep ae v [] hv hk hok
    rwa [List.append_nil] at this
  rw [show atLine tag v = '@' :: (tag ++ ':' :: v ++ ['@']) from rfl] at ha ⊢
  simp only [subAnchor, ha]
  simp [atLine]

/-- The anchor search captures exactly the rendered anchor value. -/
theorem findAnchorIn_atLine (tag : Line) (keep : Char → Bool) (ae : Bool) (v : Line)
    (hv : ∀ c ∈ v, keep c = true) (hk : keep '@' = false)
    (hok : (ae || !v.isEmpty) = true) :
    findAnchorIn tag keep ae (atLine tag v) = some v := by
  have ha : anchorAt tag keep ae (atLine tag v) = some (v, []) := by
    have := anchorAt_pos tag keep ae v [] hv hk hok
    rwa [List.append_nil] at this
  rw [show atLine tag v = '@' :: (tag ++ ':' :: v ++ ['@']) from rfl] at ha ⊢
  simp only [findAnchorIn, ha]

/-- A line with no occurrence of `@TAG:` is untouched by the anchor
substitution. -/
theorem subAnchor_noPat (tag : Line) (keep : Char → Bool) (ae : Bool) (nv : Line) :
    ∀ (l : Line), containsL l ('@' :: tag ++ [':']) = false →
      subAnchor tag keep ae nv l = l := by
  intro l
  induction l with
  | nil => intro _; rfl
  | cons c cs ih =>
    intro h
    rw [containsL_cons] at h
    rcases Bool.or_eq_false_iff.mp h with ⟨h1, h2⟩
    have ha : anchorAt tag keep ae (c :: cs) = none := by
      unfold anchorAt
      rw [h1]
      simp
    simp only [subAnchor, ha]
    rw [ih h2]

/-- A line with no occurrence of `@TAG:` yields no anchor capture. -/
theorem findAnchorIn_noPat (tag : Line) (keep : Char → Bool) (ae : Bool) :
    ∀ (l : Line), containsL l ('@' :: tag ++ [':']) = false →
      findAnchorIn tag keep ae l = none := by
  intro l
  induction l with
  | nil => intro _; rfl
  | cons c cs ih =>
    intro h
    rw [containsL_cons] at h
    rcases Bool.or_eq_false_iff.mp h with ⟨h1, h2⟩
    have ha : anchorAt tag keep ae (c :: cs) = none := by
      unfold anchorAt
      rw [h1]
      simp
    simp only [findAnchorIn, ha]
    rw [ih h2]

/-- An anchor line of a different tag has no occurrence of `@TAG:`. -/
theorem contains_tagpat_atLine (tag K v : Line) (hne : tag ≠ K)
    (htag : ':' ∉ tag) (hK : ':' ∉ K) (hKat : '@' ∉ K) (hv : '@' ∉ v) :
    containsL (atLine K v) ('@' :: (tag ++ [':'])) = false := by
  rw [show atLine K v = '@' :: (K ++ ':' :: (v ++ ['@'])) from by simp [atLine]]
  rw [containsL_cons]
  apply Bool.or_eq_false_iff.mpr
  constructor
  · rw [isPrefixOf_cc]
    rw [prefix_tagX tag K htag hK [] (v ++ ['@'])]
    simp [beq_eq_false_iff_ne.mpr hne]
  · rw [containsL_append_headfree '@' (tag ++ [':']) K (':' :: (v ++ ['@']))
      (fun c hc he => hKat (he ▸ hc))]
    rw [containsL_cons, isPrefixOf_cc]
    have h1 : (('@' : Char) == ':') = false := by decide
    rw [containsL_append_headfree '@' (tag ++ [':']) v ['@']
      (fun c hc he => hv (he ▸ hc))]
    rw [containsL_single_at tag []]
    simp [h1]

/-- Occurrence of a full anchor pattern `@T:w@` in a rendered anchor line
`@K:v@`: exactly when both tag and value agree. -/
theorem contains_fullpat_atLine (T w K v : Line)
    (hT : ':' ∉ T) (hK : ':' ∉ K) (hKat : '@' ∉ K) (hw : '@' ∉ w) (hv : '@' ∉ v) :
    containsL (atLine K v) (atLine T w) = (T == K && w == v) := by
  rw [show atLine K v = '@' :: (K ++ ':' :: (v ++ ['@'])) from by simp [atLine],
    show atLine T w = '@' :: (T ++ ':' :: (w ++ ['@'])) from by simp [atLine]]
  rw [containsL_cons, isPrefixOf_cc]
  have hpos : (T ++ ':' :: (w ++ ['@'])).isPrefixOf (K ++ ':' :: (v ++ ['@'])) =
      (T == K && w == v) := by
    rw [prefix_tagX T K hT hK (w ++ ['@']) (v ++ ['@'])]
    rw [show (v ++ ['@'] : List Char) = v ++ '@' :: [] from by simp]
    rw [prefix_val_at w v hw hv []]
  rw [hpos]
  have htail : containsL (K ++ ':' :: (v ++ ['@'])) ('@' :: (T ++ ':' :: (w ++ ['@']))) =
      false := by
    rw [containsL_append_headfree '@' (T ++ ':' :: (w ++ ['@'])) K (':' :: (v ++ ['@']))
      (fun c hc he => hKat (he ▸ hc))]
    rw [containsL_cons, isPrefixOf_cc]
    have h1 : (('@' : Char) == ':') = false := by decide
    rw [containsL_append_headfree '@' (T ++ ':' :: (w ++ ['@'])) v ['@']
      (fun c hc he => hv (he ▸ hc))]
    rw [containsL_single_at T (w ++ ['@'])]
    simp [h1]
  rw [htail]
  simp

/-- A pattern that starts with a character other than `@` and `:` and
outside the tag scans an anchor line only inside the value. -/
theorem contains_atLine_head (K v : Line) (hd : Char) (pt : List Char)
    (hp : '@' ∉ hd :: pt) (hK : hd ∉ K) (hcol : hd ≠ ':') :
    containsL (atLine K v) (hd :: pt) = containsL v (hd :: pt) := by
  rw [show atLine K v = '@' :: (K ++ ':' :: (v ++ ['@'])) from by simp [atLine]]
  rw [containsL_cons, isPrefixOf_cc]
  have h1 : (hd == '@') = false := by
    simp only [beq_eq_false_iff_ne]
    intro h
    exact hp (h ▸ List.mem_cons_self hd pt)
  rw [containsL_append_headfree hd pt K (':' :: (v ++ ['@']))
    (fun c hc he => hK (he ▸ hc))]
  rw [containsL_cons, isPrefixOf_cc]
  have h2 : (hd == ':') = false := beq_eq_false_iff_ne.mpr hcol
  rw [show (v ++ ['@'] : Line) = v ++ '@' :: [] from by simp]
  rw [containsL_append_stop hp (by simp) v []]
  simp [h1, h2, containsL_nil, List.isPrefixOf]

/-! ## Clean-value accessors -/

theorem cleanVal_at {v : Line} (h : cleanVal v = true) : '@' ∉ v := by
  intro hm
  unfold cleanVal at h
  rw [Bool.and_eq_true, List.all_eq_true] at h
  have := h.1 '@' hm
  simp at this

theorem cleanVal_nl {v : Line} (h : cleanVal v = true) : '\n' ∉ v := by
  intro hm
  unfold cleanVal at h
  rw [Bool.and_eq_true, List.all_eq_true] at h
  have := h.1 '\n' hm
  simp at this

theorem cleanVal_pat {v : Line} (h : cleanVal v = true) (p : Line)
    (hp : p ∈ badPats) : containsL v p = false := by
  unfold cleanVal at h
  rw [Bool.and_eq_true, List.all_eq_true, List.all_eq_true] at h
  have := h.2 p hp
  simp only [Bool.not_eq_true'] at this
  exact this

theorem cleanKey_not_mem {k : Line} (h : cleanKey k = true) (c : Char)
    (hc : (c = '@' ∨ c = '\n' ∨ c = '-' ∨ c = '<' ∨ c = '>' ∨ c = ':')) : c ∉ k := by
  intro hmk
  unfold cleanKey at h
  simp only [Bool.and_eq_true] at h
  rw [List.all_eq_true] at h
  have := h.1.1.1 c hmk
  rcases hc with h1 | h1 | h1 | h1 | h1 | h1 <;> subst h1 <;> simp at this

theorem cleanKey_ne {k : Line} (h : cleanKey k = true) :
    k ≠ strL "LAST_UPDATED" ∧ k ≠ strL "TOTAL_PLANS" := by
  unfold cleanKey at h
  simp only [Bool.and_eq_true] at h
  constructor
  · have := h.1.1.2
    simp only [Bool.not_eq_true'] at this
    exact fun he => by rw [beq_eq_false_iff_ne] at this; exact this he
  · have := h.1.2
    simp only [Bool.not_eq_true'] at this
    exact fun he => by rw [beq_eq_false_iff_ne] at this; exact this he

theorem cleanKey_ne_plan {k : Line} (h : cleanKey k = true) :
    strL "PLAN_ID" ≠ k := by
  unfold cleanKey at h
  simp only [Bool.and_eq_true] at h
  have := h.2
  simp only [Bool.not_eq_true'] at this
  rw [beq_eq_false_iff_ne] at this
  exact fun he => this he.symm

/-- Membership helper: a word-digits-word marker is `@`-free. -/
theorem at_not_mem_marker {w1 w2 pn : Line} (h1 : '@' ∉ w1) (h2 : '@' ∉ w2)
    (hpn : ∀ c ∈ pn, c.isDigit = true) : '@' ∉ w1 ++ pn ++ w2 := by
  intro hm
  rcases List.mem_append.mp hm with hm1 | hm2
  · rcases List.mem_append.mp hm1 with hm3 | hm4
    · exact h1 hm3
    · have := hpn '@' hm4
      simp at this
  · exact h2 hm2

/-! ## Per-line behaviour of the update sed command -/

theorem updCfg_outerStart_eq (pid : Line) (nr : Nat) (tag : Line) (ae : Bool)
    (nv l : Line) :
    (updCfg pid nr tag ae nv).outerStart l =
      containsL l (atLine (strL "PLAN_ID") pid) := rfl

theorem updCfg_outerEnd_eq (pid : Line) (nr : Nat) (tag : Line) (ae : Bool)
    (nv l : Line) :
    (updCfg pid nr tag ae nv).outerEnd l = containsL l (strL "<<<END_PLAN:") := rfl

theorem updCfg_innerStart_eq (pid : Line) (nr : Nat) (tag : Line) (ae : Bool)
    (nv l : Line) :
    (updCfg pid nr tag ae nv).innerStart l =
      hasStepPat (strL "---STEP:" ++ pad3 nr ++ [':']) l := rfl

theorem updCfg_innerEnd_eq (pid : Line) (nr : Nat) (tag : Line) (ae : Bool)
    (nv l : Line) :
    (updCfg pid nr tag ae nv).innerEnd l =
      hasStepPat (strL "---END_STEP:" ++ pad3 nr ++ [':']) l := rfl

theorem updCfg_sub_eq (pid : Line) (nr : Nat) (tag : Line) (ae : Bool)
    (nv l : Line) :
    (updCfg pid nr tag ae nv).sub l = subAnchor tag notAt ae nv l := rfl

theorem contains_base_of_pre {l base ext : Line}
    (hbase : containsL l base = false) :
    containsL l (base ++ ext) = false := by
  cases hc : containsL l (base ++ ext) with
  | false => rfl
  | true =>
    rw [containsL_mono_pre _ _ _ hc] at hbase
    exact absurd hbase (by simp)

theorem updCfg_atLine_facts (pid : Line) (nr : Nat) (tag : Line) (ae : Bool) (nv : Line)
    (K v : Line)
    (hKc : ':' ∉ K) (hKat : '@' ∉ K) (hKdash : '-' ∉ K) (hKlt : '<' ∉ K)
    (hpidat : '@' ∉ pid) (htagc : ':' ∉ tag)
    (hvat : '@' ∉ v)
    (hvstep : containsL v (strL "---STEP:") = false)
    (hvend : containsL v (strL "---END_STEP:") = false)
    (hvplan : containsL v (strL "<<<END_PLAN:") = false) :
    (updCfg pid nr tag ae nv).outerStart (atLine K v) =
      (strL "PLAN_ID" == K && pid == v) ∧
    (updCfg pid nr tag ae nv).outerEnd (atLine K v) = false ∧
    (updCfg pid nr tag ae nv).innerStart (atLine K v) = false ∧
    (updCfg pid nr tag ae nv).innerEnd (atLine K v) = false ∧
    (tag ≠ K → (updCfg pid nr tag ae nv).sub (atLine K v) = atLine K v) := by
  refine ⟨?_, ?_, ?_, ?_, ?_⟩
  · rw [updCfg_outerStart_eq]
    exact contains_fullpat_atLine (strL "PLAN_ID") pid K v (by decide) hKc hKat
      hpidat hvat
  · rw [updCfg_outerEnd_eq]
    rw [show strL "<<<END_PLAN:" = '<' :: strL "<<END_PLAN:" from rfl]
    rw [contains_atLine_head K v '<' _ (by decide) hKlt (by decide)]
    rw [← show strL "<<<END_PLAN:" = '<' :: strL "<<END_PLAN:" from rfl]
    exact hvplan
  · rw [updCfg_innerStart_eq]
    apply hasStepPat_of_not_contains
    have hbase : containsL (atLine K v) (strL "---STEP:") = false := by
      rw [show strL "---STEP:" = '-' :: strL "--STEP:" from rfl]
      rw [contains_atLine_head K v '-' _ (by decide) hKdash (by decide)]
      rw [← show strL "---STEP:" = '-' :: strL "--STEP:" from rfl]
      exact hvstep
    rw [show (strL "---STEP:" ++ pad3 nr ++ [':'] : Line) =
      strL "---STEP:" ++ (pad3 nr ++ [':']) from by simp]
    exact contains_base_of_pre hbase
  · rw [updCfg_innerEnd_eq]
    apply hasStepPat_of_not_contains
    have hbase : containsL (atLine K v) (strL "---END_STEP:") = false := by
      rw [show strL "---END_STEP:" = '-' :: strL "--END_STEP:" from rfl]
      rw [contains_atLine_head K v '-' _ (by decide) hKdash (by decide)]
      rw [← show strL "---END_STEP:" = '-' :: strL "--END_STEP:" from rfl]
      exact hvend
    rw [show (strL "---END_STEP:" ++ pad3 nr ++ [':'] : Line) =
      strL "---END_STEP:" ++ (pad3 nr ++ [':']) from by simp]
    exact contains_base_of_pre hbase
  · intro hne
    rw [updCfg_sub_eq]
    apply subAnchor_noPat
    rw [show (('@' :: tag ++ [':']) : Line) = '@' :: (tag ++ [':']) from by simp]
    exact contains_tagpat_atLine tag K v hne htagc hKc hKat hvat

theorem updCfg_wmarker_facts (pid : Line) (nr : Nat) (tag : Line) (ae : Bool)
    (nv : Line) (w1 w2 pn : Line)
    (hpn : ∀ c ∈ pn, c.isDigit = true) (hpne : pn ≠ [])
    (hw1at : '@' ∉ w1) (hw2at : '@' ∉ w2)
    (hstep1 : containsL w1 (strL "---STEP:") = false)
    (hstep2 : containsL w2 (strL "---STEP:") = false)
    (hend1 : containsL w1 (strL "---END_STEP:") = false)
    (hend2 : containsL w2 (strL "---END_STEP:") = false) :
    (updCfg pid nr tag ae nv).outerStart (w1 ++ pn ++ w2) = false ∧
    (updCfg pid nr tag ae nv).outerEnd (w1 ++ pn ++ w2) =
      (containsL w1 (strL "<<<END_PLAN:") || containsL w2 (strL "<<<END_PLAN:")) ∧
    (updCfg pid nr tag ae nv).innerStart (w1 ++ pn ++ w2) = false ∧
    (updCfg pid nr tag ae nv).innerEnd (w1 ++ pn ++ w2) = false ∧
    (updCfg pid nr tag ae nv).sub (w1 ++ pn ++ w2) = w1 ++ pn ++ w2 := by
  have hmem : '@' ∉ w1 ++ pn ++ w2 := at_not_mem_marker hw1at hw2at hpn
  refine ⟨?_, ?_, ?_, ?_, ?_⟩
  · rw [updCfg_outerStart_eq]
    rw [show atLine (strL "PLAN_ID") pid =
      '@' :: (strL "PLAN_ID" ++ ':' :: (pid ++ ['@'])) from by simp [atLine]]
    exact containsL_eq_false_headfree '@' _ _ hmem
  · rw [updCfg_outerEnd_eq]
    exact containsL_digit_block pn hpne hpn _ (by decide) (by decide) w1 w2
  · rw [updCfg_innerStart_eq]
    apply hasStepPat_of_not_contains
    have hbase : containsL (w1 ++ pn ++ w2) (strL "---STEP:") = false := by
      rw [containsL_digit_block pn hpne hpn _ (by decide) (by decide) w1 w2]
      rw [hstep1, hstep2]
      rfl
    rw [show (strL "---STEP:" ++ pad3 nr ++ [':'] : Line) =
      strL "---STEP:" ++ (pad3 nr ++ [':']) from by simp]
    exact contains_base_of_pre hbase
  · rw [updCfg_innerEnd_eq]
    apply hasStepPat_of_not_contains
    have hbase : containsL (w1 ++ pn ++ w2) (strL "---END_STEP:") = false := by
      rw [containsL_digit_block pn hpne hpn _ (by decide) (by decide) w1 w2]
      rw [hend1, hend2]
      rfl
    rw [show (strL "---END_STEP:" ++ pad3 nr ++ [':'] : Line) =
      strL "---END_STEP:" ++ (pad3 nr ++ [':']) from by simp]
    exact contains_base_of_pre hbase
  · rw [updCfg_sub_eq]
    apply subAnchor_noPat
    rw [show (('@' :: tag ++ [':']) : Line) = '@' :: (tag ++ [':']) from by simp]
    exact containsL_eq_false_headfree '@' _ _ hmem

theorem at_not_mem_stepMarker (m : Nat) (pn : Line)
    (hpn : ∀ c ∈ pn, c.isDigit = true) : '@' ∉ stepMarker m pn := by
  intro hm
  rw [show stepMarker m pn =
    strL "---STEP:" ++ (pad3 m ++ (':' :: (pn ++ strL "---"))) from by simp [stepMarker]]
    at hm
  rcases List.mem_append.mp hm with h1 | h2
  · exact absurd h1 (by decide)
  rcases List.mem_append.mp h2 with h3 | h4
  · have := pad3_all_digit m '@' h3
    simp at this
  rcases List.mem_cons.mp h4 with h4a | h5
  · exact absurd h4a (by decide)
  rcases List.mem_append.mp h5 with h6 | h7
  · have := hpn '@' h6
    simp at this
  · exact absurd h7 (by decide)

theorem at_not_mem_endStepMarker (m : Nat) (pn : Line)
    (hpn : ∀ c ∈ pn, c.isDigit = true) : '@' ∉ endStepMarker m pn := by
  intro hm
  rw [show endStepMarker m pn =
    strL "---END_STEP:" ++ (pad3 m ++ (':' :: (pn ++ strL "---")))
    from by simp [endStepMarker]] at hm
  rcases List.mem_append.mp hm with h1 | h2
  · exact absurd h1 (by decide)
  rcases List.mem_append.mp h2 with h3 | h4
  · have := pad3_all_digit m '@' h3
    simp at this
  rcases List.mem_cons.mp h4 with h4a | h5
  · exact absurd h4a (by decide)
  rcases List.mem_append.mp h5 with h6 | h7
  · have := hpn '@' h6
    simp at this
  · exact absurd h7 (by decide)

theorem updCfg_stepMarker_facts (pid : Line) (nr : Nat) (tag : Line) (ae : Bool)
    (nv : Line) (m : Nat) (pn : Line)
    (hpn : ∀ c ∈ pn, c.isDigit = true) (hpne : pn ≠ []) :
    (updCfg pid nr tag ae nv).outerStart (stepMarker m pn) = false ∧
    (updCfg pid nr tag ae nv).outerEnd (stepMarker m pn) = false ∧
    (updCfg pid nr tag ae nv).innerStart (stepMarker m pn) = (pad3 nr == pad3 m) ∧
    (updCfg pid nr tag ae nv).innerEnd (stepMarker m pn) = false ∧
    (updCfg pid nr tag ae nv).sub (stepMarker m pn) = stepMarker m pn := by
  have hmem : '@' ∉ stepMarker m pn := at_not_mem_stepMarker m pn hpn
  refine ⟨?_, ?_, ?_, ?_, ?_⟩
  · rw [updCfg_outerStart_eq]
    rw [show atLine (strL "PLAN_ID") pid =
      '@' :: (strL "PLAN_ID" ++ ':' :: (pid ++ ['@'])) from by simp [atLine]]
    exact containsL_eq_false_headfree '@' _ _ hmem
  · rw [updCfg_outerEnd_eq]
    rw [show stepMarker m pn =
      strL "---STEP:" ++ (pad3 m ++ ':' :: (pn ++ strL "---")) from by simp [stepMarker]]
    exact contains_marker_tail _ m pn hpn hpne _ (by decide) (by decide)
      (fun pt h => by simp [strL] at h) (by decide) (by decide)
  · rw [updCfg_innerStart_eq]
    exact hasStepPat_stepMarker nr m pn hpn hpne
  · rw [updCfg_innerEnd_eq]
    exact hasStepPat_end_on_stepMarker nr m pn hpn hpne
  · rw [updCfg_sub_eq]
    apply subAnchor_noPat
    rw [show (('@' :: tag ++ [':']) : Line) = '@' :: (tag ++ [':']) from by simp]
    exact containsL_eq_false_headfree '@' _ _ hmem

theorem updCfg_endStepMarker_facts (pid : Line) (nr : Nat) (tag : Line) (ae : Bool)
    (nv : Line) (m : Nat) (pn : Line)
    (hpn : ∀ c ∈ pn, c.isDigit = true) (hpne : pn ≠ []) :
    (updCfg pid nr tag ae nv).outerStart (endStepMarker m pn) = false ∧
    (updCfg pid nr tag ae nv).outerEnd (endStepMarker m pn) = false ∧
    (updCfg pid nr tag ae nv).innerStart (endStepMarker m pn) = false ∧
    (updCfg pid nr tag ae nv).innerEnd (endStepMarker m pn) = (pad3 nr == pad3 m) ∧
    (updCfg pid nr tag ae nv).sub (endStepMarker m pn) = endStepMarker m pn := by
  have hmem : '@' ∉ endStepMarker m pn := at_not_mem_endStepMarker m pn hpn
  refine ⟨?_, ?_, ?_, ?_, ?_⟩
  · rw [updCfg_outerStart_eq]
    rw [show atLine (strL "PLAN_ID") pid =
      '@' :: (strL "PLAN_ID" ++ ':' :: (pid ++ ['@'])) from by simp [atLine]]
    exact containsL_eq_false_headfree '@' _ _ hmem
  · rw [updCfg_outerEnd_eq]
    rw [show endStepMarker m pn =
      strL "---END_STEP:" ++ (pad3 m ++ ':' :: (pn ++ strL "---"))
      from by simp [endStepMarker]]
    exact contains_marker_tail _ m pn hpn hpne _ (by decide) (by decide)
      (fun pt h => by simp [strL] at h) (by decide) (by decide)
  · rw [updCfg_innerStart_eq]
    exact hasStepPat_step_on_endMarker nr m pn hpn hpne
  · rw [updCfg_innerEnd_eq]
    exact hasStepPat_endMarker nr m pn hpn hpne
  · rw [updCfg_sub_eq]
    apply subAnchor_noPat
    rw [show (('@' :: tag ++ [':']) : Line) = '@' :: (tag ++ [':']) from by simp]
    exact containsL_eq_false_headfree '@' _ _ hmem

theorem updCfg_free_facts (pid : Line) (nr : Nat) (tag : Line) (ae : Bool)
    (nv : Line) (q : Line) (hqat : '@' ∉ q)
    (hqstep : containsL q (strL "---STEP:") = false)
    (hqend : containsL q (strL "---END_STEP:") = false)
    (hqplan : containsL q (strL "<<<END_PLAN:") = false) :
    (updCfg pid nr tag ae nv).outerStart q = false ∧
    (updCfg pid nr tag ae nv).outerEnd q = false ∧
    (updCfg pid nr tag ae nv).innerStart q = false ∧
    (updCfg pid nr tag ae nv).innerEnd q = false ∧
    (updCfg pid nr tag ae nv).sub q = q := by
  refine ⟨?_, ?_, ?_, ?_, ?_⟩
  · rw [updCfg_outerStart_eq]
    rw [show atLine (strL "PLAN_ID") pid =
      '@' :: (strL "PLAN_ID" ++ ':' :: (pid ++ ['@'])) from by simp [atLine]]
    exact containsL_eq_false_headfree '@' _ _ hqat
  · rw [updCfg_outerEnd_eq]
    exact hqplan
  · rw [updCfg_innerStart_eq]
    apply hasStepPat_of_not_contains
    rw [show (strL "---STEP:" ++ pad3 nr ++ [':'] : Line) =
      strL "---STEP:" ++ (pad3 nr ++ [':']) from by simp]
    exact contains_base_of_pre hqstep
  · rw [updCfg_innerEnd_eq]
    apply hasStepPat_of_not_contains
    rw [show (strL "---END_STEP:" ++ pad3 nr ++ [':'] : Line) =
      strL "---END_STEP:" ++ (pad3 nr ++ [':']) from by simp]
    exact contains_base_of_pre hqend
  · rw [updCfg_sub_eq]
    apply subAnchor_noPat
    rw [show (('@' :: tag ++ [':']) : Line) = '@' :: (tag ++ [':']) from by simp]
    exact containsL_eq_false_headfree '@' _ _ hqat

/-! ## Sanitiser facts -/

theorem mem_listRepl {d c : Char} {rep l : Line} (h : d ∈ listRepl c rep l) :
    d ∈ rep ∨ (d ∈ l ∧ d ≠ c) := by
  simp only [listRepl, List.mem_flatMap] at h
  obtain ⟨x, hxl, hd⟩ := h
  by_cases hxc : x = c
  · rw [if_pos hxc] at hd
    exact .inl hd
  · rw [if_neg hxc] at hd
    simp only [List.mem_singleton] at hd
    subst hd
    exact .inr ⟨hxl, hxc⟩

theorem at_not_mem_sanitizeSed (r : Line) : '@' ∈ sanitizeSed r → False := by
  intro h
  have h1 := List.mem_of_mem_take h
  rcases mem_listRepl h1 with h2 | ⟨h2, _⟩
  · exact absurd h2 (by decide)
  rcases mem_listRepl h2 with h3 | ⟨h3, _⟩
  · exact absurd h3 (by decide)
  rcases mem_listRepl h3 with h4 | ⟨_, h5⟩
  · exact absurd h4 (by decide)
  · exact h5 rfl

theorem at_not_mem_sanitizeFallback (r : Line) : '@' ∈ sanitizeFallback r → False := by
  intro h
  have h1 := List.mem_of_mem_take h
  rcases mem_listRepl h1 with h2 | ⟨h2, _⟩
  · exact absurd h2 (by decide)
  rcases mem_listRepl h2 with h3 | ⟨_, h4⟩
  · exact absurd h3 (by decide)
  · exact h4 rfl

theorem nl_not_mem_sanitizeSed (r : Line) : '\n' ∈ sanitizeSed r → False := by
  intro h
  have h1 := List.mem_of_mem_take h
  rcases mem_listRepl h1 with h2 | ⟨h2, _⟩
  · exact absurd h2 (by decide)
  rcases mem_listRepl h2 with h3 | ⟨_, h4⟩
  · exact absurd h3 (by decide)
  · exact h4 rfl

theorem nl_not_mem_sanitizeFallback (r : Line) : '\n' ∈ sanitizeFallback r → False := by
  intro h
  have h1 := List.mem_of_mem_take h
  rcases mem_listRepl h1 with h2 | ⟨_, h3⟩
  · exact absurd h2 (by decide)
  · exact h3 rfl

/-- C10: every `result` value passed to `update_step_status` is stored with
all newline characters replaced by spaces, on the sed path
(`sanitizeSed`, substituted into the `@RESULT:` anchor by the sed command)
and on the Python fallback path (`sanitizeFallback`) alike: the stored
value contains no newline character. -/
theorem C10_result_newline_free :
    ∀ r : Line,
      sanitizeSed r =
        (listRepl quoteChar [backslashChar, quoteChar]
          (listRepl '\n' [' '] (listRepl '@' (strL "(at)") r))).take 500 ∧
      ('\n' ∈ sanitizeSed r → False) ∧ ('\n' ∈ sanitizeFallback r → False) :=
  fun r => ⟨rfl, nl_not_mem_sanitizeSed r, nl_not_mem_sanitizeFallback r⟩

/-- C6 (counterexample): a 501-character result is stored as its first 500
characters with no ellipsis appended — the stored value ends in the 500th
input character, not in an ellipsis (neither the one-character `…` nor a
three-dot one). -/
theorem C6_counterexample :
    sanitizeSed (List.replicate 501 'a') = List.replicate 500 'a' ∧
    (strL "...").isSuffixOf (sanitizeSed (List.replicate 501 'a')) = false ∧
    ['…'].isSuffixOf (sanitizeSed (List.replicate 501 'a')) = false ∧
    (List.replicate 501 'a').length > 500 := by
  have hrep : ∀ (c : Char) (rep : Line) (n : Nat), c ≠ 'a' →
      listRepl c rep (List.replicate n 'a') = List.replicate n 'a' := by
    intro c rep n hc
    induction n with
    | zero => rfl
    | succ n ih =>
      simp only [List.replicate_succ, listRepl, List.flatMap_cons] at *
      rw [if_neg (by intro h; exact hc h.symm)]
      simpa [listRepl] using ih
  have h1 : sanitizeSed (List.replicate 501 'a') = List.replicate 500 'a' := by
    unfold sanitizeSed
    rw [hrep _ _ _ (by decide), hrep _ _ _ (by decide), hrep _ _ _ (by decide)]
    rw [List.take_replicate]
    norm_num
  refine ⟨h1, ?_, ?_, by simp⟩
  · rw [h1]; decide
  · rw [h1]; decide

/-- C6 (amended): a result passed to `update_step_status` is stored, on
either path, as the first 500 characters of the sanitised text — bounded by
500 characters, with no ellipsis appended — and the stored value contains
no `@`. -/
theorem C6_amended :
    ∀ r : Line,
      (sanitizeSed r).length ≤ 500 ∧ (sanitizeFallback r).length ≤ 500 ∧
      ('@' ∈ sanitizeSed r → False) ∧ ('@' ∈ sanitizeFallback r → False) := by
  intro r
  refine ⟨?_, ?_, at_not_mem_sanitizeSed r, at_not_mem_sanitizeFallback r⟩
  · simp [sanitizeSed]
  · simp [sanitizeFallback]

/-- C3 (counterexample): `write_plan` emits the rationale value verbatim —
a rationale containing `@` is written with its `@` intact, and the
`(at)`-substituted form is not what lands in the file, so anchor values in
the file can contain `@`. -/
theorem C3_counterexample :
    (atLine (strL "RATIONALE") (strL "a@b") ∈ planEntryLines
      { plan_num := 1, plan_id := strL "id-1", timestamp := strL "T",
        multi_steps := false, total_steps := 1, query := strL "q", context := [],
        steps := [{ step_nr := 1, skill_name := strL "s", rationale := strL "a@b",
                    sub_query := [], status := strL "pending", result := [] }] }) ∧
    '@' ∈ strL "a@b" ∧
    (atLine (strL "RATIONALE") (listRepl '@' (strL "(at)") (strL "a@b")) ∉
      planEntryLines
      { plan_num := 1, plan_id := strL "id-1", timestamp := strL "T",
        multi_steps := false, total_steps := 1, query := strL "q", context := [],
        steps := [{ step_nr := 1, skill_name := strL "s", rationale := strL "a@b",
                    sub_query := [], status := strL "pending", result := [] }] }) := by
  refine ⟨?_, by decide, ?_⟩ <;> decide

/-- C3 (amended): only the `result` values passed to `update_step_status`
get the `@` → `(at)` substitution (on both the sed path and the Python
fallback path), and the substituted value is `@`-free; `write_plan` emits
`skill_name`, `rationale` and `sub_query` verbatim into their anchors. -/
theorem C3_amended :
    ∀ (r : Line) (pn : Line) (s : FStep),
      ('@' ∈ sanitizeSed r → False) ∧ ('@' ∈ sanitizeFallback r → False) ∧
      atLine (strL "SKILL_NAME") s.skill_name ∈ stepLines pn s ∧
      atLine (strL "RATIONALE") s.rationale ∈ stepLines pn s := by
  intro r pn s
  refine ⟨at_not_mem_sanitizeSed r, at_not_mem_sanitizeFallback r, ?_, ?_⟩ <;>
    simp [stepLines]

/-- C4 (counterexample): in the stable-prompt orchestrator a step with
`skill_name` `none` is closed as `completed` (never `failed`) via an LLM
synthesis call, with the truncated LLM content as the stored result. -/
theorem C4_counterexample :
    (handleStep (strL "none") (strL "llm says hi") true [] []).status =
      strL "completed" ∧
    (handleStep (strL "none") (strL "llm says hi") true [] []).status ≠
      strL "failed" ∧
    (handleStep (strL "none") (strL "llm says hi") true [] []).usedLLM = true ∧
    (handleStep (strL "none") (strL "llm says hi") true [] []).result =
      strL "llm says hi" := by
  refine ⟨rfl, by decide, rfl, by decide⟩

/-- C4 (amended): the stable-prompt orchestrator treats `none` exactly like
the other reserved skills: no skill subprocess is launched, one LLM
synthesis call is made, and the step is closed as `completed` with the
first 200 characters of the LLM content as result; execution then
continues with the next step. -/
theorem C4_amended :
    ∀ (llm : Line) (ok : Bool) (out err : Line),
      handleStep (strL "none") llm ok out err =
        { usedSkillSubprocess := false, usedLLM := true,
          status := strL "completed", result := llm.take 200 } :=
  fun _ _ _ _ => rfl

/-- C5 (counterexample): an LM response that parses as JSON but fails the
validation the claim describes (single step with non-contiguous
`step_nr = 5` and an unknown skill name) is returned unchanged by
`query_decomposition_call` — not replaced by the synthetic
`final_response` single-step plan. -/
theorem C5_counterexample :
    decompositionOf (strL "the query")
        (LMParse.parsedDict
          { multi_steps := false,
            output_steps := [{ step_nr := 5, skill_name := strL "bogus-skill",
                               rationale := strL "r", sub_query := strL "sq" }] }) =
      { multi_steps := false,
        output_steps := [{ step_nr := 5, skill_name := strL "bogus-skill",
                           rationale := strL "r", sub_query := strL "sq" }] } ∧
    (decompositionOf (strL "the query")
        (LMParse.parsedDict
          { multi_steps := false,
            output_steps := [{ step_nr := 5, skill_name := strL "bogus-skill",
                               rationale := strL "r", sub_query := strL "sq" }] })).output_steps.map
        (fun s => s.step_nr) ≠ [1] := by
  exact ⟨rfl, by decide⟩

/-- C5 (amended): only a JSON parse failure makes
`query_decomposition_call` return the synthetic single-step plan, whose
step is exactly `step_nr 1`, `skill_name final_response`, rationale
`Error processing query: <details>` and `sub_query` the original user
query; a response that parses as a dictionary is returned unvalidated and
unchanged, and parsed non-dictionary JSON yields an empty step list. -/
theorem C5_amended :
    ∀ (q e : Line) (d : Decomp),
      decompositionOf q (LMParse.failure e) =
        { multi_steps := false,
          output_steps :=
            [{ step_nr := 1, skill_name := strL "final_response",
               rationale := strL "Error processing query: " ++ e,
               sub_query := q }] } ∧
      decompositionOf q (LMParse.parsedDict d) = d ∧
      decompositionOf q LMParse.parsedNonDict =
        { multi_steps := false, output_steps := [] } :=
  fun _ _ _ => ⟨rfl, rfl, rfl⟩

/-! ## Retry policy (claim C8) -/

theorem backoffBase_nonneg (a : Nat) : 0 ≤ backoffBase a := by
  unfold backoffBase
  apply le_min _ (by norm_num)
  positivity

theorem runRetryAux_spec {α : Type} (f : Nat → Attempt α) (jit : Nat → ℚ) :
    ∀ (fuel a : Nat),
      ((runRetryAux f jit a fuel).2.length + 1 ≤ fuel ∨ fuel = 0) ∧
      (∀ k d, (runRetryAux f jit a fuel).2[k]? = some d →
        d = backoffDelay (a + k) (jit (a + k)) ∧
        ∃ ty st, f (a + k) = Attempt.err ty st ∧ isRetryableError ty st = true) := by
  intro fuel
  induction fuel with
  | zero =>
    intro a
    refine ⟨Or.inr rfl, ?_⟩
    intro k d h
    simp [runRetryAux] at h
  | succ g ih =>
    intro a
    cases hf : f a with
    | ok v =>
      refine ⟨Or.inl (by simp [runRetryAux, hf]), ?_⟩
      intro k d h
      simp [runRetryAux, hf] at h
    | err ty st =>
      by_cases hr : isRetryableError ty st = false
      · refine ⟨Or.inl (by simp [runRetryAux, hf, hr]), ?_⟩
        intro k d h
        simp [runRetryAux, hf, hr] at h
      · cases g with
        | zero =>
          refine ⟨Or.inl (by simp [runRetryAux, hf, hr]), ?_⟩
          intro k d h
          simp [runRetryAux, hf, hr] at h
        | succ g2 =>
          have hrun : runRetryAux f jit a (g2 + 1 + 1) =
              ((runRetryAux f jit (a + 1) (g2 + 1)).1,
                backoffDelay a (jit a) :: (runRetryAux f jit (a + 1) (g2 + 1)).2) := by
            simp [runRetryAux, hf, hr]
          constructor
          · left
            rw [hrun]
            rcases (ih (a + 1)).1 with h | h
            · simp only [List.length_cons]
              omega
            · omega
          · intro k d h
            rw [hrun] at h
            cases k with
            | zero =>
              simp only [List.getElem?_cons_zero, Option.some.injEq] at h
              subst h
              refine ⟨by simp, ty, st, by simpa using hf, by simpa using hr⟩
            | succ k2 =>
              simp only [List.getElem?_cons_succ] at h
              have := (ih (a + 1)).2 k2 d h
              have harr : a + 1 + k2 = a + (k2 + 1) := by omega
              rw [harr] at this
              exact this

/-- C8 (counterexample): the code's retryability test is a substring match
that accepts errors outside the claim's transient list — the message
`Network is unreachable` is retried by `_is_retryable_error` although it
is none of HTTP 429/502/503/504, connection reset/refused/timeout, or a
DNS failure (the spec-worded predicate `specTransient` rejects it). -/
theorem C8_counterexample :
    isRetryableError (strL "OSError") (strL "Network is unreachable") = true ∧
    specTransient (strL "Network is unreachable") = false := by
  constructor <;> decide

/-- C8 (amended): under the default settings, `_retry_with_backoff` sleeps
at most 3 times; the delay before the k-th retry is
`min(2 * 2^k, 60)` plus a one-sided additive jitter of at most 20% of that
capped base (so between the base and 1.2 times it, never below the base);
each slept retry follows an error accepted by the substring-based
`_is_retryable_error`; and a first-attempt error rejected by that test is
re-raised immediately with no sleep. -/
theorem C8_amended :
    ∀ {α : Type} (f : Nat → Attempt α) (jit : Nat → ℚ),
      (∀ k, 0 ≤ jit k ∧ jit k ≤ 1) →
      (runRetry f jit).2.length ≤ 3 ∧
      (∀ k d, (runRetry f jit).2[k]? = some d →
        d = backoffDelay k (jit k) ∧
        backoffBase k ≤ d ∧ d ≤ (6 / 5) * backoffBase k ∧
        ∃ ty st, f k = Attempt.err ty st ∧ isRetryableError ty st = true) ∧
      (∀ ty st, f 0 = Attempt.err ty st → isRetryableError ty st = false →
        runRetry f jit = (RetryOutcome.raised ty st, [])) := by
  intro α f jit hj
  have hspec := runRetryAux_spec f jit 4 0
  refine ⟨?_, ?_, ?_⟩
  · rcases hspec.1 with h | h
    · unfold runRetry
      omega
    · omega
  · intro k d h
    have hk := hspec.2 k d h
    simp only [Nat.zero_add] at hk
    obtain ⟨hd, ty, st, hf, hr⟩ := hk
    refine ⟨hd, ?_, ?_, ty, st, hf, hr⟩
    · rw [hd]
      unfold backoffDelay
      have h0 := backoffBase_nonneg k
      have := (hj k).1
      nlinarith
    · rw [hd]
      unfold backoffDelay
      have h0 := backoffBase_nonneg k
      have := (hj k).2
      nlinarith
  · intro ty st hf hr
    unfold runRetry
    simp [runRetryAux, hf, hr]

/-- C8 (witness): the amended theorem applied to a function that always
fails with a non-retryable validation error and zero jitter. -/
theorem C8_witness :
    (∀ k : Nat, (0 : ℚ) ≤ (fun _ : Nat => (0 : ℚ)) k ∧
      (fun _ : Nat => (0 : ℚ)) k ≤ 1) ∧
    ((runRetry (fun _ => Attempt.err (α := Unit) (strL "ValueError") (strL "boom"))
        (fun _ : Nat => (0 : ℚ))).2.length ≤ 3 ∧
      (∀ k d, (runRetry (fun _ => Attempt.err (α := Unit) (strL "ValueError") (strL "boom"))
          (fun _ : Nat => (0 : ℚ))).2[k]? = some d →
        d = backoffDelay k 0 ∧
        backoffBase k ≤ d ∧ d ≤ (6 / 5) * backoffBase k ∧
        ∃ ty st, Attempt.err (α := Unit) (strL "ValueError") (strL "boom") =
            Attempt.err ty st ∧ isRetryableError ty st = true) ∧
      (∀ ty st,
        Attempt.err (α := Unit) (strL "ValueError") (strL "boom") =
            Attempt.err ty st →
        isRetryableError ty st = false →
        runRetry (fun _ => Attempt.err (α := Unit) (strL "ValueError") (strL "boom"))
            (fun _ : Nat => (0 : ℚ)) =
          (RetryOutcome.raised ty st, []))) :=
  ⟨fun _ => ⟨le_refl 0, by norm_num⟩,
    C8_amended (fun _ => Attempt.err (α := Unit) (strL "ValueError") (strL "boom"))
      (fun _ => (0 : ℚ)) (fun _ => ⟨le_refl 0, by norm_num⟩)⟩

/-! ## Step-marker counting (claim C7) -/

theorem isPrefixOf_cons_cons (a b : Char) (as bs : List Char) :
    (a :: as).isPrefixOf (b :: bs) = (a == b && as.isPrefixOf bs) := rfl

theorem stepPre_cons_false (c : Char) (rest : List Char) (hc : c ≠ '-') :
    (strL "---STEP:").isPrefixOf (c :: rest) = false := by
  rw [show strL "---STEP:" = '-' :: strL "--STEP:" from rfl, isPrefixOf_cons_cons]
  simp [Ne.symm hc]

theorem stepPre_atLine (tag v : Line) :
    (strL "---STEP:").isPrefixOf (atLine tag v) = false :=
  stepPre_cons_false _ _ (by decide)

theorem stepPre_nil : (strL "---STEP:").isPrefixOf ([] : Line) = false := rfl

theorem stepPre_stepMarker (nr : Nat) (pn : Line) :
    (strL "---STEP:").isPrefixOf (stepMarker nr pn) = true :=
  isPrefixOf_self_append _ _

theorem stepPre_endStepMarker (nr : Nat) (pn : Line) :
    (strL "---STEP:").isPrefixOf (endStepMarker nr pn) = false := by
  rw [show strL "---STEP:" = '-' :: '-' :: '-' :: 'S' :: strL "TEP:" from rfl,
      show endStepMarker nr pn =
        '-' :: '-' :: '-' :: 'E' :: (strL "ND_STEP:" ++ pad3 nr ++ ':' :: pn ++ strL "---")
      from rfl]
  simp [isPrefixOf_cons_cons]

theorem countStepMarkers_stepLines (pn : Line) (s : FStep) :
    countStepMarkers (stepLines pn s) = 1 := by
  unfold countStepMarkers stepLines
  by_cases h : s.sub_query.isEmpty <;>
    simp [h, List.countP_cons, List.countP_append, stepPre_cons_false, stepPre_atLine,
      stepPre_stepMarker, stepPre_endStepMarker, stepPre_nil]

theorem countStepMarkers_flatMap (pn : Line) (steps : List FStep) :
    countStepMarkers (steps.flatMap (stepLines pn)) = steps.length := by
  induction steps with
  | nil => rfl
  | cons s rest ih =>
    simp only [List.flatMap_cons, countStepMarkers, List.countP_append]
    have h1 := countStepMarkers_stepLines pn s
    unfold countStepMarkers at h1 ih
    rw [h1, ih, List.length_cons]
    omega

theorem stepPre_ctxOpen (pn : Line) :
    (strL "---STEP:").isPrefixOf (strL ">>>CONTEXT:" ++ pn ++ strL ">>>") = false := by
  rw [show strL ">>>CONTEXT:" ++ pn ++ strL ">>>" =
    '>' :: (strL ">>CONTEXT:" ++ pn ++ strL ">>>") from rfl]
  exact stepPre_cons_false _ _ (by decide)

theorem stepPre_ctxClose (pn : Line) :
    (strL "---STEP:").isPrefixOf (strL "<<<CONTEXT:" ++ pn ++ strL "<<<") = false := by
  rw [show strL "<<<CONTEXT:" ++ pn ++ strL "<<<" =
    '<' :: (strL "<<CONTEXT:" ++ pn ++ strL "<<<") from rfl]
  exact stepPre_cons_false _ _ (by decide)

theorem stepPre_planMarker (pn : Line) :
    (strL "---STEP:").isPrefixOf (strL "<<<PLAN:" ++ pn ++ strL ">>>") = false := by
  rw [show strL "<<<PLAN:" ++ pn ++ strL ">>>" =
    '<' :: (strL "<<PLAN:" ++ pn ++ strL ">>>") from rfl]
  exact stepPre_cons_false _ _ (by decide)

theorem stepPre_qOpen (pn : Line) :
    (strL "---STEP:").isPrefixOf (strL ">>>QUERY:" ++ pn ++ strL ">>>") = false := by
  rw [show strL ">>>QUERY:" ++ pn ++ strL ">>>" =
    '>' :: (strL ">>QUERY:" ++ pn ++ strL ">>>") from rfl]
  exact stepPre_cons_false _ _ (by decide)

theorem stepPre_qClose (pn : Line) :
    (strL "---STEP:").isPrefixOf (strL "<<<QUERY:" ++ pn ++ strL "<<<") = false := by
  rw [show strL "<<<QUERY:" ++ pn ++ strL "<<<" =
    '<' :: (strL "<<QUERY:" ++ pn ++ strL "<<<") from rfl]
  exact stepPre_cons_false _ _ (by decide)

theorem stepPre_stepsOpen (pn : Line) :
    (strL "---STEP:").isPrefixOf (strL ">>>STEPS:" ++ pn ++ strL ">>>") = false := by
  rw [show strL ">>>STEPS:" ++ pn ++ strL ">>>" =
    '>' :: (strL ">>STEPS:" ++ pn ++ strL ">>>") from rfl]
  exact stepPre_cons_false _ _ (by decide)

theorem stepPre_stepsClose (pn : Line) :
    (strL "---STEP:").isPrefixOf (strL "<<<STEPS:" ++ pn ++ strL "<<<") = false := by
  rw [show strL "<<<STEPS:" ++ pn ++ strL "<<<" =
    '<' :: (strL "<<STEPS:" ++ pn ++ strL "<<<") from rfl]
  exact stepPre_cons_false _ _ (by decide)

theorem stepPre_endPlan (pn : Line) :
    (strL "---STEP:").isPrefixOf (strL "<<<END_PLAN:" ++ pn ++ strL ">>>") = false := by
  rw [show strL "<<<END_PLAN:" ++ pn ++ strL ">>>" =
    '<' :: (strL "<<END_PLAN:" ++ pn ++ strL ">>>") from rfl]
  exact stepPre_cons_false _ _ (by decide)

theorem stepPre_eqLine : (strL "---STEP:").isPrefixOf eqLine = false := by
  rw [show eqLine = '=' :: List.replicate 79 '=' from rfl]
  exact stepPre_cons_false _ _ (by decide)

theorem countStepMarkers_ctx (pn : Line) (ctx : List (Line × Line)) :
    countStepMarkers (ctxLines pn ctx) = 0 := by
  unfold countStepMarkers ctxLines
  by_cases h : ctx.isEmpty
  · simp [h]
  · rw [if_neg (by simp [h])]
    rw [List.countP_append, List.countP_append]
    have hmap : List.countP (fun l => (strL "---STEP:").isPrefixOf l)
        ((ctx.filter (fun kv => !kv.2.isEmpty)).map (fun kv => atLine kv.1 kv.2)) = 0 := by
      apply List.countP_eq_zero.mpr
      intro l hl
      simp only [List.mem_map] at hl
      obtain ⟨kv, _, hkv⟩ := hl
      subst hkv
      simp [stepPre_atLine]
    rw [hmap]
    simp only [List.countP_cons, List.countP_nil, stepPre_nil, stepPre_ctxOpen,
      stepPre_ctxClose]
    simp

/-- C7 (counterexample): `write_plan` stores `@MULTI_STEPS:` as the input
dictionary's flag, not as (step count > 1): a decomposition carrying
`multi_steps = true` with a single step is written with
`@MULTI_STEPS:true@` although its record holds exactly one step block. -/
theorem C7_counterexample :
    (atLine (strL "MULTI_STEPS") (strL "true") ∈ planEntryLines
      (planOfDecomp 1 (strL "id-7") (strL "T") (strL "q") []
        { multi_steps := true,
          output_steps := [{ step_nr := 1, skill_name := strL "s",
                             rationale := strL "r", sub_query := strL "sq" }] })) ∧
    countStepMarkers (planEntryLines
      (planOfDecomp 1 (strL "id-7") (strL "T") (strL "q") []
        { multi_steps := true,
          output_steps := [{ step_nr := 1, skill_name := strL "s",
                             rationale := strL "r", sub_query := strL "sq" }] })) = 1 ∧
    strL "true" ≠ boolChars (decide ((1 : Nat) > 1)) := by
  refine ⟨by decide, by decide, by decide⟩

/-- C7 (amended): in every record written by `write_plan`, the stored
`@TOTAL_STEPS:` value equals the number of step blocks of the record, and
the stored `@MULTI_STEPS:` value is the input decomposition's
`multi_steps` flag verbatim (which the writer does not reconcile with the
step count). -/
theorem C7_amended :
    ∀ (num : Nat) (pid ts q : Line) (ctx : List (Line × Line)) (d : Decomp),
      (strL "---STEP:").isPrefixOf q = false →
      atLine (strL "TOTAL_STEPS") (natChars d.output_steps.length) ∈
        planEntryLines (planOfDecomp num pid ts q ctx d) ∧
      atLine (strL "MULTI_STEPS") (boolChars d.multi_steps) ∈
        planEntryLines (planOfDecomp num pid ts q ctx d) ∧
      countStepMarkers (planEntryLines (planOfDecomp num pid ts q ctx d)) =
        d.output_steps.length := by
  intro num pid ts q ctx d hq
  refine ⟨?_, ?_, ?_⟩
  · simp [planEntryLines, planOfDecomp]
  · simp [planEntryLines, planOfDecomp]
  · unfold countStepMarkers
    simp only [planEntryLines, planOfDecomp]
    rw [List.countP_append, List.countP_append, List.countP_append, List.countP_append]
    have h1 := countStepMarkers_ctx (pad6 num) ctx
    unfold countStepMarkers at h1
    rw [h1]
    have h2 := countStepMarkers_flatMap (pad6 num)
      (d.output_steps.map (fun s =>
        ({ step_nr := s.step_nr, skill_name := s.skill_name, rationale := s.rationale,
           sub_query := s.sub_query, status := strL "pending", result := [] } : FStep)))
    unfold countStepMarkers at h2
    rw [h2, List.length_map]
    simp only [List.countP_cons, List.countP_nil, stepPre_nil, stepPre_atLine,
      stepPre_planMarker, stepPre_qOpen, stepPre_qClose, stepPre_stepsOpen,
      stepPre_stepsClose, stepPre_endPlan, stepPre_eqLine, hq]
    simp

/-- C7 (witness): the amended theorem applied to a two-step decomposition
with a clean query. -/
theorem C7_witness :
    ((strL "---STEP:").isPrefixOf (strL "what is up") = false) ∧
    (atLine (strL "TOTAL_STEPS") (natChars 2) ∈
      planEntryLines (planOfDecomp 3 (strL "id-9") (strL "T2") (strL "what is up") []
        { multi_steps := true,
          output_steps := [{ step_nr := 1, skill_name := strL "a",
                             rationale := strL "r1", sub_query := strL "s1" },
                           { step_nr := 2, skill_name := strL "b",
                             rationale := strL "r2", sub_query := strL "s2" }] }) ∧
     atLine (strL "MULTI_STEPS") (boolChars true) ∈
      planEntryLines (planOfDecomp 3 (strL "id-9") (strL "T2") (strL "what is up") []
        { multi_steps := true,
          output_steps := [{ step_nr := 1, skill_name := strL "a",
                             rationale := strL "r1", sub_query := strL "s1" },
                           { step_nr := 2, skill_name := strL "b",
                             rationale := strL "r2", sub_query := strL "s2" }] }) ∧
     countStepMarkers (planEntryLines
        (planOfDecomp 3 (strL "id-9") (strL "T2") (strL "what is up") []
          { multi_steps := true,
            output_steps := [{ step_nr := 1, skill_name := strL "a",
                               rationale := strL "r1", sub_query := strL "s1" },
                             { step_nr := 2, skill_name := strL "b",
                               rationale := strL "r2", sub_query := strL "s2" }] })) = 2) :=
  ⟨by decide,
    C7_amended 3 (strL "id-9") (strL "T2") (strL "what is up") [] _ (by decide)⟩


/-! ## Running the sed machine -/

theorem innerStep_not_inn (cfg : SedCfg) (l : Line) (h : cfg.innerStart l = false) :
    innerStep cfg false l = (l, false) := by
  simp [innerStep, h]

theorem innerStep_open (cfg : SedCfg) (l : Line) (h : cfg.innerStart l = true) :
    innerStep cfg false l = (cfg.sub l, true) := by
  simp [innerStep, h]

theorem innerStep_inn (cfg : SedCfg) (l : Line) :
    innerStep cfg true l = (cfg.sub l, !cfg.innerEnd l) := by
  simp [innerStep]

theorem sedRun_nil (cfg : SedCfg) (o i : Bool) : sedRun cfg o i [] = [] := by
  cases o <;> rfl

theorem sedRun_cons_false (cfg : SedCfg) (i : Bool) (l : Line) (ls : List Line) :
    sedRun cfg false i (l :: ls) =
      if cfg.outerStart l then
        (innerStep cfg i l).1 :: sedRun cfg true (innerStep cfg i l).2 ls
      else l :: sedRun cfg false i ls := rfl

theorem sedRun_cons_true (cfg : SedCfg) (i : Bool) (l : Line) (ls : List Line) :
    sedRun cfg true i (l :: ls) =
      (innerStep cfg i l).1 :: sedRun cfg (!cfg.outerEnd l) (innerStep cfg i l).2 ls := rfl

theorem sedSt_nil (cfg : SedCfg) (o i : Bool) : sedSt cfg o i [] = (o, i) := by
  cases o <;> rfl

theorem sedSt_cons_false (cfg : SedCfg) (i : Bool) (l : Line) (ls : List Line) :
    sedSt cfg false i (l :: ls) =
      if cfg.outerStart l then sedSt cfg true (innerStep cfg i l).2 ls
      else sedSt cfg false i ls := rfl

theorem sedSt_cons_true (cfg : SedCfg) (i : Bool) (l : Line) (ls : List Line) :
    sedSt cfg true i (l :: ls) =
      sedSt cfg (!cfg.outerEnd l) (innerStep cfg i l).2 ls := rfl

/-- Running over an append: run the prefix, then continue from its final
state. -/
theorem sedRun_append (cfg : SedCfg) (xs : List Line) : ∀ (o i : Bool) (ys : List Line),
    sedRun cfg o i (xs ++ ys) =
      sedRun cfg o i xs ++
        sedRun cfg (sedSt cfg o i xs).1 (sedSt cfg o i xs).2 ys := by
  induction xs with
  | nil =>
    intro o i ys
    rw [List.nil_append, sedRun_nil, sedSt_nil, List.nil_append]
  | cons l ls ih =>
    intro o i ys
    cases o with
    | false =>
      rw [List.cons_append, sedRun_cons_false, sedSt_cons_false, sedRun_cons_false]
      cases h : cfg.outerStart l <;> simp [ih]
    | true =>
      rw [List.cons_append, sedRun_cons_true, sedSt_cons_true, sedRun_cons_true, ih,
        List.cons_append]

/-- Final state over an append. -/
theorem sedSt_append (cfg : SedCfg) (xs : List Line) : ∀ (o i : Bool) (ys : List Line),
    sedSt cfg o i (xs ++ ys) =
      sedSt cfg (sedSt cfg o i xs).1 (sedSt cfg o i xs).2 ys := by
  induction xs with
  | nil =>
    intro o i ys
    rw [List.nil_append, sedSt_nil]
  | cons l ls ih =>
    intro o i ys
    cases o with
    | false =>
      rw [List.cons_append, sedSt_cons_false, sedSt_cons_false]
      cases h : cfg.outerStart l <;> simp [ih]
    | true =>
      rw [List.cons_append, sedSt_cons_true, sedSt_cons_true, ih]

/-- With the outer range closed, lines that do not open it pass through
unchanged and leave the state alone. -/
theorem sedNeutral (cfg : SedCfg) (ls : List Line) :
    ∀ (i : Bool), (∀ l ∈ ls, cfg.outerStart l = false) →
    sedRun cfg false i ls = ls ∧ sedSt cfg false i ls = (false, i) := by
  induction ls with
  | nil =>
    intro i _
    exact ⟨sedRun_nil cfg false i, sedSt_nil cfg false i⟩
  | cons l ls ih =>
    intro i h
    have h1 : cfg.outerStart l = false := h l (List.mem_cons_self l ls)
    have h2 := ih i (fun x hx => h x (List.mem_cons_of_mem l hx))
    rw [sedRun_cons_false, sedSt_cons_false, h1]
    simp only [Bool.false_eq_true, if_false]
    exact ⟨by rw [h2.1], h2.2⟩

/-- With the outer range open and the inner range closed, lines that
neither open the inner range nor close the outer one pass through
unchanged. -/
theorem sedQuiet (cfg : SedCfg) (ls : List Line)
    (h : ∀ l ∈ ls, cfg.innerStart l = false ∧ cfg.outerEnd l = false) :
    sedRun cfg true false ls = ls ∧ sedSt cfg true false ls = (true, false) := by
  induction ls with
  | nil => exact ⟨sedRun_nil cfg true false, sedSt_nil cfg true false⟩
  | cons l ls ih =>
    have h1 := h l (List.mem_cons_self l ls)
    have h2 := ih (fun x hx => h x (List.mem_cons_of_mem l hx))
    rw [sedRun_cons_true, sedSt_cons_true, innerStep_not_inn cfg l h1.1, h1.2]
    exact ⟨congrArg (List.cons l) h2.1, h2.2⟩

/-- With both ranges open, lines that close neither range are substituted
one by one. -/
theorem sedInner (cfg : SedCfg) (ls : List Line)
    (h : ∀ l ∈ ls, cfg.innerEnd l = false ∧ cfg.outerEnd l = false) :
    sedRun cfg true true ls = ls.map cfg.sub ∧ sedSt cfg true true ls = (true, true) := by
  induction ls with
  | nil => exact ⟨sedRun_nil cfg true true, sedSt_nil cfg true true⟩
  | cons l ls ih =>
    have h1 := h l (List.mem_cons_self l ls)
    have h2 := ih (fun x hx => h x (List.mem_cons_of_mem l hx))
    rw [sedRun_cons_true, sedSt_cons_true, innerStep_inn, h1.1, h1.2, List.map_cons]
    exact ⟨congrArg (List.cons (cfg.sub l)) h2.1, h2.2⟩

/-! ## Fact packs for the line kinds of a rendered file -/

/-- The four containment facts of an all-digit value. -/
theorem digit_val_facts {v : Line} (h : ∀ c ∈ v, c.isDigit = true) :
    '@' ∉ v ∧ containsL v (strL "---STEP:") = false ∧
    containsL v (strL "---END_STEP:") = false ∧
    containsL v (strL "<<<END_PLAN:") = false := by
  refine ⟨fun hm => by simpa using h '@' hm, ?_, ?_, ?_⟩
  · rw [show strL "---STEP:" = '-' :: strL "--STEP:" from rfl]
    exact containsL_eq_false_headfree '-' _ _ (fun hm => by simpa using h '-' hm)
  · rw [show strL "---END_STEP:" = '-' :: strL "--END_STEP:" from rfl]
    exact containsL_eq_false_headfree '-' _ _ (fun hm => by simpa using h '-' hm)
  · rw [show strL "<<<END_PLAN:" = '<' :: strL "<<END_PLAN:" from rfl]
    exact containsL_eq_false_headfree '<' _ _ (fun hm => by simpa using h '<' hm)

/-- The four containment facts of a clean free-text value. -/
theorem cleanVal_facts {v : Line} (h : cleanVal v = true) :
    '@' ∉ v ∧ containsL v (strL "---STEP:") = false ∧
    containsL v (strL "---END_STEP:") = false ∧
    containsL v (strL "<<<END_PLAN:") = false :=
  ⟨cleanVal_at h,
   cleanVal_pat h _ (by simp [badPats]),
   cleanVal_pat h _ (by simp [badPats]),
   cleanVal_pat h _ (by simp [badPats])⟩

/-- The four containment facts of a rendered boolean. -/
theorem boolChars_facts (b : Bool) :
    '@' ∉ boolChars b ∧ containsL (boolChars b) (strL "---STEP:") = false ∧
    containsL (boolChars b) (strL "---END_STEP:") = false ∧
    containsL (boolChars b) (strL "<<<END_PLAN:") = false := by
  cases b <;> exact ⟨by decide, by decide, by decide, by decide⟩

/-- The four containment facts of the separator line. -/
theorem eqLine_facts :
    '@' ∉ eqLine ∧ containsL eqLine (strL "---STEP:") = false ∧
    containsL eqLine (strL "---END_STEP:") = false ∧
    containsL eqLine (strL "<<<END_PLAN:") = false := by
  refine ⟨?_, ?_, ?_, ?_⟩
  · intro hm
    have := List.eq_of_mem_replicate hm
    simp at this
  · rw [show strL "---STEP:" = '-' :: strL "--STEP:" from rfl]
    refine containsL_eq_false_headfree '-' _ _ (fun hm => ?_)
    have := List.eq_of_mem_replicate hm
    simp at this
  · rw [show strL "---END_STEP:" = '-' :: strL "--END_STEP:" from rfl]
    refine containsL_eq_false_headfree '-' _ _ (fun hm => ?_)
    have := List.eq_of_mem_replicate hm
    simp at this
  · rw [show strL "<<<END_PLAN:" = '<' :: strL "<<END_PLAN:" from rfl]
    refine containsL_eq_false_headfree '<' _ _ (fun hm => ?_)
    have := List.eq_of_mem_replicate hm
    simp at this

/-- All four range tests are false on the empty line, and the substitution
keeps it. -/
theorem updCfg_empty_facts (pid : Line) (nr : Nat) (tag : Line) (ae : Bool) (nv : Line) :
    (updCfg pid nr tag ae nv).outerStart [] = false ∧
    (updCfg pid nr tag ae nv).outerEnd [] = false ∧
    (updCfg pid nr tag ae nv).innerStart [] = false ∧
    (updCfg pid nr tag ae nv).innerEnd [] = false ∧
    (updCfg pid nr tag ae nv).sub [] = [] := by
  refine ⟨?_, ?_, ?_, ?_, ?_⟩
  · rw [updCfg_outerStart_eq]
    rw [show atLine (strL "PLAN_ID") pid =
      '@' :: (strL "PLAN_ID" ++ ':' :: (pid ++ ['@'])) from by simp [atLine]]
    rfl
  · rw [updCfg_outerEnd_eq]; rfl
  · rw [updCfg_innerStart_eq]; exact hasStepPat_nil _
  · rw [updCfg_innerEnd_eq]; exact hasStepPat_nil _
  · rw [updCfg_sub_eq]; rfl

/-! ## The sed command on one step block -/

theorem wfStepLoose_parts {s : FStep} (h : wfStepLoose s = true) :
    cleanVal s.skill_name = true ∧ cleanVal s.rationale = true ∧
    cleanVal s.sub_query = true ∧ cleanVal s.status = true ∧
    cleanVal s.result = true := by
  unfold wfStepLoose at h
  simp only [Bool.and_eq_true] at h
  exact ⟨h.1.1.1.1, h.1.1.1.2, h.1.1.2, h.1.2, h.2⟩

theorem stepLines_decomp (pn : Line) (s : FStep) :
    stepLines pn s =
      [] :: stepMarker s.step_nr pn ::
        (stepAnchorLines s ++ [endStepMarker s.step_nr pn]) := by
  by_cases hsq : s.sub_query.isEmpty <;> simp [stepLines, stepAnchorLines, hsq]

/-- Per-line range facts of an anchor line whose tag is not `PLAN_ID`. -/
theorem updCfg_anchor_other (pid : Line) (nr : Nat) (tag : Line) (ae : Bool) (nv : Line)
    (K v : Line)
    (hKc : ':' ∉ K) (hKat : '@' ∉ K) (hKdash : '-' ∉ K) (hKlt : '<' ∉ K)
    (hKpl : (strL "PLAN_ID" == K) = false)
    (hpidat : '@' ∉ pid) (htagc : ':' ∉ tag)
    (hvat : '@' ∉ v)
    (hvstep : containsL v (strL "---STEP:") = false)
    (hvend : containsL v (strL "---END_STEP:") = false)
    (hvplan : containsL v (strL "<<<END_PLAN:") = false) :
    (updCfg pid nr tag ae nv).outerStart (atLine K v) = false ∧
    (updCfg pid nr tag ae nv).outerEnd (atLine K v) = false ∧
    (updCfg pid nr tag ae nv).innerStart (atLine K v) = false ∧
    (updCfg pid nr tag ae nv).innerEnd (atLine K v) = false := by
  obtain ⟨c1, c2, c3, c4, _⟩ := updCfg_atLine_facts pid nr tag ae nv K v hKc hKat hKdash
    hKlt hpidat htagc hvat hvstep hvend hvplan
  refine ⟨?_, c2, c3, c4⟩
  rw [c1, hKpl, Bool.false_and]

/-- Per-line range facts of every anchor line of a step block. -/
theorem stepAnchorLines_facts (pid : Line) (nr : Nat) (tag : Line) (ae : Bool)
    (nv : Line) (hpid : '@' ∉ pid) (htagc : ':' ∉ tag)
    (s : FStep) (hwf : wfStepLoose s = true) :
    ∀ l ∈ stepAnchorLines s,
      (updCfg pid nr tag ae nv).outerStart l = false ∧
      (updCfg pid nr tag ae nv).outerEnd l = false ∧
      (updCfg pid nr tag ae nv).innerStart l = false ∧
      (updCfg pid nr tag ae nv).innerEnd l = false := by
  obtain ⟨h1, h2, h3, h4, h5⟩ := wfStepLoose_parts hwf
  intro l hl
  by_cases hsq : s.sub_query.isEmpty <;> simp only [stepAnchorLines, hsq, if_true,
    if_false, List.append_nil, List.cons_append, List.nil_append, List.mem_cons,
    List.not_mem_nil, or_false, Bool.false_eq_true] at hl
  · rcases hl with he | he | he | he | he <;> subst he
    · obtain ⟨d1, d2, d3, d4⟩ := digit_val_facts (natChars_all_digit s.step_nr)
      exact updCfg_anchor_other pid nr tag ae nv _ _ (by decide) (by decide) (by decide)
        (by decide) (by decide) hpid htagc d1 d2 d3 d4
    · obtain ⟨d1, d2, d3, d4⟩ := cleanVal_facts h1
      exact updCfg_anchor_other pid nr tag ae nv _ _ (by decide) (by decide) (by decide)
        (by decide) (by decide) hpid htagc d1 d2 d3 d4
    · obtain ⟨d1, d2, d3, d4⟩ := cleanVal_facts h2
      exact updCfg_anchor_other pid nr tag ae nv _ _ (by decide) (by decide) (by decide)
        (by decide) (by decide) hpid htagc d1 d2 d3 d4
    · obtain ⟨d1, d2, d3, d4⟩ := cleanVal_facts h4
      exact updCfg_anchor_other pid nr tag ae nv _ _ (by decide) (by decide) (by decide)
        (by decide) (by decide) hpid htagc d1 d2 d3 d4
    · obtain ⟨d1, d2, d3, d4⟩ := cleanVal_facts h5
      exact updCfg_anchor_other pid nr tag ae nv _ _ (by decide) (by decide) (by decide)
        (by decide) (by decide) hpid htagc d1 d2 d3 d4
  · rcases hl with he | he | he | he | he | he <;> subst he
    · obtain ⟨d1, d2, d3, d4⟩ := digit_val_facts (natChars_all_digit s.step_nr)
      exact updCfg_anchor_other pid nr tag ae nv _ _ (by decide) (by decide) (by decide)
        (by decide) (by decide) hpid htagc d1 d2 d3 d4
    · obtain ⟨d1, d2, d3, d4⟩ := cleanVal_facts h1
      exact updCfg_anchor_other pid nr tag ae nv _ _ (by decide) (by decide) (by decide)
        (by decide) (by decide) hpid htagc d1 d2 d3 d4
    · obtain ⟨d1, d2, d3, d4⟩ := cleanVal_facts h2
      exact updCfg_anchor_other pid nr tag ae nv _ _ (by decide) (by decide) (by decide)
        (by decide) (by decide) hpid htagc d1 d2 d3 d4
    · obtain ⟨d1, d2, d3, d4⟩ := cleanVal_facts h3
      exact updCfg_anchor_other pid nr tag ae nv _ _ (by decide) (by decide) (by decide)
        (by decide) (by decide) hpid htagc d1 d2 d3 d4
    · obtain ⟨d1, d2, d3, d4⟩ := cleanVal_facts h4
      exact updCfg_anchor_other pid nr tag ae nv _ _ (by decide) (by decide) (by decide)
        (by decide) (by decide) hpid htagc d1 d2 d3 d4
    · obtain ⟨d1, d2, d3, d4⟩ := cleanVal_facts h5
      exact updCfg_anchor_other pid nr tag ae nv _ _ (by decide) (by decide) (by decide)
        (by decide) (by decide) hpid htagc d1 d2 d3 d4

/-- Per-line range facts of every line of a step block (the inner range can
only open at the block marker of the addressed step number). -/
theorem stepLines_facts (pid : Line) (nr : Nat) (tag : Line) (ae : Bool)
    (nv : Line) (hpid : '@' ∉ pid) (htagc : ':' ∉ tag)
    (pn : Line) (hpn : ∀ c ∈ pn, c.isDigit = true) (hpne : pn ≠ [])
    (s : FStep) (hwf : wfStepLoose s = true) :
    ∀ l ∈ stepLines pn s,
      (updCfg pid nr tag ae nv).outerStart l = false ∧
      (updCfg pid nr tag ae nv).outerEnd l = false ∧
      (pad3 s.step_nr ≠ pad3 nr → (updCfg pid nr tag ae nv).innerStart l = false) := by
  intro l hl
  rw [stepLines_decomp] at hl
  rcases List.mem_cons.mp hl with he | hl2
  · subst he
    obtain ⟨e1, e2, e3, _, _⟩ := updCfg_empty_facts pid nr tag ae nv
    exact ⟨e1, e2, fun _ => e3⟩
  rcases List.mem_cons.mp hl2 with he | hl3
  · subst he
    obtain ⟨m1, m2, m3, _, _⟩ := updCfg_stepMarker_facts pid nr tag ae nv s.step_nr pn
      hpn hpne
    refine ⟨m1, m2, fun hne => ?_⟩
    rw [m3]
    exact beq_eq_false_iff_ne.mpr (fun h => hne h.symm)
  rcases List.mem_append.mp hl3 with ha | hb
  · have := stepAnchorLines_facts pid nr tag ae nv hpid htagc s hwf l ha
    exact ⟨this.1, this.2.1, fun _ => this.2.2.1⟩
  · rw [List.mem_singleton] at hb
    subst hb
    obtain ⟨m1, m2, m3, _, _⟩ := updCfg_endStepMarker_facts pid nr tag ae nv s.step_nr pn
      hpn hpne
    exact ⟨m1, m2, fun _ => m3⟩

/-- Running the update sed command over one step block from the state
"outer range open, inner range closed": the target block gets every anchor
line substituted, any other block passes through unchanged, and the state
is unchanged. -/
theorem sedRun_stepBlock (pid : Line) (nr : Nat) (tag : Line) (ae : Bool)
    (nv : Line) (hpid : '@' ∉ pid) (htagc : ':' ∉ tag)
    (pn : Line) (hpn : ∀ c ∈ pn, c.isDigit = true) (hpne : pn ≠ [])
    (s : FStep) (hwf : wfStepLoose s = true) :
    sedRun (updCfg pid nr tag ae nv) true false (stepLines pn s) =
      stepBlockSub tag ae nv nr pn s ∧
    sedSt (updCfg pid nr tag ae nv) true false (stepLines pn s) = (true, false) := by
  by_cases heq : pad3 s.step_nr = pad3 nr
  · have hbeq : (pad3 nr == pad3 s.step_nr) = true := beq_iff_eq.mpr heq.symm
    obtain ⟨e1, e2, e3, e4, e5⟩ := updCfg_empty_facts pid nr tag ae nv
    obtain ⟨m1, m2, m3, m4, m5⟩ := updCfg_stepMarker_facts pid nr tag ae nv s.step_nr pn
      hpn hpne
    obtain ⟨n1, n2, n3, n4, n5⟩ := updCfg_endStepMarker_facts pid nr tag ae nv s.step_nr
      pn hpn hpne
    have imk : (updCfg pid nr tag ae nv).innerStart (stepMarker s.step_nr pn) = true :=
      m3.trans hbeq
    have iem : (updCfg pid nr tag ae nv).innerEnd (endStepMarker s.step_nr pn) = true :=
      n4.trans hbeq
    have afacts := stepAnchorLines_facts pid nr tag ae nv hpid htagc s hwf
    have inner := sedInner (updCfg pid nr tag ae nv) (stepAnchorLines s)
      (fun l hl => ⟨(afacts l hl).2.2.2, (afacts l hl).2.1⟩)
    have key : ∀ ys, sedRun (updCfg pid nr tag ae nv) true false
        ([] :: stepMarker s.step_nr pn :: ys) =
        [] :: stepMarker s.step_nr pn :: sedRun (updCfg pid nr tag ae nv) true true ys := by
      intro ys
      rw [sedRun_cons_true, innerStep_not_inn _ _ e3, e2]
      show [] :: sedRun (updCfg pid nr tag ae nv) true false
        (stepMarker s.step_nr pn :: ys) = _
      rw [sedRun_cons_true, innerStep_open _ _ imk, m2, m5]
      show [] :: stepMarker s.step_nr pn ::
        sedRun (updCfg pid nr tag ae nv) true true ys = _
      rfl
    have keySt : ∀ ys, sedSt (updCfg pid nr tag ae nv) true false
        ([] :: stepMarker s.step_nr pn :: ys) =
        sedSt (updCfg pid nr tag ae nv) true true ys := by
      intro ys
      rw [sedSt_cons_true, innerStep_not_inn _ _ e3, e2]
      show sedSt (updCfg pid nr tag ae nv) true false
        (stepMarker s.step_nr pn :: ys) = _
      rw [sedSt_cons_true, innerStep_open _ _ imk, m2]
      show sedSt (updCfg pid nr tag ae nv) true true ys = _
      rfl
    have hend_run : sedRun (updCfg pid nr tag ae nv) true true
        [endStepMarker s.step_nr pn] = [endStepMarker s.step_nr pn] := by
      rw [sedRun_cons_true, innerStep_inn, iem, n5, n2]
      show endStepMarker s.step_nr pn ::
        sedRun (updCfg pid nr tag ae nv) true false [] = _
      rw [sedRun_nil]
    have hend_st : sedSt (updCfg pid nr tag ae nv) true true
        [endStepMarker s.step_nr pn] = (true, false) := by
      rw [sedSt_cons_true, innerStep_inn, iem, n2]
      show sedSt (updCfg pid nr tag ae nv) true false [] = _
      rw [sedSt_nil]
    constructor
    · rw [stepLines_decomp pn s, key, sedRun_append, inner.1, inner.2]
      show [] :: stepMarker s.step_nr pn ::
        (List.map ((updCfg pid nr tag ae nv).sub) (stepAnchorLines s) ++
          sedRun (updCfg pid nr tag ae nv) true true [endStepMarker s.step_nr pn]) = _
      rw [hend_run]
      have hsubf : ((updCfg pid nr tag ae nv).sub) = subAnchor tag notAt ae nv :=
        funext (fun l => updCfg_sub_eq pid nr tag ae nv l)
      rw [hsubf]
      simp [stepBlockSub, heq]
    · rw [stepLines_decomp pn s, keySt, sedSt_append, inner.2]
      show sedSt (updCfg pid nr tag ae nv) true true [endStepMarker s.step_nr pn] = _
      exact hend_st
  · have facts := stepLines_facts pid nr tag ae nv hpid htagc pn hpn hpne s hwf
    have q := sedQuiet (updCfg pid nr tag ae nv) (stepLines pn s)
      (fun l hl => ⟨(facts l hl).2.2 heq, (facts l hl).2.1⟩)
    refine ⟨?_, q.2⟩
    rw [q.1]
    simp [stepBlockSub, heq]

/-! ## The sed command on the steps section and the fixed entry lines -/

theorem sedRun_steps (pid : Line) (nr : Nat) (tag : Line) (ae : Bool)
    (nv : Line) (hpid : '@' ∉ pid) (htagc : ':' ∉ tag)
    (pn : Line) (hpn : ∀ c ∈ pn, c.isDigit = true) (hpne : pn ≠ [])
    (steps : List FStep) (hwf : steps.all wfStepLoose = true) :
    sedRun (updCfg pid nr tag ae nv) true false (steps.flatMap (stepLines pn)) =
      steps.flatMap (stepBlockSub tag ae nv nr pn) ∧
    sedSt (updCfg pid nr tag ae nv) true false (steps.flatMap (stepLines pn)) =
      (true, false) := by
  induction steps with
  | nil =>
    simp only [List.flatMap_nil]
    exact ⟨sedRun_nil _ _ _, sedSt_nil _ _ _⟩
  | cons s ss ih =>
    rw [List.all_cons, Bool.and_eq_true] at hwf
    have block := sedRun_stepBlock pid nr tag ae nv hpid htagc pn hpn hpne s hwf.1
    have tail := ih hwf.2
    constructor
    · rw [List.flatMap_cons, sedRun_append, block.1, block.2]
      show stepBlockSub tag ae nv nr pn s ++
        sedRun (updCfg pid nr tag ae nv) true false (ss.flatMap (stepLines pn)) = _
      rw [tail.1, List.flatMap_cons]
    · rw [List.flatMap_cons, sedSt_append, block.2]
      show sedSt (updCfg pid nr tag ae nv) true false (ss.flatMap (stepLines pn)) = _
      exact tail.2

/-- Quiet facts of a word-digits-word marker line whose words avoid the
address patterns. -/
theorem updCfg_marker_quiet (pid : Line) (nr : Nat) (tag : Line) (ae : Bool)
    (nv : Line) (w1 w2 pn : Line)
    (hpn : ∀ c ∈ pn, c.isDigit = true) (hpne : pn ≠ [])
    (h1 : '@' ∉ w1) (h2 : '@' ∉ w2)
    (h3 : containsL w1 (strL "---STEP:") = false)
    (h4 : containsL w2 (strL "---STEP:") = false)
    (h5 : containsL w1 (strL "---END_STEP:") = false)
    (h6 : containsL w2 (strL "---END_STEP:") = false)
    (h7 : containsL w1 (strL "<<<END_PLAN:") = false)
    (h8 : containsL w2 (strL "<<<END_PLAN:") = false) :
    (updCfg pid nr tag ae nv).outerStart (w1 ++ pn ++ w2) = false ∧
    (updCfg pid nr tag ae nv).outerEnd (w1 ++ pn ++ w2) = false ∧
    (updCfg pid nr tag ae nv).innerStart (w1 ++ pn ++ w2) = false ∧
    (updCfg pid nr tag ae nv).innerEnd (w1 ++ pn ++ w2) = false := by
  obtain ⟨c1, c2, c3, c4, _⟩ := updCfg_wmarker_facts pid nr tag ae nv w1 w2 pn hpn hpne
    h1 h2 h3 h4 h5 h6
  refine ⟨c1, ?_, c3, c4⟩
  rw [c2, h7, h8]
  rfl

/-- Facts of the `<<<END_PLAN:` marker line: it closes the outer range. -/
theorem updCfg_endplan_facts (pid : Line) (nr : Nat) (tag : Line) (ae : Bool)
    (nv : Line) (pn : Line)
    (hpn : ∀ c ∈ pn, c.isDigit = true) (hpne : pn ≠ []) :
    (updCfg pid nr tag ae nv).outerStart
      (strL "<<<END_PLAN:" ++ pn ++ strL ">>>") = false ∧
    (updCfg pid nr tag ae nv).outerEnd
      (strL "<<<END_PLAN:" ++ pn ++ strL ">>>") = true ∧
    (updCfg pid nr tag ae nv).innerStart
      (strL "<<<END_PLAN:" ++ pn ++ strL ">>>") = false ∧
    (updCfg pid nr tag ae nv).innerEnd
      (strL "<<<END_PLAN:" ++ pn ++ strL ">>>") = false := by
  obtain ⟨c1, c2, c3, c4, _⟩ := updCfg_wmarker_facts pid nr tag ae nv
    (strL "<<<END_PLAN:") (strL ">>>") pn hpn hpne (by decide) (by decide)
    (by decide) (by decide) (by decide) (by decide)
  refine ⟨c1, ?_, c3, c4⟩
  rw [c2]
  decide

/-- Facts of the `@PLAN_ID:` anchor line: it opens the outer range exactly
when the stored id equals the target. -/
theorem updCfg_idLine_facts (pid : Line) (nr : Nat) (tag : Line) (ae : Bool)
    (nv : Line) (htagc : ':' ∉ tag) (hpid : '@' ∉ pid)
    (v : Line) (hv : cleanVal v = true) :
    (updCfg pid nr tag ae nv).outerStart (atLine (strL "PLAN_ID") v) = (pid == v) ∧
    (updCfg pid nr tag ae nv).outerEnd (atLine (strL "PLAN_ID") v) = false ∧
    (updCfg pid nr tag ae nv).innerStart (atLine (strL "PLAN_ID") v) = false ∧
    (updCfg pid nr tag ae nv).innerEnd (atLine (strL "PLAN_ID") v) = false := by
  obtain ⟨d1, d2, d3, d4⟩ := cleanVal_facts hv
  obtain ⟨c1, c2, c3, c4, _⟩ := updCfg_atLine_facts pid nr tag ae nv (strL "PLAN_ID") v
    (by decide) (by decide) (by decide) (by decide) hpid htagc d1 d2 d3 d4
  refine ⟨?_, c2, c3, c4⟩
  rw [c1, show (strL "PLAN_ID" == strL "PLAN_ID") = true from by decide, Bool.true_and]

/-- Per-line range facts of the context block. -/
theorem ctxLines_facts (pid : Line) (nr : Nat) (tag : Line) (ae : Bool)
    (nv : Line) (hpid : '@' ∉ pid) (htagc : ':' ∉ tag)
    (pn : Line) (hpn : ∀ c ∈ pn, c.isDigit = true) (hpne : pn ≠ [])
    (ctx : List (Line × Line))
    (hctx : ctx.all (fun kv => cleanKey kv.1 && cleanVal kv.2) = true) :
    ∀ l ∈ ctxLines pn ctx,
      (updCfg pid nr tag ae nv).outerStart l = false ∧
      (updCfg pid nr tag ae nv).outerEnd l = false ∧
      (updCfg pid nr tag ae nv).innerStart l = false ∧
      (updCfg pid nr tag ae nv).innerEnd l = false := by
  intro l hl
  unfold ctxLines at hl
  by_cases hc : ctx.isEmpty
  · rw [if_pos hc] at hl
    exact absurd hl (List.not_mem_nil l)
  rw [if_neg hc] at hl
  rcases List.mem_append.mp hl with hl1 | hl2
  rotate_left
  · rw [List.mem_singleton] at hl2
    subst hl2
    exact updCfg_marker_quiet pid nr tag ae nv _ _ pn hpn hpne (by decide) (by decide)
      (by decide) (by decide) (by decide) (by decide) (by decide) (by decide)
  rcases List.mem_append.mp hl1 with hl3 | hl4
  · rcases List.mem_cons.mp hl3 with he | hl5
    · subst he
      obtain ⟨e1, e2, e3, e4, _⟩ := updCfg_empty_facts pid nr tag ae nv
      exact ⟨e1, e2, e3, e4⟩
    rw [List.mem_singleton] at hl5
    subst hl5
    exact updCfg_marker_quiet pid nr tag ae nv _ _ pn hpn hpne (by decide) (by decide)
      (by decide) (by decide) (by decide) (by decide) (by decide) (by decide)
  · rw [List.mem_map] at hl4
    obtain ⟨kv, hkv, he⟩ := hl4
    subst he
    rw [List.mem_filter] at hkv
    rw [List.all_eq_true] at hctx
    have hk := hctx kv hkv.1
    rw [Bool.and_eq_true] at hk
    obtain ⟨d1, d2, d3, d4⟩ := cleanVal_facts hk.2
    exact updCfg_anchor_other pid nr tag ae nv _ _
      (cleanKey_not_mem hk.1 ':' (by simp)) (cleanKey_not_mem hk.1 '@' (by simp))
      (cleanKey_not_mem hk.1 '-' (by simp)) (cleanKey_not_mem hk.1 '<' (by simp))
      (beq_eq_false_iff_ne.mpr (cleanKey_ne_plan hk.1))
      hpid htagc d1 d2 d3 d4

theorem wfPlanLoose_parts {p : FPlan} (h : wfPlanLoose p = true) :
    cleanVal p.plan_id = true ∧ cleanVal p.timestamp = true ∧
    cleanVal p.query = true ∧
    p.context.all (fun kv => cleanKey kv.1 && cleanVal kv.2) = true ∧
    p.steps.all wfStepLoose = true := by
  unfold wfPlanLoose at h
  simp only [Bool.and_eq_true] at h
  exact ⟨h.1.1.1.1, h.1.1.1.2, h.1.1.2, h.1.2, h.2⟩

theorem wfFileLoose_parts {F : FFile} (h : wfFileLoose F = true) :
    cleanVal F.file_created = true ∧ cleanVal F.last_updated = true ∧
    F.plans.all wfPlanLoose = true := by
  unfold wfFileLoose at h
  simp only [Bool.and_eq_true] at h
  exact ⟨h.1.1, h.1.2, h.2⟩

/-! ## The sed command on a whole plan entry -/

theorem planEntry_decomp (p : FPlan) :
    planEntryLines p =
      [] :: (strL "<<<PLAN:" ++ pad6 p.plan_num ++ strL ">>>") ::
      atLine (strL "PLAN_ID") p.plan_id ::
      (([atLine (strL "PLAN_NUMBER") (pad6 p.plan_num),
         atLine (strL "TIMESTAMP") p.timestamp,
         atLine (strL "MULTI_STEPS") (boolChars p.multi_steps),
         atLine (strL "TOTAL_STEPS") (natChars p.total_steps),
         [], strL ">>>QUERY:" ++ pad6 p.plan_num ++ strL ">>>",
         p.query,
         strL "<<<QUERY:" ++ pad6 p.plan_num ++ strL "<<<"] ++
        ctxLines (pad6 p.plan_num) p.context ++
        [[], strL ">>>STEPS:" ++ pad6 p.plan_num ++ strL ">>>"]) ++
       (p.steps.flatMap (stepLines (pad6 p.plan_num)) ++
        ((strL "<<<STEPS:" ++ pad6 p.plan_num ++ strL "<<<") :: ([] : Line) ::
         (strL "<<<END_PLAN:" ++ pad6 p.plan_num ++ strL ">>>") ::
         [([] : Line), eqLine]))) := by
  simp [planEntryLines]

/-- Per-line facts of the quiet middle of a plan entry (between the
`@PLAN_ID:` anchor and the step blocks). -/
theorem entry_mid_facts (pid : Line) (nr : Nat) (tag : Line) (ae : Bool)
    (nv : Line) (hpid : '@' ∉ pid) (htagc : ':' ∉ tag)
    (p : FPlan) (hwf : wfPlanLoose p = true) :
    ∀ l ∈ ([atLine (strL "PLAN_NUMBER") (pad6 p.plan_num),
            atLine (strL "TIMESTAMP") p.timestamp,
            atLine (strL "MULTI_STEPS") (boolChars p.multi_steps),
            atLine (strL "TOTAL_STEPS") (natChars p.total_steps),
            [], strL ">>>QUERY:" ++ pad6 p.plan_num ++ strL ">>>",
            p.query,
            strL "<<<QUERY:" ++ pad6 p.plan_num ++ strL "<<<"] ++
           ctxLines (pad6 p.plan_num) p.context ++
           [[], strL ">>>STEPS:" ++ pad6 p.plan_num ++ strL ">>>"]),
      (updCfg pid nr tag ae nv).outerStart l = false ∧
      (updCfg pid nr tag ae nv).outerEnd l = false ∧
      (updCfg pid nr tag ae nv).innerStart l = false ∧
      (updCfg pid nr tag ae nv).innerEnd l = false := by
  obtain ⟨hid, hts, hq, hctx, hsteps⟩ := wfPlanLoose_parts hwf
  have hpn := pad6_all_digit p.plan_num
  have hpne := pad6_ne_nil p.plan_num
  obtain ⟨e1, e2, e3, e4, _⟩ := updCfg_empty_facts pid nr tag ae nv
  intro l hl
  rcases List.mem_append.mp hl with h1 | h2
  · rcases List.mem_cons.mp h1 with he | h1
    · subst he
      obtain ⟨d1, d2, d3, d4⟩ := digit_val_facts hpn
      exact updCfg_anchor_other pid nr tag ae nv _ _ (by decide) (by decide) (by decide)
        (by decide) (by decide) hpid htagc d1 d2 d3 d4
    rcases List.mem_cons.mp h1 with he | h1
    · subst he
      obtain ⟨d1, d2, d3, d4⟩ := cleanVal_facts hts
      exact updCfg_anchor_other pid nr tag ae nv _ _ (by decide) (by decide) (by decide)
        (by decide) (by decide) hpid htagc d1 d2 d3 d4
    rcases List.mem_cons.mp h1 with he | h1
    · subst he
      obtain ⟨d1, d2, d3, d4⟩ := boolChars_facts p.multi_steps
      exact updCfg_anchor_other pid nr tag ae nv _ _ (by decide) (by decide) (by decide)
        (by decide) (by decide) hpid htagc d1 d2 d3 d4
    rcases List.mem_cons.mp h1 with he | h1
    · subst he
      obtain ⟨d1, d2, d3, d4⟩ := digit_val_facts (natChars_all_digit p.total_steps)
      exact updCfg_anchor_other pid nr tag ae nv _ _ (by decide) (by decide) (by decide)
        (by decide) (by decide) hpid htagc d1 d2 d3 d4
    rcases List.mem_cons.mp h1 with he | h1
    · subst he
      exact ⟨e1, e2, e3, e4⟩
    rcases List.mem_cons.mp h1 with he | h1
    · subst he
      exact updCfg_marker_quiet pid nr tag ae nv _ _ _ hpn hpne (by decide) (by decide)
        (by decide) (by decide) (by decide) (by decide) (by decide) (by decide)
    rcases List.mem_cons.mp h1 with he | h1
    · subst he
      obtain ⟨d1, d2, d3, d4⟩ := cleanVal_facts hq
      obtain ⟨c1, c2, c3, c4, _⟩ := updCfg_free_facts pid nr tag ae nv p.query d1 d2 d3 d4
      exact ⟨c1, c2, c3, c4⟩
    rcases List.mem_cons.mp h1 with he | h1
    · subst he
      exact updCfg_marker_quiet pid nr tag ae nv _ _ _ hpn hpne (by decide) (by decide)
        (by decide) (by decide) (by decide) (by decide) (by decide) (by decide)
    exact ctxLines_facts pid nr tag ae nv hpid htagc _ hpn hpne p.context hctx l h1
  · rcases List.mem_cons.mp h2 with he | h4
    · subst he
      exact ⟨e1, e2, e3, e4⟩
    rw [List.mem_singleton] at h4
    subst h4
    exact updCfg_marker_quiet pid nr tag ae nv _ _ _ hpn hpne (by decide) (by decide)
      (by decide) (by decide) (by decide) (by decide) (by decide) (by decide)

/-- Running the update sed command over one rendered plan entry from the
fully closed state: the entry whose id matches gets its target step blocks
substituted, any other entry passes through unchanged; the ranges are
closed again at the end of the entry. -/
theorem sedRun_entry (pid : Line) (nr : Nat) (tag : Line) (ae : Bool)
    (nv : Line) (hpid : '@' ∉ pid) (htagc : ':' ∉ tag)
    (p : FPlan) (hwf : wfPlanLoose p = true) :
    sedRun (updCfg pid nr tag ae nv) false false (planEntryLines p) =
      (if p.plan_id = pid then planEntryLinesSub tag ae nv nr p
       else planEntryLines p) ∧
    sedSt (updCfg pid nr tag ae nv) false false (planEntryLines p) =
      (false, false) := by
  obtain ⟨hid, hts, hq, hctx, hsteps⟩ := wfPlanLoose_parts hwf
  have hpn := pad6_all_digit p.plan_num
  have hpne := pad6_ne_nil p.plan_num
  obtain ⟨e1, e2, e3, e4, _⟩ := updCfg_empty_facts pid nr tag ae nv
  have mPlan := updCfg_marker_quiet pid nr tag ae nv (strL "<<<PLAN:") (strL ">>>")
    (pad6 p.plan_num) hpn hpne (by decide) (by decide) (by decide) (by decide)
    (by decide) (by decide) (by decide) (by decide)
  have mSClose := updCfg_marker_quiet pid nr tag ae nv (strL "<<<STEPS:") (strL "<<<")
    (pad6 p.plan_num) hpn hpne (by decide) (by decide) (by decide) (by decide)
    (by decide) (by decide) (by decide) (by decide)
  have endp := updCfg_endplan_facts pid nr tag ae nv (pad6 p.plan_num) hpn hpne
  have idf := updCfg_idLine_facts pid nr tag ae nv htagc hpid p.plan_id hid
  obtain ⟨q1, q2, q3, q4⟩ := eqLine_facts
  obtain ⟨f1, f2, f3, f4, _⟩ := updCfg_free_facts pid nr tag ae nv eqLine q1 q2 q3 q4
  have mid := entry_mid_facts pid nr tag ae nv hpid htagc p hwf
  by_cases hmatch : p.plan_id = pid
  · have hstart : (updCfg pid nr tag ae nv).outerStart
        (atLine (strL "PLAN_ID") p.plan_id) = true := by
      rw [idf.1]
      exact beq_iff_eq.mpr hmatch.symm
    have steps := sedRun_steps pid nr tag ae nv hpid htagc _ hpn hpne p.steps hsteps
    have quietMid := sedQuiet (updCfg pid nr tag ae nv) _
      (fun l hl => ⟨(mid l hl).2.2.1, (mid l hl).2.1⟩)
    have tailRun : sedRun (updCfg pid nr tag ae nv) true false
        ((strL "<<<STEPS:" ++ pad6 p.plan_num ++ strL "<<<") :: ([] : Line) ::
         (strL "<<<END_PLAN:" ++ pad6 p.plan_num ++ strL ">>>") ::
         [([] : Line), eqLine]) =
        (strL "<<<STEPS:" ++ pad6 p.plan_num ++ strL "<<<") :: ([] : Line) ::
         (strL "<<<END_PLAN:" ++ pad6 p.plan_num ++ strL ">>>") ::
         [([] : Line), eqLine] ∧
        sedSt (updCfg pid nr tag ae nv) true false
        ((strL "<<<STEPS:" ++ pad6 p.plan_num ++ strL "<<<") :: ([] : Line) ::
         (strL "<<<END_PLAN:" ++ pad6 p.plan_num ++ strL ">>>") ::
         [([] : Line), eqLine]) = (false, false) := by
      have neut := sedNeutral (updCfg pid nr tag ae nv) [([] : Line), eqLine] false
        (by
          intro l hl
          rcases List.mem_cons.mp hl with he | hl2
          · subst he; exact e1
          rw [List.mem_singleton] at hl2
          subst hl2; exact f1)
      constructor
      · rw [sedRun_cons_true, innerStep_not_inn _ _ mSClose.2.2.1, mSClose.2.1]
        show (strL "<<<STEPS:" ++ pad6 p.plan_num ++ strL "<<<") ::
          sedRun (updCfg pid nr tag ae nv) true false _ = _
        rw [sedRun_cons_true, innerStep_not_inn _ _ e3, e2]
        show _ :: ([] : Line) :: sedRun (updCfg pid nr tag ae nv) true false _ = _
        rw [sedRun_cons_true, innerStep_not_inn _ _ endp.2.2.1, endp.2.1]
        show _ :: ([] : Line) :: (strL "<<<END_PLAN:" ++ pad6 p.plan_num ++ strL ">>>") ::
          sedRun (updCfg pid nr tag ae nv) false false [([] : Line), eqLine] = _
        rw [neut.1]
      · rw [sedSt_cons_true, innerStep_not_inn _ _ mSClose.2.2.1, mSClose.2.1]
        show sedSt (updCfg pid nr tag ae nv) true false _ = _
        rw [sedSt_cons_true, innerStep_not_inn _ _ e3, e2]
        show sedSt (updCfg pid nr tag ae nv) true false _ = _
        rw [sedSt_cons_true, innerStep_not_inn _ _ endp.2.2.1, endp.2.1]
        show sedSt (updCfg pid nr tag ae nv) false false [([] : Line), eqLine] = _
        exact neut.2
    rw [if_pos hmatch]
    constructor
    · rw [planEntry_decomp p, sedRun_cons_false, e1]
      show ([] : Line) :: sedRun (updCfg pid nr tag ae nv) false false _ = _
      rw [sedRun_cons_false, mPlan.1]
      show ([] : Line) :: (strL "<<<PLAN:" ++ pad6 p.plan_num ++ strL ">>>") ::
        sedRun (updCfg pid nr tag ae nv) false false _ = _
      rw [sedRun_cons_false, hstart]
      show ([] : Line) :: _ :: (innerStep (updCfg pid nr tag ae nv) false
        (atLine (strL "PLAN_ID") p.plan_id)).1 ::
        sedRun (updCfg pid nr tag ae nv) true
          (innerStep (updCfg pid nr tag ae nv) false
            (atLine (strL "PLAN_ID") p.plan_id)).2 _ = _
      rw [innerStep_not_inn _ _ idf.2.2.1]
      show ([] : Line) :: _ :: atLine (strL "PLAN_ID") p.plan_id ::
        sedRun (updCfg pid nr tag ae nv) true false _ = _
      rw [sedRun_append, quietMid.1, quietMid.2]
      show ([] : Line) :: _ :: atLine (strL "PLAN_ID") p.plan_id :: (_ ++
        sedRun (updCfg pid nr tag ae nv) true false _) = _
      rw [sedRun_append, steps.1, steps.2]
      show ([] : Line) :: _ :: atLine (strL "PLAN_ID") p.plan_id :: (_ ++
        (p.steps.flatMap (stepBlockSub tag ae nv nr (pad6 p.plan_num)) ++
          sedRun (updCfg pid nr tag ae nv) true false _)) = _
      rw [tailRun.1]
      simp [planEntryLinesSub]
    · rw [planEntry_decomp p, sedSt_cons_false, e1]
      show sedSt (updCfg pid nr tag ae nv) false false _ = _
      rw [sedSt_cons_false, mPlan.1]
      show sedSt (updCfg pid nr tag ae nv) false false _ = _
      rw [sedSt_cons_false, hstart]
      show sedSt (updCfg pid nr tag ae nv) true
        (innerStep (updCfg pid nr tag ae nv) false
          (atLine (strL "PLAN_ID") p.plan_id)).2 _ = _
      rw [innerStep_not_inn _ _ idf.2.2.1]
      show sedSt (updCfg pid nr tag ae nv) true false _ = _
      rw [sedSt_append, quietMid.2]
      show sedSt (updCfg pid nr tag ae nv) true false _ = _
      rw [sedSt_append, steps.2]
      show sedSt (updCfg pid nr tag ae nv) true false _ = _
      exact tailRun.2
  · have hfalse : (pid == p.plan_id) = false :=
      beq_eq_false_iff_ne.mpr (fun h => hmatch h.symm)
    have neutral := sedNeutral (updCfg pid nr tag ae nv) (planEntryLines p) false
      (by
        intro l hl
        rw [planEntry_decomp p] at hl
        rcases List.mem_cons.mp hl with he | hl
        · subst he; exact e1
        rcases List.mem_cons.mp hl with he | hl
        · subst he; exact mPlan.1
        rcases List.mem_cons.mp hl with he | hl
        · subst he
          rw [idf.1]
          exact hfalse
        rcases List.mem_append.mp hl with h1 | h2
        · exact (mid l h1).1
        rcases List.mem_append.mp h2 with h3 | h4
        · rw [List.mem_flatMap] at h3
          obtain ⟨st, hst, hls⟩ := h3
          rw [List.all_eq_true] at hsteps
          exact (stepLines_facts pid nr tag ae nv hpid htagc _ hpn hpne st
            (hsteps st hst) l hls).1
        rcases List.mem_cons.mp h4 with he | h4
        · subst he; exact mSClose.1
        rcases List.mem_cons.mp h4 with he | h4
        · subst he; exact e1
        rcases List.mem_cons.mp h4 with he | h4
        · subst he; exact endp.1
        rcases List.mem_cons.mp h4 with he | h4
        · subst he; exact e1
        rw [List.mem_singleton] at h4
        subst h4
        exact f1)
    rw [if_neg hmatch]
    exact neutral

/-! ## Evaluating the substituted anchor lines per tag -/

theorem notAt_of_not_mem {v : Line} (h : '@' ∉ v) : ∀ c ∈ v, notAt c = true := by
  intro c hc
  unfold notAt
  exact bne_iff_ne.mpr (fun he => h (he ▸ hc))

/-- The substitution leaves any `@`-free line unchanged. -/
theorem subAnchor_atfree (tag : Line) (keep : Char → Bool) (ae : Bool) (nv l : Line)
    (h : '@' ∉ l) : subAnchor tag keep ae nv l = l := by
  apply subAnchor_noPat
  rw [show (('@' :: tag ++ [':']) : Line) = '@' :: (tag ++ [':']) from by simp]
  exact containsL_eq_false_headfree '@' _ _ h

/-- The substitution leaves an anchor line of a different tag unchanged. -/
theorem subAnchor_otherTag (tag K v : Line) (keep : Char → Bool) (ae : Bool)
    (nv : Line) (hne : tag ≠ K) (htagc : ':' ∉ tag) (hKc : ':' ∉ K)
    (hKat : '@' ∉ K) (hv : '@' ∉ v) :
    subAnchor tag keep ae nv (atLine K v) = atLine K v := by
  apply subAnchor_noPat
  rw [show (('@' :: tag ++ [':']) : Line) = '@' :: (tag ++ [':']) from by simp]
  exact contains_tagpat_atLine tag K v hne htagc hKc hKat hv

theorem wfStep_parts {s : FStep} (h : wfStep s = true) :
    cleanVal s.skill_name = true ∧ cleanVal s.rationale = true ∧
    cleanVal s.sub_query = true ∧ cleanVal s.status = true ∧
    s.status.isEmpty = false ∧ cleanVal s.result = true := by
  unfold wfStep at h
  simp only [Bool.and_eq_true] at h
  refine ⟨h.1.1.1.1.1, h.1.1.1.1.2, h.1.1.1.2, h.1.1.2, ?_, h.2⟩
  have := h.1.2
  simp only [Bool.not_eq_true'] at this
  exact this

theorem wfStepLoose_of_wfStep {s : FStep} (h : wfStep s = true) :
    wfStepLoose s = true := by
  obtain ⟨h1, h2, h3, h4, _, h6⟩ := wfStep_parts h
  unfold wfStepLoose
  rw [h1, h2, h3, h4, h6]
  rfl

/-- The status pass on the anchor lines of a target step block. -/
theorem mapSub_status (st : Line) (s : FStep) (hwf : wfStep s = true) :
    (stepAnchorLines s).map (subAnchor (strL "STATUS") notAt false st) =
      stepAnchorLines { s with status := st } := by
  obtain ⟨h1, h2, h3, h4, h5, h6⟩ := wfStep_parts hwf
  have r1 : subAnchor (strL "STATUS") notAt false st
      (atLine (strL "STEP_NR") (natChars s.step_nr)) =
      atLine (strL "STEP_NR") (natChars s.step_nr) :=
    subAnchor_otherTag _ _ _ _ _ _ (by decide) (by decide) (by decide) (by decide)
      (digit_val_facts (natChars_all_digit s.step_nr)).1
  have r2 : subAnchor (strL "STATUS") notAt false st
      (atLine (strL "SKILL_NAME") s.skill_name) =
      atLine (strL "SKILL_NAME") s.skill_name :=
    subAnchor_otherTag _ _ _ _ _ _ (by decide) (by decide) (by decide) (by decide)
      (cleanVal_at h1)
  have r3 : subAnchor (strL "STATUS") notAt false st
      (atLine (strL "RATIONALE") s.rationale) = atLine (strL "RATIONALE") s.rationale :=
    subAnchor_otherTag _ _ _ _ _ _ (by decide) (by decide) (by decide) (by decide)
      (cleanVal_at h2)
  have r4 : subAnchor (strL "STATUS") notAt false st
      (atLine (strL "SUB_QUERY") s.sub_query) = atLine (strL "SUB_QUERY") s.sub_query :=
    subAnchor_otherTag _ _ _ _ _ _ (by decide) (by decide) (by decide) (by decide)
      (cleanVal_at h3)
  have r5 : subAnchor (strL "STATUS") notAt false st
      (atLine (strL "STATUS") s.status) = atLine (strL "STATUS") st :=
    subAnchor_atLine _ _ _ _ _ (notAt_of_not_mem (cleanVal_at h4)) (by decide)
      (by rw [h5]; rfl)
  have r6 : subAnchor (strL "STATUS") notAt false st
      (atLine (strL "RESULT") s.result) = atLine (strL "RESULT") s.result :=
    subAnchor_otherTag _ _ _ _ _ _ (by decide) (by decide) (by decide) (by decide)
      (cleanVal_at h6)
  by_cases hsq : s.sub_query.isEmpty <;>
    simp only [stepAnchorLines, hsq, if_true, if_false, Bool.false_eq_true,
      List.append_nil, List.cons_append, List.nil_append, List.map_cons, List.map_nil,
      r1, r2, r3, r4, r5, r6]

/-- The result pass on the anchor lines of a target step block. -/
theorem mapSub_result (rv : Line) (s : FStep) (hwf : wfStepLoose s = true) :
    (stepAnchorLines s).map (subAnchor (strL "RESULT") notAt true rv) =
      stepAnchorLines { s with result := rv } := by
  obtain ⟨h1, h2, h3, h4, h6⟩ := wfStepLoose_parts hwf
  have r1 : subAnchor (strL "RESULT") notAt true rv
      (atLine (strL "STEP_NR") (natChars s.step_nr)) =
      atLine (strL "STEP_NR") (natChars s.step_nr) :=
    subAnchor_otherTag _ _ _ _ _ _ (by decide) (by decide) (by decide) (by decide)
      (digit_val_facts (natChars_all_digit s.step_nr)).1
  have r2 : subAnchor (strL "RESULT") notAt true rv
      (atLine (strL "SKILL_NAME") s.skill_name) =
      atLine (strL "SKILL_NAME") s.skill_name :=
    subAnchor_otherTag _ _ _ _ _ _ (by decide) (by decide) (by decide) (by decide)
      (cleanVal_at h1)
  have r3 : subAnchor (strL "RESULT") notAt true rv
      (atLine (strL "RATIONALE") s.rationale) = atLine (strL "RATIONALE") s.rationale :=
    subAnchor_otherTag _ _ _ _ _ _ (by decide) (by decide) (by decide) (by decide)
      (cleanVal_at h2)
  have r4 : subAnchor (strL "RESULT") notAt true rv
      (atLine (strL "SUB_QUERY") s.sub_query) = atLine (strL "SUB_QUERY") s.sub_query :=
    subAnchor_otherTag _ _ _ _ _ _ (by decide) (by decide) (by decide) (by decide)
      (cleanVal_at h3)
  have r5 : subAnchor (strL "RESULT") notAt true rv
      (atLine (strL "STATUS") s.status) = atLine (strL "STATUS") s.status :=
    subAnchor_otherTag _ _ _ _ _ _ (by decide) (by decide) (by decide) (by decide)
      (cleanVal_at h4)
  have r6 : subAnchor (strL "RESULT") notAt true rv
      (atLine (strL "RESULT") s.result) = atLine (strL "RESULT") rv :=
    subAnchor_atLine _ _ _ _ _ (notAt_of_not_mem (cleanVal_at h6)) (by decide) rfl
  by_cases hsq : s.sub_query.isEmpty <;>
    simp only [stepAnchorLines, hsq, if_true, if_false, Bool.false_eq_true,
      List.append_nil, List.cons_append, List.nil_append, List.map_cons, List.map_nil,
      r1, r2, r3, r4, r5, r6]

/-- The status pass on one step block equals the structural status
update. -/
theorem stepBlockSub_status (st : Line) (nr : Nat) (pn : Line) (s : FStep)
    (hwf : wfStep s = true) :
    stepBlockSub (strL "STATUS") false st nr pn s = stepLines pn (updStepSt nr st s) := by
  unfold stepBlockSub updStepSt
  by_cases h : pad3 s.step_nr = pad3 nr
  · rw [if_pos h, if_pos h, mapSub_status st s hwf, stepLines_decomp]
    simp
  · rw [if_neg h, if_neg h]

/-- The result pass on one step block equals the structural result
update. -/
theorem stepBlockSub_result (rv : Line) (nr : Nat) (pn : Line) (s : FStep)
    (hwf : wfStepLoose s = true) :
    stepBlockSub (strL "RESULT") true rv nr pn s = stepLines pn (updStepRes nr rv s) := by
  unfold stepBlockSub updStepRes
  by_cases h : pad3 s.step_nr = pad3 nr
  · rw [if_pos h, if_pos h, mapSub_result rv s hwf, stepLines_decomp]
    simp
  · rw [if_neg h, if_neg h]

/-! ## The full sed pass over a rendered file -/

theorem wfPlan_parts {p : FPlan} (h : wfPlan p = true) :
    cleanVal p.plan_id = true ∧ cleanVal p.timestamp = true ∧
    cleanVal p.query = true ∧
    p.context.all (fun kv => cleanKey kv.1 && cleanVal kv.2) = true ∧
    p.steps.all wfStep = true := by
  unfold wfPlan at h
  simp only [Bool.and_eq_true] at h
  exact ⟨h.1.1.1.1.1, h.1.1.1.2, h.1.1.2, h.1.2, h.2⟩

theorem wfPlanLoose_of_wfPlan {p : FPlan} (h : wfPlan p = true) :
    wfPlanLoose p = true := by
  obtain ⟨h1, h2, h3, h4, h5⟩ := wfPlan_parts h
  unfold wfPlanLoose
  rw [h1, h2, h3, h4]
  have : p.steps.all wfStepLoose = true := by
    rw [List.all_eq_true] at h5 ⊢
    exact fun s hs => wfStepLoose_of_wfStep (h5 s hs)
  rw [this]
  rfl

theorem wfFile_parts {F : FFile} (h : wfFile F = true) :
    cleanVal F.file_created = true ∧ cleanVal F.last_updated = true ∧
    F.plans.all wfPlan = true := by
  unfold wfFile at h
  simp only [Bool.and_eq_true] at h
  exact ⟨h.1.1, h.1.2, h.2⟩

theorem wfFileLoose_of_wfFile {F : FFile} (h : wfFile F = true) :
    wfFileLoose F = true := by
  obtain ⟨h1, h2, h3⟩ := wfFile_parts h
  unfold wfFileLoose
  rw [h1, h2]
  have : F.plans.all wfPlanLoose = true := by
    rw [List.all_eq_true] at h3 ⊢
    exact fun p hp => wfPlanLoose_of_wfPlan (h3 p hp)
  rw [this]
  rfl

theorem flatMap_status (st : Line) (nr : Nat) (pn : Line) :
    ∀ (steps : List FStep), steps.all wfStep = true →
    steps.flatMap (stepBlockSub (strL "STATUS") false st nr pn) =
      (steps.map (updStepSt nr st)).flatMap (stepLines pn) := by
  intro steps
  induction steps with
  | nil => intro _; rfl
  | cons s ss ih =>
    intro h
    rw [List.all_cons, Bool.and_eq_true] at h
    rw [List.flatMap_cons, List.map_cons, List.flatMap_cons,
      stepBlockSub_status st nr pn s h.1, ih h.2]

theorem flatMap_result (rv : Line) (nr : Nat) (pn : Line) :
    ∀ (steps : List FStep), steps.all wfStepLoose = true →
    steps.flatMap (stepBlockSub (strL "RESULT") true rv nr pn) =
      (steps.map (updStepRes nr rv)).flatMap (stepLines pn) := by
  intro steps
  induction steps with
  | nil => intro _; rfl
  | cons s ss ih =>
    intro h
    rw [List.all_cons, Bool.and_eq_true] at h
    rw [List.flatMap_cons, List.map_cons, List.flatMap_cons,
      stepBlockSub_result rv nr pn s h.1, ih h.2]

theorem planEntryLinesSub_status (st : Line) (nr : Nat) (p : FPlan)
    (hwf : wfPlan p = true) :
    planEntryLinesSub (strL "STATUS") false st nr p =
      planEntryLines { p with steps := p.steps.map (updStepSt nr st) } := by
  obtain ⟨_, _, _, _, hsteps⟩ := wfPlan_parts hwf
  unfold planEntryLinesSub planEntryLines
  rw [flatMap_status st nr (pad6 p.plan_num) p.steps hsteps]

theorem planEntryLinesSub_result (rv : Line) (nr : Nat) (p : FPlan)
    (hwf : wfPlanLoose p = true) :
    planEntryLinesSub (strL "RESULT") true rv nr p =
      planEntryLines { p with steps := p.steps.map (updStepRes nr rv) } := by
  obtain ⟨_, _, _, _, hsteps⟩ := wfPlanLoose_parts hwf
  unfold planEntryLinesSub planEntryLines
  rw [flatMap_result rv nr (pad6 p.plan_num) p.steps hsteps]

theorem header_neutral (pid : Line) (nr : Nat) (tag : Line) (ae : Bool)
    (nv : Line) (hpid : '@' ∉ pid) (htagc : ':' ∉ tag)
    (c u : Line) (t : Nat) (hc : cleanVal c = true) (hu : cleanVal u = true) :
    ∀ l ∈ headerLines c u t, (updCfg pid nr tag ae nv).outerStart l = false := by
  obtain ⟨q1, q2, q3, q4⟩ := eqLine_facts
  have heq := (updCfg_free_facts pid nr tag ae nv eqLine q1 q2 q3 q4).1
  obtain ⟨e1, _, _, _, _⟩ := updCfg_empty_facts pid nr tag ae nv
  intro l hl
  unfold headerLines at hl
  rcases List.mem_cons.mp hl with he | hl
  · subst he; exact heq
  rcases List.mem_cons.mp hl with he | hl
  · subst he
    exact (updCfg_free_facts pid nr tag ae nv _ (by decide) (by decide) (by decide)
      (by decide)).1
  rcases List.mem_cons.mp hl with he | hl
  · subst he; exact heq
  rcases List.mem_cons.mp hl with he | hl
  · subst he; exact e1
  rcases List.mem_cons.mp hl with he | hl
  · subst he
    obtain ⟨d1, d2, d3, d4⟩ := cleanVal_facts hc
    exact (updCfg_anchor_other pid nr tag ae nv _ _ (by decide) (by decide) (by decide)
      (by decide) (by decide) hpid htagc d1 d2 d3 d4).1
  rcases List.mem_cons.mp hl with he | hl
  · subst he
    obtain ⟨d1, d2, d3, d4⟩ := cleanVal_facts hu
    exact (updCfg_anchor_other pid nr tag ae nv _ _ (by decide) (by decide) (by decide)
      (by decide) (by decide) hpid htagc d1 d2 d3 d4).1
  rcases List.mem_cons.mp hl with he | hl
  · subst he
    obtain ⟨d1, d2, d3, d4⟩ := digit_val_facts (natChars_all_digit t)
    exact (updCfg_anchor_other pid nr tag ae nv _ _ (by decide) (by decide) (by decide)
      (by decide) (by decide) hpid htagc d1 d2 d3 d4).1
  rcases List.mem_cons.mp hl with he | hl
  · subst he; exact e1
  rcases List.mem_cons.mp hl with he | hl
  · subst he
    exact (updCfg_free_facts pid nr tag ae nv _ (by decide) (by decide) (by decide)
      (by decide)).1
  rcases List.mem_cons.mp hl with he | hl
  · subst he
    exact (updCfg_free_facts pid nr tag ae nv _ (by decide) (by decide) (by decide)
      (by decide)).1
  rcases List.mem_cons.mp hl with he | hl
  · subst he; exact e1
  rcases List.mem_cons.mp hl with he | hl
  · subst he; exact heq
  rw [List.mem_singleton] at hl
  subst hl
  exact e1

theorem sedRun_plansList (pid : Line) (nr : Nat) (tag : Line) (ae : Bool)
    (nv : Line) (hpid : '@' ∉ pid) (htagc : ':' ∉ tag) :
    ∀ (ps : List FPlan), ps.all wfPlanLoose = true →
    sedRun (updCfg pid nr tag ae nv) false false (ps.flatMap planEntryLines) =
      ps.flatMap (fun p => if p.plan_id = pid then planEntryLinesSub tag ae nv nr p
        else planEntryLines p) ∧
    sedSt (updCfg pid nr tag ae nv) false false (ps.flatMap planEntryLines) =
      (false, false) := by
  intro ps
  induction ps with
  | nil =>
    intro _
    simp only [List.flatMap_nil]
    exact ⟨sedRun_nil _ _ _, sedSt_nil _ _ _⟩
  | cons p ps ih =>
    intro h
    rw [List.all_cons, Bool.and_eq_true] at h
    have ent := sedRun_entry pid nr tag ae nv hpid htagc p h.1
    have tail := ih h.2
    constructor
    · rw [List.flatMap_cons, sedRun_append, ent.1, ent.2]
      show _ ++ sedRun (updCfg pid nr tag ae nv) false false
        (ps.flatMap planEntryLines) = _
      rw [tail.1, List.flatMap_cons]
    · rw [List.flatMap_cons, sedSt_append, ent.2]
      show sedSt (updCfg pid nr tag ae nv) false false (ps.flatMap planEntryLines) = _
      exact tail.2

theorem sedPass_render (pid : Line) (nr : Nat) (tag : Line) (ae : Bool)
    (nv : Line) (hpid : '@' ∉ pid) (htagc : ':' ∉ tag)
    (F : FFile) (hwf : wfFileLoose F = true) :
    sedRun (updCfg pid nr tag ae nv) false false (renderFile F) =
      headerLines F.file_created F.last_updated F.total_plans ++
      F.plans.flatMap (fun p => if p.plan_id = pid then planEntryLinesSub tag ae nv nr p
        else planEntryLines p) := by
  obtain ⟨hc, hu, hps⟩ := wfFileLoose_parts hwf
  unfold renderFile
  rw [sedRun_append]
  have hH := sedNeutral (updCfg pid nr tag ae nv)
    (headerLines F.file_created F.last_updated F.total_plans) false
    (header_neutral pid nr tag ae nv hpid htagc _ _ _ hc hu)
  rw [hH.1, hH.2]
  show headerLines F.file_created F.last_updated F.total_plans ++
    sedRun (updCfg pid nr tag ae nv) false false (F.plans.flatMap planEntryLines) = _
  rw [(sedRun_plansList pid nr tag ae nv hpid htagc F.plans hps).1]

theorem flatMap_if_status (pid : Line) (nr : Nat) (st : Line) :
    ∀ (ps : List FPlan), ps.all wfPlan = true →
    ps.flatMap (fun p => if p.plan_id = pid
        then planEntryLinesSub (strL "STATUS") false st nr p else planEntryLines p) =
      (ps.map (updPlanBy pid (updStepSt nr st))).flatMap planEntryLines := by
  intro ps
  induction ps with
  | nil => intro _; rfl
  | cons p ps ih =>
    intro h
    rw [List.all_cons, Bool.and_eq_true] at h
    rw [List.flatMap_cons, List.map_cons, List.flatMap_cons, ih h.2]
    unfold updPlanBy
    by_cases hc : p.plan_id = pid
    · rw [if_pos hc, if_pos hc, planEntryLinesSub_status st nr p h.1]
    · rw [if_neg hc, if_neg hc]

theorem flatMap_if_result (pid : Line) (nr : Nat) (rv : Line) :
    ∀ (ps : List FPlan), ps.all wfPlanLoose = true →
    ps.flatMap (fun p => if p.plan_id = pid
        then planEntryLinesSub (strL "RESULT") true rv nr p else planEntryLines p) =
      (ps.map (updPlanBy pid (updStepRes nr rv))).flatMap planEntryLines := by
  intro ps
  induction ps with
  | nil => intro _; rfl
  | cons p ps ih =>
    intro h
    rw [List.all_cons, Bool.and_eq_true] at h
    rw [List.flatMap_cons, List.map_cons, List.flatMap_cons, ih h.2]
    unfold updPlanBy
    by_cases hc : p.plan_id = pid
    · rw [if_pos hc, if_pos hc, planEntryLinesSub_result rv nr p h.1]
    · rw [if_neg hc, if_neg hc]

/-- The whole status sed pass renders the structural status update. -/
theorem statusPass (pid : Line) (nr : Nat) (st : Line) (hpid : '@' ∉ pid)
    (F : FFile) (hwf : wfFile F = true) :
    sedRun (updCfg pid nr (strL "STATUS") false st) false false (renderFile F) =
      renderFile (updFileBy pid (updStepSt nr st) F) := by
  obtain ⟨_, _, hps⟩ := wfFile_parts hwf
  rw [sedPass_render pid nr (strL "STATUS") false st hpid (by decide) F
    (wfFileLoose_of_wfFile hwf)]
  rw [flatMap_if_status pid nr st F.plans hps]
  rfl

/-- The whole result sed pass renders the structural result update. -/
theorem resultPass (pid : Line) (nr : Nat) (rv : Line) (hpid : '@' ∉ pid)
    (F : FFile) (hwf : wfFileLoose F = true) :
    sedRun (updCfg pid nr (strL "RESULT") true rv) false false (renderFile F) =
      renderFile (updFileBy pid (updStepRes nr rv) F) := by
  obtain ⟨_, _, hps⟩ := wfFileLoose_parts hwf
  rw [sedPass_render pid nr (strL "RESULT") true rv hpid (by decide) F hwf]
  rw [flatMap_if_result pid nr rv F.plans hps]
  rfl

/-! ## The metadata pass on a rendered file -/

theorem map_id_on {α : Type} (f : α → α) :
    ∀ (l : List α), (∀ x ∈ l, f x = x) → l.map f = l := by
  intro l
  induction l with
  | nil => intro _; rfl
  | cons x xs ih =>
    intro h
    rw [List.map_cons, h x (List.mem_cons_self x xs),
      ih (fun y hy => h y (List.mem_cons_of_mem x hy))]

/-- Shape of every line of a rendered step block: `@`-free, or an anchor
line whose tag is none of the header tags. -/
theorem stepLines_shape (pn : Line) (hpn : ∀ c ∈ pn, c.isDigit = true)
    (s : FStep) (hfree : stepAtFree s) :
    ∀ l ∈ stepLines pn s,
      ('@' ∉ l) ∨ ∃ K v, l = atLine K v ∧ ':' ∉ K ∧ '@' ∉ K ∧ '@' ∉ v ∧
        strL "LAST_UPDATED" ≠ K ∧ strL "TOTAL_PLANS" ≠ K := by
  obtain ⟨hsk, hra, hsq, hst, hre⟩ := hfree
  intro l hl
  rw [stepLines_decomp] at hl
  rcases List.mem_cons.mp hl with he | hl
  · subst he
    exact Or.inl (List.not_mem_nil '@')
  rcases List.mem_cons.mp hl with he | hl
  · subst he
    exact Or.inl (at_not_mem_stepMarker s.step_nr pn hpn)
  rcases List.mem_append.mp hl with ha | hb
  rotate_left
  · rw [List.mem_singleton] at hb
    subst hb
    exact Or.inl (at_not_mem_endStepMarker s.step_nr pn hpn)
  by_cases hq : s.sub_query.isEmpty <;> simp only [stepAnchorLines, hq, if_true,
    if_false, Bool.false_eq_true, List.append_nil, List.cons_append, List.nil_append,
    List.mem_cons, List.not_mem_nil, or_false] at ha
  · rcases ha with he | he | he | he | he <;> subst he
    · exact Or.inr ⟨_, _, rfl, by decide, by decide,
        (digit_val_facts (natChars_all_digit s.step_nr)).1, by decide, by decide⟩
    · exact Or.inr ⟨_, _, rfl, by decide, by decide, hsk, by decide, by decide⟩
    · exact Or.inr ⟨_, _, rfl, by decide, by decide, hra, by decide, by decide⟩
    · exact Or.inr ⟨_, _, rfl, by decide, by decide, hst, by decide, by decide⟩
    · exact Or.inr ⟨_, _, rfl, by decide, by decide, hre, by decide, by decide⟩
  · rcases ha with he | he | he | he | he | he <;> subst he
    · exact Or.inr ⟨_, _, rfl, by decide, by decide,
        (digit_val_facts (natChars_all_digit s.step_nr)).1, by decide, by decide⟩
    · exact Or.inr ⟨_, _, rfl, by decide, by decide, hsk, by decide, by decide⟩
    · exact Or.inr ⟨_, _, rfl, by decide, by decide, hra, by decide, by decide⟩
    · exact Or.inr ⟨_, _, rfl, by decide, by decide, hsq, by decide, by decide⟩
    · exact Or.inr ⟨_, _, rfl, by decide, by decide, hst, by decide, by decide⟩
    · exact Or.inr ⟨_, _, rfl, by decide, by decide, hre, by decide, by decide⟩

/-- Shape of every line of a rendered plan entry. -/
theorem planEntry_shape (p : FPlan) (hfree : planAtFree p) :
    ∀ l ∈ planEntryLines p,
      ('@' ∉ l) ∨ ∃ K v, l = atLine K v ∧ ':' ∉ K ∧ '@' ∉ K ∧ '@' ∉ v ∧
        strL "LAST_UPDATED" ≠ K ∧ strL "TOTAL_PLANS" ≠ K := by
  obtain ⟨hid, hts, hq, hctx, hsteps⟩ := hfree
  have hpn := pad6_all_digit p.plan_num
  intro l hl
  rw [planEntry_decomp p] at hl
  rcases List.mem_cons.mp hl with he | hl
  · subst he
    exact Or.inl (List.not_mem_nil '@')
  rcases List.mem_cons.mp hl with he | hl
  · subst he
    exact Or.inl (at_not_mem_marker (by decide) (by decide) hpn)
  rcases List.mem_cons.mp hl with he | hl
  · subst he
    exact Or.inr ⟨_, _, rfl, by decide, by decide, hid, by decide, by decide⟩
  rcases List.mem_append.mp hl with h1 | h2
  · rcases List.mem_cons.mp h1 with he | h1
    · subst he
      exact Or.inr ⟨_, _, rfl, by decide, by decide, (digit_val_facts hpn).1,
        by decide, by decide⟩
    rcases List.mem_cons.mp h1 with he | h1
    · subst he
      exact Or.inr ⟨_, _, rfl, by decide, by decide, hts, by decide, by decide⟩
    rcases List.mem_cons.mp h1 with he | h1
    · subst he
      exact Or.inr ⟨_, _, rfl, by decide, by decide, (boolChars_facts p.multi_steps).1,
        by decide, by decide⟩
    rcases List.mem_cons.mp h1 with he | h1
    · subst he
      exact Or.inr ⟨_, _, rfl, by decide, by decide,
        (digit_val_facts (natChars_all_digit p.total_steps)).1, by decide, by decide⟩
    rcases List.mem_cons.mp h1 with he | h1
    · subst he
      exact Or.inl (List.not_mem_nil '@')
    rcases List.mem_cons.mp h1 with he | h1
    · subst he
      exact Or.inl (at_not_mem_marker (by decide) (by decide) hpn)
    rcases List.mem_cons.mp h1 with he | h1
    · subst he
      exact Or.inl hq
    rcases List.mem_cons.mp h1 with he | h1
    · subst he
      exact Or.inl (at_not_mem_marker (by decide) (by decide) hpn)
    rcases List.mem_append.mp h1 with hctxm | hB
    rotate_left
    · rcases List.mem_cons.mp hB with he | hB
      · subst he
        exact Or.inl (List.not_mem_nil '@')
      rw [List.mem_singleton] at hB
      subst hB
      exact Or.inl (at_not_mem_marker (by decide) (by decide) hpn)
    have hctx2 : l ∈ ctxLines (pad6 p.plan_num) p.context := hctxm
    unfold ctxLines at hctx2
    by_cases hce : p.context.isEmpty
    · rw [if_pos hce] at hctx2
      exact absurd hctx2 (List.not_mem_nil l)
    rw [if_neg hce] at hctx2
    rcases List.mem_append.mp hctx2 with h3 | h4
    rotate_left
    · rw [List.mem_singleton] at h4
      subst h4
      exact Or.inl (at_not_mem_marker (by decide) (by decide) hpn)
    rcases List.mem_append.mp h3 with h5 | h6
    · rcases List.mem_cons.mp h5 with he | h5
      · subst he
        exact Or.inl (List.not_mem_nil '@')
      rw [List.mem_singleton] at h5
      subst h5
      exact Or.inl (at_not_mem_marker (by decide) (by decide) hpn)
    · rw [List.mem_map] at h6
      obtain ⟨kv, hkv, he⟩ := h6
      subst he
      rw [List.mem_filter] at hkv
      obtain ⟨hk, hv⟩ := hctx kv hkv.1
      refine Or.inr ⟨_, _, rfl, cleanKey_not_mem hk ':' (by simp),
        cleanKey_not_mem hk '@' (by simp), hv, ?_, ?_⟩
      · exact fun he => (cleanKey_ne hk).1 he.symm
      · exact fun he => (cleanKey_ne hk).2 he.symm
  rcases List.mem_append.mp h2 with h3 | h4
  · rw [List.mem_flatMap] at h3
    obtain ⟨st, hst, hls⟩ := h3
    exact stepLines_shape _ hpn st (hsteps st hst) l hls
  rcases List.mem_cons.mp h4 with he | h4
  · subst he
    exact Or.inl (at_not_mem_marker (by decide) (by decide) hpn)
  rcases List.mem_cons.mp h4 with he | h4
  · subst he
    exact Or.inl (List.not_mem_nil '@')
  rcases List.mem_cons.mp h4 with he | h4
  · subst he
    exact Or.inl (at_not_mem_marker (by decide) (by decide) hpn)
  rcases List.mem_cons.mp h4 with he | h4
  · subst he
    exact Or.inl (List.not_mem_nil '@')
  rw [List.mem_singleton] at h4
  subst h4
  exact Or.inl eqLine_facts.1

/-- A header-tag substitution fixes every line of the entry shapes. -/
theorem subAnchor_shape_id (tag : Line) (ke : Char → Bool) (ae : Bool) (nv l : Line)
    (hsh : ('@' ∉ l) ∨ ∃ K v, l = atLine K v ∧ ':' ∉ K ∧ '@' ∉ K ∧ '@' ∉ v ∧
      strL "LAST_UPDATED" ≠ K ∧ strL "TOTAL_PLANS" ≠ K)
    (htagc : ':' ∉ tag)
    (htag : tag = strL "LAST_UPDATED" ∨ tag = strL "TOTAL_PLANS") :
    subAnchor tag ke ae nv l = l := by
  rcases hsh with h | ⟨K, v, he, hKc, hKat, hv, hne1, hne2⟩
  · exact subAnchor_atfree tag ke ae nv l h
  · subst he
    rcases htag with ht | ht <;> subst ht
    · exact subAnchor_otherTag _ _ _ _ _ _ hne1 htagc hKc hKat hv
    · exact subAnchor_otherTag _ _ _ _ _ _ hne2 htagc hKc hKat hv

/-- A header-tag substitution fixes every rendered plan entry. -/
theorem metaPass_entries (tag : Line) (ke : Char → Bool) (ae : Bool) (nv : Line)
    (htagc : ':' ∉ tag)
    (htag : tag = strL "LAST_UPDATED" ∨ tag = strL "TOTAL_PLANS") :
    ∀ (ps : List FPlan), (∀ p ∈ ps, planAtFree p) →
    (ps.flatMap planEntryLines).map (subAnchor tag ke ae nv) =
      ps.flatMap planEntryLines := by
  intro ps
  induction ps with
  | nil => intro _; rfl
  | cons p ps ih =>
    intro h
    rw [List.flatMap_cons, List.map_append,
      map_id_on _ _ (fun l hl => subAnchor_shape_id tag ke ae nv l
        (planEntry_shape p (h p (List.mem_cons_self p ps)) l hl) htagc htag),
      ih (fun q hq => h q (List.mem_cons_of_mem p hq))]

/-- The fast metadata pass on the header rewrites exactly the
`@LAST_UPDATED:` value. -/
theorem metaFast_header (ts c u : Line) (t : Nat) (hc : '@' ∉ c) (hu : '@' ∉ u) :
    (headerLines c u t).map (subAnchor (strL "LAST_UPDATED") notAt true ts) =
      headerLines c ts t := by
  have req : subAnchor (strL "LAST_UPDATED") notAt true ts eqLine = eqLine :=
    subAnchor_atfree _ _ _ _ _ eqLine_facts.1
  have rnil : subAnchor (strL "LAST_UPDATED") notAt true ts [] = [] := rfl
  have rt1 : subAnchor (strL "LAST_UPDATED") notAt true ts
      (strL "                    QUERY DECOMPOSITION PLANS") =
      strL "                    QUERY DECOMPOSITION PLANS" :=
    subAnchor_atfree _ _ _ _ _ (by decide)
  have rt2 : subAnchor (strL "LAST_UPDATED") notAt true ts
      (strL "This file stores query decomposition plans in a grep-friendly anchor format.") =
      strL "This file stores query decomposition plans in a grep-friendly anchor format." :=
    subAnchor_atfree _ _ _ _ _ (by decide)
  have rt3 : subAnchor (strL "LAST_UPDATED") notAt true ts
      (strL "Each plan can be easily searched, modified, or have steps added/updated.") =
      strL "Each plan can be easily searched, modified, or have steps added/updated." :=
    subAnchor_atfree _ _ _ _ _ (by decide)
  have rfc : subAnchor (strL "LAST_UPDATED") notAt true ts
      (atLine (strL "FILE_CREATED") c) = atLine (strL "FILE_CREATED") c :=
    subAnchor_otherTag _ _ _ _ _ _ (by decide) (by decide) (by decide) (by decide) hc
  have rlu : subAnchor (strL "LAST_UPDATED") notAt true ts
      (atLine (strL "LAST_UPDATED") u) = atLine (strL "LAST_UPDATED") ts :=
    subAnchor_atLine _ _ _ _ _ (notAt_of_not_mem hu) (by decide) rfl
  have rtp : subAnchor (strL "LAST_UPDATED") notAt true ts
      (atLine (strL "TOTAL_PLANS") (natChars t)) =
      atLine (strL "TOTAL_PLANS") (natChars t) :=
    subAnchor_otherTag _ _ _ _ _ _ (by decide) (by decide) (by decide) (by decide)
      (digit_val_facts (natChars_all_digit t)).1
  unfold headerLines
  simp only [List.map_cons, List.map_nil, req, rnil, rt1, rt2, rt3, rfc, rlu, rtp]

/-- The fast metadata pass over a rendered file rewrites exactly the
header timestamp. -/
theorem metaFast_render (ts : Line) (G : FFile) (hfree : fileAtFree G) :
    metaFastPass ts (renderFile G) = renderFile { G with last_updated := ts } := by
  obtain ⟨hc, hu, hps⟩ := hfree
  unfold metaFastPass renderFile
  rw [List.map_append, metaFast_header ts _ _ _ hc hu,
    metaPass_entries _ _ _ _ (by decide) (Or.inl rfl) G.plans hps]

/-! ## Structural bookkeeping for the two sed passes -/

theorem wfStepLoose_updStepSt {s : FStep} (h : wfStepLoose s = true)
    (nr : Nat) (st : Line) (hst : cleanVal st = true) :
    wfStepLoose (updStepSt nr st s) = true := by
  obtain ⟨h1, h2, h3, _, h5⟩ := wfStepLoose_parts h
  unfold updStepSt
  by_cases hc : pad3 s.step_nr = pad3 nr
  · rw [if_pos hc]
    show (cleanVal s.skill_name && cleanVal s.rationale && cleanVal s.sub_query &&
      cleanVal st && cleanVal s.result) = true
    rw [h1, h2, h3, hst, h5]
    rfl
  · rw [if_neg hc]
    exact h

theorem wfPlanLoose_updSt {p : FPlan} (h : wfPlanLoose p = true)
    (pid : Line) (nr : Nat) (st : Line) (hst : cleanVal st = true) :
    wfPlanLoose (updPlanBy pid (updStepSt nr st) p) = true := by
  obtain ⟨h1, h2, h3, h4, h5⟩ := wfPlanLoose_parts h
  unfold updPlanBy
  by_cases hc : p.plan_id = pid
  · rw [if_pos hc]
    show (cleanVal p.plan_id && cleanVal p.timestamp && cleanVal p.query &&
      p.context.all (fun kv => cleanKey kv.1 && cleanVal kv.2) &&
      (p.steps.map (updStepSt nr st)).all wfStepLoose) = true
    rw [h1, h2, h3, h4]
    have : (p.steps.map (updStepSt nr st)).all wfStepLoose = true := by
      rw [List.all_eq_true] at h5 ⊢
      intro x hx
      rw [List.mem_map] at hx
      obtain ⟨t, ht, he⟩ := hx
      subst he
      exact wfStepLoose_updStepSt (h5 t ht) nr st hst
    rw [this]
    rfl
  · rw [if_neg hc]
    exact h

theorem wfFileLoose_updFileBySt {F : FFile} (h : wfFileLoose F = true)
    (pid : Line) (nr : Nat) (st : Line) (hst : cleanVal st = true) :
    wfFileLoose (updFileBy pid (updStepSt nr st) F) = true := by
  obtain ⟨h1, h2, h3⟩ := wfFileLoose_parts h
  unfold updFileBy
  show (cleanVal F.file_created && cleanVal F.last_updated &&
    (F.plans.map (updPlanBy pid (updStepSt nr st))).all wfPlanLoose) = true
  rw [h1, h2]
  have : (F.plans.map (updPlanBy pid (updStepSt nr st))).all wfPlanLoose = true := by
    rw [List.all_eq_true] at h3 ⊢
    intro q hq
    rw [List.mem_map] at hq
    obtain ⟨p, hp, he⟩ := hq
    subst he
    exact wfPlanLoose_updSt (h3 p hp) pid nr st hst
  rw [this]
  rfl

theorem stepAtFree_of_loose {s : FStep} (h : wfStepLoose s = true) : stepAtFree s := by
  obtain ⟨h1, h2, h3, h4, h5⟩ := wfStepLoose_parts h
  exact ⟨cleanVal_at h1, cleanVal_at h2, cleanVal_at h3, cleanVal_at h4, cleanVal_at h5⟩

theorem planAtFree_of_loose {p : FPlan} (h : wfPlanLoose p = true) : planAtFree p := by
  obtain ⟨h1, h2, h3, h4, h5⟩ := wfPlanLoose_parts h
  rw [List.all_eq_true] at h4 h5
  refine ⟨cleanVal_at h1, cleanVal_at h2, cleanVal_at h3, ?_, ?_⟩
  · intro kv hkv
    have := h4 kv hkv
    rw [Bool.and_eq_true] at this
    exact ⟨this.1, cleanVal_at this.2⟩
  · intro st hst
    exact stepAtFree_of_loose (h5 st hst)

theorem fileAtFree_of_loose {F : FFile} (h : wfFileLoose F = true) : fileAtFree F := by
  obtain ⟨h1, h2, h3⟩ := wfFileLoose_parts h
  rw [List.all_eq_true] at h3
  exact ⟨cleanVal_at h1, cleanVal_at h2, fun p hp => planAtFree_of_loose (h3 p hp)⟩

theorem stepAtFree_updRes {s : FStep} (h : stepAtFree s) (nr : Nat) (rv : Line)
    (hrv : '@' ∉ rv) : stepAtFree (updStepRes nr rv s) := by
  obtain ⟨h1, h2, h3, h4, h5⟩ := h
  unfold updStepRes
  by_cases hc : pad3 s.step_nr = pad3 nr
  · rw [if_pos hc]
    exact ⟨h1, h2, h3, h4, hrv⟩
  · rw [if_neg hc]
    exact ⟨h1, h2, h3, h4, h5⟩

theorem planAtFree_updRes {p : FPlan} (h : planAtFree p) (pid : Line) (nr : Nat)
    (rv : Line) (hrv : '@' ∉ rv) : planAtFree (updPlanBy pid (updStepRes nr rv) p) := by
  obtain ⟨h1, h2, h3, h4, h5⟩ := h
  unfold updPlanBy
  by_cases hc : p.plan_id = pid
  · rw [if_pos hc]
    refine ⟨h1, h2, h3, h4, ?_⟩
    intro t ht
    rw [List.mem_map] at ht
    obtain ⟨u, hu, he⟩ := ht
    subst he
    exact stepAtFree_updRes (h5 u hu) nr rv hrv
  · rw [if_neg hc]
    exact ⟨h1, h2, h3, h4, h5⟩

theorem fileAtFree_updRes {F : FFile} (h : fileAtFree F) (pid : Line) (nr : Nat)
    (rv : Line) (hrv : '@' ∉ rv) : fileAtFree (updFileBy pid (updStepRes nr rv) F) := by
  obtain ⟨h1, h2, h3⟩ := h
  refine ⟨h1, h2, ?_⟩
  intro q hq
  rw [updFileBy, List.mem_map] at hq
  obtain ⟨p, hp, he⟩ := hq
  subst he
  exact planAtFree_updRes (h3 p hp) pid nr rv hrv

theorem updStep_none_eq (nr : Nat) (st : Line) :
    updStep nr st none = updStepSt nr st := by
  funext s
  unfold updStep updStepSt
  by_cases h : pad3 s.step_nr = pad3 nr <;> simp [h]

theorem updStepRes_updStepSt (nr : Nat) (st rv : Line) (s : FStep) :
    updStepRes nr rv (updStepSt nr st s) = updStep nr st (some rv) s := by
  unfold updStep updStepSt updStepRes
  by_cases h : pad3 s.step_nr = pad3 nr <;> simp [h]

theorem updPlan_none_eq (pid : Line) (nr : Nat) (st : Line) :
    updPlan pid nr st none = updPlanBy pid (updStepSt nr st) := by
  funext p
  unfold updPlan updPlanBy
  rw [updStep_none_eq]

/-- Running the two step updates in sequence is the combined update of
`update_step_status`. -/
theorem updPlanBy_comp (pid : Line) (nr : Nat) (st rv : Line) (p : FPlan) :
    updPlanBy pid (updStepRes nr rv) (updPlanBy pid (updStepSt nr st) p) =
      updPlan pid nr st (some rv) p := by
  have hsteps : ∀ (ss : List FStep),
      (ss.map (updStepSt nr st)).map (updStepRes nr rv) =
        ss.map (updStep nr st (some rv)) := by
    intro ss
    induction ss with
    | nil => rfl
    | cons s ss ih =>
      rw [List.map_cons, List.map_cons, List.map_cons,
        updStepRes_updStepSt nr st rv s, ih]
  by_cases hc : p.plan_id = pid
  · simp [updPlanBy, updPlan, hc, hsteps]
  · simp [updPlanBy, updPlan, hc]

theorem structUpdate_none (pid : Line) (nr : Nat) (st ts : Line) (F : FFile) :
    structUpdate pid nr st none ts F =
      { updFileBy pid (updStepSt nr st) F with last_updated := ts } := by
  unfold structUpdate updFileBy
  rw [updPlan_none_eq]

theorem structUpdate_some (pid : Line) (nr : Nat) (st rv ts : Line) (F : FFile) :
    structUpdate pid nr st (some rv) ts F =
      { updFileBy pid (updStepRes nr rv) (updFileBy pid (updStepSt nr st) F) with
        last_updated := ts } := by
  unfold structUpdate updFileBy
  show ({ F with last_updated := ts, plans := F.plans.map (updPlan pid nr st (some rv)) } : FFile) = { F with last_updated := ts, plans := (F.plans.map (updPlanBy pid (updStepSt nr st))).map (updPlanBy pid (updStepRes nr rv)) }
  rw [List.map_map]
  have hcomp : (updPlanBy pid (updStepRes nr rv) ∘ updPlanBy pid (updStepSt nr st)) =
      updPlan pid nr st (some rv) := by
    funext p
    exact updPlanBy_comp pid nr st rv p
  rw [hcomp]

/-- The sed path of `update_step_status` on a rendered well-formed file,
for transport-transparent arguments (literal-matching plan id, status and
result free of quote, backslash, dollar and backquote, timestamp literal
as a sed replacement — the values the program actually passes): the output
is the rendering of the structural update (targeted step anchors,
sanitised result, refreshed header timestamp), and the call reports
success. -/
theorem updateStepStatus_renders (pid : Line) (nr : Nat) (st : Line)
    (res : Option Line) (ts : Line) (hpid : '@' ∉ pid) (hst : cleanVal st = true)
    (hpids : pidSafe pid = true) (hsts : sedSafe st = true)
    (hress : sedSafeOpt res = true) (htss : replSafe ts = true)
    (F : FFile) (hwf : wfFile F = true) :
    updateStepStatus pid nr st res ts (renderFile F) =
      (renderFile (structUpdate pid nr st (res.map sanitizeSed) ts F), true) := by
  cases res with
  | none =>
    show (metaFastPass ts (sedRun (updCfg pid nr (strL "STATUS") false st) false false
      (renderFile F)), true) = _
    rw [statusPass pid nr st hpid F hwf]
    rw [metaFast_render ts _ (fileAtFree_of_loose
      (wfFileLoose_updFileBySt (wfFileLoose_of_wfFile hwf) pid nr st hst))]
    show _ = (renderFile (structUpdate pid nr st none ts F), true)
    rw [structUpdate_none]
  | some r =>
    show (metaFastPass ts
      (sedRun (updCfg pid nr (strL "RESULT") true (sanitizeSed r)) false false
        (sedRun (updCfg pid nr (strL "STATUS") false st) false false
          (renderFile F))), true) = _
    rw [statusPass pid nr st hpid F hwf]
    have hL1 : wfFileLoose (updFileBy pid (updStepSt nr st) F) = true :=
      wfFileLoose_updFileBySt (wfFileLoose_of_wfFile hwf) pid nr st hst
    rw [resultPass pid nr (sanitizeSed r) hpid _ hL1]
    have hfree : fileAtFree (updFileBy pid (updStepRes nr (sanitizeSed r))
        (updFileBy pid (updStepSt nr st) F)) :=
      fileAtFree_updRes (fileAtFree_of_loose hL1) pid nr _
        (fun hm => at_not_mem_sanitizeSed r hm)
    rw [metaFast_render ts _ hfree]
    show _ = (renderFile (structUpdate pid nr st (some (sanitizeSed r)) ts F), true)
    rw [structUpdate_some]

/-! ## Claim C1: the frame effect of update_step_status -/

/-- C1 counterexample.  The claim says a call to update_step_status changes
only the targeted step's @STATUS: (and, when a result is given, @RESULT:)
anchor bytes.  On a concrete well-formed one-plan file, the call with a new
timestamp produces a file different from the file in which only the
targeted step's status value was replaced: _update_metadata_fast has also
rewritten the header's @LAST_UPDATED: anchor, so bytes outside the step
anchors change as well. -/
theorem C1_counterexample :
    (updateStepStatus (strL "plan1") 1 (strL "completed") none
      (strL "2026-01-02T00:00:00")
      (renderFile ⟨strL "2026-01-01T00:00:00", strL "2026-01-01T00:00:00", 1,
        [⟨1, strL "plan1", strL "t0", false, 1, strL "list my tasks", [],
          [⟨1, strL "task-list", strL "needed", strL "show tasks",
            strL "pending", []⟩]⟩]⟩)).1 ≠
      renderFile ⟨strL "2026-01-01T00:00:00", strL "2026-01-01T00:00:00", 1,
        [⟨1, strL "plan1", strL "t0", false, 1, strL "list my tasks", [],
          [⟨1, strL "task-list", strL "needed", strL "show tasks",
            strL "completed", []⟩]⟩]⟩ := by decide

/-- C1 amended.  On a well-formed plan file, for arguments the bash/sed
transport carries verbatim — a plan id of alphanumerics, hyphens and
underscores (as the generated uuid ids are) and a status and result free
of double quote, backslash, dollar and backquote — update_step_status
(plan_id, step_nr, status, result) rewrites exactly the addressed anchors
and the header timestamp and reports success: the output file is the
rendering of the structural update that sets the status (and, when a
result is given, the sanitised result) of every step whose zero-padded
number matches in every plan whose id matches, and refreshes the header's
@LAST_UPDATED: value; every other byte is unchanged, and the function
returns True.  Outside that domain the double-quote/escape layer mangles
the inserted bytes or diverts to the Python fallback, so no byte-exact
frame property holds there. -/
theorem C1_amended (pid : Line) (nr : Nat) (st : Line) (res : Option Line)
    (ts : Line) (hpid : '@' ∉ pid) (hst : cleanVal st = true)
    (hpids : pidSafe pid = true) (hsts : sedSafe st = true)
    (hress : sedSafeOpt res = true) (htss : replSafe ts = true)
    (F : FFile) (hwf : wfFile F = true) :
    updateStepStatus pid nr st res ts (renderFile F) =
      (renderFile (structUpdate pid nr st (res.map sanitizeSed) ts F), true) :=
  updateStepStatus_renders pid nr st res ts hpid hst hpids hsts hress htss F hwf

/-- C1 witness: the amended statement applied to a concrete file, step and
result. -/
theorem C1_witness :
    updateStepStatus (strL "plan1") 1 (strL "completed") (some (strL "done"))
      (strL "2026-01-02T00:00:00")
      (renderFile ⟨strL "2026-01-01T00:00:00", strL "2026-01-01T00:00:00", 1,
        [⟨1, strL "plan1", strL "t0", false, 1, strL "list my tasks", [],
          [⟨1, strL "task-list", strL "needed", strL "show tasks",
            strL "pending", []⟩]⟩]⟩) =
      (renderFile (structUpdate (strL "plan1") 1 (strL "completed")
        ((some (strL "done")).map sanitizeSed) (strL "2026-01-02T00:00:00")
        ⟨strL "2026-01-01T00:00:00", strL "2026-01-01T00:00:00", 1,
         [⟨1, strL "plan1", strL "t0", false, 1, strL "list my tasks", [],
           [⟨1, strL "task-list", strL "needed", strL "show tasks",
             strL "pending", []⟩]⟩]⟩), true) :=
  C1_amended (strL "plan1") 1 (strL "completed") (some (strL "done"))
    (strL "2026-01-02T00:00:00") (by decide) (by decide) (by decide) (by decide)
    (by decide) (by decide) _ (by decide)

/-! ## Claim C9: a missing target is silent -/

/-- C9.  When no plan record has the requested id, or the matching plans
have no step with the requested padded number, update_step_status still
returns True; on the sed path (taken for transport-transparent arguments,
which the program's status words, uuid ids and sanitised results are) the
step anchors of every existing plan are unchanged and the output is the
input file with only the header's @LAST_UPDATED: value refreshed.  The
Python fallback — the branch taken for other argument values — likewise
returns True unconditionally, so the caller is never told the target was
missing on either path. -/
theorem C9_missing_target (pid : Line) (nr : Nat) (st : Line) (res : Option Line)
    (ts : Line) (hpid : '@' ∉ pid) (hst : cleanVal st = true)
    (hpids : pidSafe pid = true) (hsts : sedSafe st = true)
    (hress : sedSafeOpt res = true) (htss : replSafe ts = true)
    (F : FFile) (hwf : wfFile F = true)
    (hmiss : ∀ p ∈ F.plans, p.plan_id ≠ pid ∨ ∀ s ∈ p.steps, pad3 s.step_nr ≠ pad3 nr) :
    updateStepStatus pid nr st res ts (renderFile F) =
      (renderFile { F with last_updated := ts }, true) ∧
    ∀ (cnt : Nat) (file : List Line), (fbUpdate pid nr st res ts cnt file).2 = true := by
  constructor
  · rw [updateStepStatus_renders pid nr st res ts hpid hst hpids hsts hress htss F hwf]
    have hplans : F.plans.map (updPlan pid nr st (res.map sanitizeSed)) = F.plans := by
      apply map_id_on
      intro p hp
      unfold updPlan
      rcases hmiss p hp with hne | hsteps
      · rw [if_neg hne]
      · by_cases hc : p.plan_id = pid
        · rw [if_pos hc]
          have hmap : p.steps.map (updStep nr st (res.map sanitizeSed)) = p.steps := by
            apply map_id_on
            intro t ht
            unfold updStep
            rw [if_neg (hsteps t ht)]
          rw [hmap]
        · rw [if_neg hc]
    unfold structUpdate
    rw [hplans]
  · intro cnt file
    rfl

/-- C9 witness: the statement applied to a concrete file and an id that
matches no plan record. -/
theorem C9_witness :
    updateStepStatus (strL "ghost") 1 (strL "completed") none
      (strL "2026-01-02T00:00:00")
      (renderFile ⟨strL "2026-01-01T00:00:00", strL "2026-01-01T00:00:00", 1,
        [⟨1, strL "plan1", strL "t0", false, 1, strL "list my tasks", [],
          [⟨1, strL "task-list", strL "needed", strL "show tasks",
            strL "pending", []⟩]⟩]⟩) =
      (renderFile { (⟨strL "2026-01-01T00:00:00", strL "2026-01-01T00:00:00", 1,
        [⟨1, strL "plan1", strL "t0", false, 1, strL "list my tasks", [],
          [⟨1, strL "task-list", strL "needed", strL "show tasks",
            strL "pending", []⟩]⟩]⟩ : FFile) with
        last_updated := strL "2026-01-02T00:00:00" }, true) ∧
    ∀ (cnt : Nat) (file : List Line),
      (fbUpdate (strL "ghost") 1 (strL "completed") none
        (strL "2026-01-02T00:00:00") cnt file).2 = true :=
  C9_missing_target (strL "ghost") 1 (strL "completed") none
    (strL "2026-01-02T00:00:00") (by decide) (by decide) (by decide) (by decide)
    (by decide) (by decide) _ (by decide) (by decide)

/-! ## Digit strings, lengths and parsing round trips -/

theorem natCharsAux_length_le : ∀ (k fuel n : Nat), n < fuel → n < 10 ^ k → 1 ≤ k →
    (natCharsAux fuel n).length ≤ k := by
  intro k
  induction k with
  | zero =>
    intro fuel n _ _ hk
    exact absurd hk (by omega)
  | succ k ih =>
    intro fuel n hf h10 _
    match fuel, hf with
    | fuel + 1, hf =>
      show (if n < 10 then [Nat.digitChar n]
        else natCharsAux fuel (n / 10) ++ [Nat.digitChar (n % 10)]).length ≤ k + 1
      by_cases hn : n < 10
      · rw [if_pos hn]
        simp
      · rw [if_neg hn]
        rw [List.length_append]
        have hdiv : n / 10 < fuel := by
          have := Nat.div_lt_self (show 0 < n by omega) (show 1 < 10 by omega)
          omega
        have h2 : n / 10 < 10 ^ k := by
          rw [Nat.div_lt_iff_lt_mul (by norm_num : (0 : Nat) < 10)]
          rw [pow_succ] at h10
          exact h10
        have h3 : 1 ≤ k := by
          rcases Nat.eq_zero_or_pos k with rfl | hpos
          · rw [pow_one] at h10
            exact absurd h10 hn
          · exact hpos
        have := ih fuel (n / 10) hdiv h2 h3
        simp only [List.length_cons, List.length_nil]
        omega

theorem natChars_length_le (k n : Nat) (h : n < 10 ^ k) (hk : 1 ≤ k) :
    (natChars n).length ≤ k :=
  natCharsAux_length_le k (n + 1) n (Nat.lt_succ_self n) h hk

theorem pad6_length (n : Nat) (h : n ≤ 999999) : (pad6 n).length = 6 := by
  unfold pad6
  rw [List.length_append, List.length_replicate]
  have := natChars_length_le 6 n (by omega) (by omega)
  omega

theorem pad3_length (n : Nat) (h : n ≤ 999) : (pad3 n).length = 3 := by
  unfold pad3
  rw [List.length_append, List.length_replicate]
  have := natChars_length_le 3 n (by omega) (by omega)
  omega

theorem natOfDigits_append (ds : Line) (c : Char) :
    natOfDigits (ds ++ [c]) = 10 * natOfDigits ds + (c.toNat - 48) := by
  unfold natOfDigits
  rw [List.foldl_append]
  rfl

theorem digitChar_toNat (n : Nat) (h : n < 10) : (Nat.digitChar n).toNat - 48 = n := by
  interval_cases n <;> decide

theorem natOfDigits_natCharsAux : ∀ (fuel n : Nat), n < fuel →
    natOfDigits (natCharsAux fuel n) = n := by
  intro fuel
  induction fuel with
  | zero =>
    intro n h
    exact absurd h (Nat.not_lt_zero n)
  | succ fuel ih =>
    intro n h
    show natOfDigits (if n < 10 then [Nat.digitChar n]
      else natCharsAux fuel (n / 10) ++ [Nat.digitChar (n % 10)]) = n
    by_cases hn : n < 10
    · rw [if_pos hn]
      rw [show natOfDigits [Nat.digitChar n] =
        10 * 0 + ((Nat.digitChar n).toNat - 48) from rfl]
      rw [digitChar_toNat n hn]
      omega
    · rw [if_neg hn]
      have hdiv : n / 10 < fuel := by
        have := Nat.div_lt_self (show 0 < n by omega) (show 1 < 10 by omega)
        omega
      rw [natOfDigits_append, ih (n / 10) hdiv,
        digitChar_toNat (n % 10) (Nat.mod_lt n (by omega))]
      omega

theorem natOfDigits_natChars (n : Nat) : natOfDigits (natChars n) = n :=
  natOfDigits_natCharsAux (n + 1) n (Nat.lt_succ_self n)

theorem natChars_isEmpty (n : Nat) : (natChars n).isEmpty = false := by
  cases h : natChars n with
  | nil => exact absurd h (natChars_ne_nil n)
  | cons c cs => rfl

theorem intParse_natChars (n : Nat) : intParse (natChars n) = some n := by
  unfold intParse
  simp [natChars_isEmpty n, List.all_eq_true.mpr (natChars_all_digit n),
    natOfDigits_natChars n]

/-! ## Generic scanner lemmas -/

theorem scanLineO_none_of {α : Type} (f : Line → Option α) (pre : Line)
    (hf : ∀ cs, f cs ≠ none → pre.isPrefixOf cs = true) :
    ∀ (l : Line), containsL l pre = false → scanLineO f l = none := by
  intro l
  induction l with
  | nil => intro _; rfl
  | cons c cs ih =>
    intro h
    rw [containsL_cons, Bool.or_eq_false_iff] at h
    have hfc : f (c :: cs) = none := by
      cases hv : f (c :: cs) with
      | none => rfl
      | some a =>
        have := hf (c :: cs) (by rw [hv]; exact Option.some_ne_none a)
        rw [this] at h
        exact absurd h.1 (by simp)
    simp [scanLineO, hfc, ih h.2]

theorem scanLine_none_of (f : Line → Bool) (pre : Line)
    (hf : ∀ cs, f cs = true → pre.isPrefixOf cs = true) :
    ∀ (l : Line), containsL l pre = false → scanLine f l = false := by
  intro l
  induction l with
  | nil => intro _; rfl
  | cons c cs ih =>
    intro h
    rw [containsL_cons, Bool.or_eq_false_iff] at h
    have hfc : f (c :: cs) = false := by
      cases hv : f (c :: cs) with
      | false => rfl
      | true =>
        have := hf (c :: cs) hv
        rw [this] at h
        exact absurd h.1 (by simp)
    simp [scanLine, hfc, ih h.2]

theorem scanLineO_cons_some {α : Type} (f : Line → Option α) (c : Char) (cs : Line)
    (a : α) (h : f (c :: cs) = some a) : scanLineO f (c :: cs) = some a := by
  simp [scanLineO, h]

theorem scanLine_cons_true (f : Line → Bool) (c : Char) (cs : Line)
    (h : f (c :: cs) = true) : scanLine f (c :: cs) = true := by
  simp [scanLine, h]

theorem exact6At_pre {pre suf cs : Line} (h : exact6At pre suf cs = true) :
    pre.isPrefixOf cs = true := by
  unfold exact6At at h
  rw [Bool.and_eq_true] at h
  exact h.1

theorem planStartAt_pre (cs : Line) (h : planStartAt cs ≠ none) :
    (strL "<<<PLAN:").isPrefixOf cs = true := by
  unfold planStartAt at h
  by_cases hc : exact6At (strL "<<<PLAN:") (strL ">>>") cs = true
  · exact exact6At_pre hc
  · rw [if_neg hc] at h
    exact absurd rfl h

theorem stepStartAt_pre (cs : Line) (h : stepStartAt cs ≠ none) :
    (strL "---STEP:").isPrefixOf cs = true := by
  unfold stepStartAt at h
  by_cases hc : (strL "---STEP:").isPrefixOf cs = true
  · exact hc
  · rw [if_neg (by simpa using hc)] at h
    exact absurd rfl h

/-- The exact-six-digit matcher accepts a marker built from a six-digit
block. -/
theorem exact6At_pos (pre suf d rest : Line) (hd6 : d.length = 6)
    (hdig : ∀ c ∈ d, c.isDigit = true) :
    exact6At pre suf (pre ++ (d ++ (suf ++ rest))) = true := by
  unfold exact6At
  rw [isPrefixOf_self_append, List.drop_left]
  have htake : (d ++ (suf ++ rest)).take 6 = d := by
    rw [← hd6, List.take_left]
  have hdrop : (d ++ (suf ++ rest)).drop 6 = suf ++ rest := by
    rw [← hd6, List.drop_left]
  simp [htake, hdrop, hd6, isPrefixOf_self_append, List.all_eq_true.mpr hdig]

/-! ## Stepping the block finder -/

theorem findBlocksAux_skip (l : Line) (ls : List Line)
    (h : scanLineO planStartAt l = none) :
    findBlocksAux none (l :: ls) = findBlocksAux none ls := by
  simp [findBlocksAux, h]

theorem findBlocksAux_open (l : Line) (ls : List Line) (pn : Line)
    (h : scanLineO planStartAt l = some pn) :
    findBlocksAux none (l :: ls) = findBlocksAux (some (pn, [])) ls := by
  simp [findBlocksAux, h]

theorem findBlocksAux_collect (pn : Line) (acc : List Line) (l : Line) (ls : List Line)
    (h : containsL l (strL "<<<END_PLAN:" ++ pn ++ strL ">>>") = false) :
    findBlocksAux (some (pn, acc)) (l :: ls) =
      findBlocksAux (some (pn, l :: acc)) ls := by
  rw [List.append_assoc] at h
  simp [findBlocksAux, h]

theorem findBlocksAux_close (pn : Line) (acc : List Line) (l : Line) (ls : List Line)
    (h : containsL l (strL "<<<END_PLAN:" ++ pn ++ strL ">>>") = true) :
    findBlocksAux (some (pn, acc)) (l :: ls) =
      (pn, acc.reverse) :: findBlocksAux none ls := by
  rw [List.append_assoc] at h
  simp [findBlocksAux, h]

theorem findBlocksAux_skipAll (ls1 : List Line)
    (h : ∀ l ∈ ls1, scanLineO planStartAt l = none) :
    ∀ (ls2 : List Line), findBlocksAux none (ls1 ++ ls2) = findBlocksAux none ls2 := by
  induction ls1 with
  | nil => intro ls2; rfl
  | cons l ls ih =>
    intro ls2
    rw [List.cons_append, findBlocksAux_skip l _ (h l (List.mem_cons_self l ls)),
      ih (fun x hx => h x (List.mem_cons_of_mem l hx)) ls2]

theorem findBlocksAux_collectAll (pn : Line) (ls1 : List Line)
    (h : ∀ l ∈ ls1, containsL l (strL "<<<END_PLAN:" ++ pn ++ strL ">>>") = false) :
    ∀ (acc ls2 : List Line),
    findBlocksAux (some (pn, acc)) (ls1 ++ ls2) =
      findBlocksAux (some (pn, ls1.reverse ++ acc)) ls2 := by
  induction ls1 with
  | nil => intro acc ls2; rfl
  | cons l ls ih =>
    intro acc ls2
    rw [List.cons_append, findBlocksAux_collect pn acc l _
      (h l (List.mem_cons_self l ls)),
      ih (fun x hx => h x (List.mem_cons_of_mem l hx)) (l :: acc) ls2]
    rw [List.reverse_cons, List.append_assoc]
    rfl

/-! ## Stepping the anchor search over lines -/

theorem findAnchorLines_cons_none (tag : Line) (ke : Char → Bool) (ae : Bool)
    (l : Line) (ls : List Line) (h : findAnchorIn tag ke ae l = none) :
    findAnchorLines tag ke ae (l :: ls) = findAnchorLines tag ke ae ls := by
  simp [findAnchorLines, h]

theorem findAnchorLines_cons_some (tag : Line) (ke : Char → Bool) (ae : Bool)
    (l : Line) (ls : List Line) (v : Line) (h : findAnchorIn tag ke ae l = some v) :
    findAnchorLines tag ke ae (l :: ls) = some v := by
  simp [findAnchorLines, h]

theorem findAnchorIn_atfree (tag : Line) (ke : Char → Bool) (ae : Bool) (l : Line)
    (h : '@' ∉ l) : findAnchorIn tag ke ae l = none := by
  apply findAnchorIn_noPat
  rw [show (('@' :: tag ++ [':']) : Line) = '@' :: (tag ++ [':']) from by simp]
  exact containsL_eq_false_headfree '@' _ _ h

theorem findAnchorIn_otherTag (tag K v : Line) (ke : Char → Bool) (ae : Bool)
    (hne : tag ≠ K) (htagc : ':' ∉ tag) (hKc : ':' ∉ K) (hKat : '@' ∉ K)
    (hv : '@' ∉ v) : findAnchorIn tag ke ae (atLine K v) = none := by
  apply findAnchorIn_noPat
  rw [show (('@' :: tag ++ [':']) : Line) = '@' :: (tag ++ [':']) from by simp]
  exact contains_tagpat_atLine tag K v hne htagc hKc hKat hv

theorem contains_pre_atLine (K v : Line) (hd : Char) (pt : Line)
    (hp : '@' ∉ hd :: pt) (hK : hd ∉ K) (hcol : hd ≠ ':')
    (hv : containsL v (hd :: pt) = false) :
    containsL (atLine K v) (hd :: pt) = false := by
  rw [contains_atLine_head K v hd pt hp hK hcol]
  exact hv

/-! ## Containment facts of block content lines -/

theorem planEntry_decomp2 (p : FPlan) :
    planEntryLines p =
      [] :: (strL "<<<PLAN:" ++ pad6 p.plan_num ++ strL ">>>") ::
      (blockLines p ++
        ((strL "<<<END_PLAN:" ++ pad6 p.plan_num ++ strL ">>>") ::
         [([] : Line), eqLine])) := by
  simp [planEntryLines, blockLines]

theorem blockLines_no_endplan (p : FPlan) (hwf : wfPlanLoose p = true) :
    ∀ l ∈ blockLines p, containsL l (strL "<<<END_PLAN:") = false := by
  have hpn := pad6_all_digit p.plan_num
  have hpne := pad6_ne_nil p.plan_num
  obtain ⟨hid, hts, hq, hctx, hsteps⟩ := wfPlanLoose_parts hwf
  intro l hl
  unfold blockLines at hl
  rcases List.mem_cons.mp hl with he | hl
  · subst he
    have := (updCfg_idLine_facts [] 0 [] false [] (List.not_mem_nil ':')
      (List.not_mem_nil '@') p.plan_id hid).2.1
    rwa [updCfg_outerEnd_eq] at this
  rcases List.mem_append.mp hl with h1 | h2
  rotate_left
  · rcases List.mem_cons.mp h2 with he | h2
    · subst he
      have := (updCfg_marker_quiet [] 0 [] false [] (strL "<<<STEPS:") (strL "<<<")
        _ hpn hpne (by decide) (by decide) (by decide) (by decide) (by decide)
        (by decide) (by decide) (by decide)).2.1
      rwa [updCfg_outerEnd_eq] at this
    rw [List.mem_singleton] at h2
    subst h2
    decide
  rcases List.mem_append.mp h1 with h3 | h4
  · have := (entry_mid_facts [] 0 [] false [] (List.not_mem_nil '@')
      (List.not_mem_nil ':') p hwf l h3).2.1
    rwa [updCfg_outerEnd_eq] at this
  · rw [List.mem_flatMap] at h4
    obtain ⟨st, hst, hls⟩ := h4
    rw [List.all_eq_true] at hsteps
    have := (stepLines_facts [] 0 [] false [] (List.not_mem_nil '@')
      (List.not_mem_nil ':') _ hpn hpne st (hsteps st hst) l hls).2.1
    rwa [updCfg_outerEnd_eq] at this

theorem blockLines_no_endplan_full (p : FPlan) (hwf : wfPlanLoose p = true) :
    ∀ l ∈ blockLines p,
      containsL l (strL "<<<END_PLAN:" ++ pad6 p.plan_num ++ strL ">>>") = false := by
  intro l hl
  rw [show (strL "<<<END_PLAN:" ++ pad6 p.plan_num ++ strL ">>>" : Line) =
    strL "<<<END_PLAN:" ++ (pad6 p.plan_num ++ strL ">>>") from by simp]
  exact contains_base_of_pre (blockLines_no_endplan p hwf l hl)

theorem scanPlanStart_none (l : Line) (h : containsL l (strL "<<<PLAN:") = false) :
    scanLineO planStartAt l = none :=
  scanLineO_none_of planStartAt (strL "<<<PLAN:") (fun cs hcs => planStartAt_pre cs hcs) l h

theorem scanStepStart_none (l : Line) (h : containsL l (strL "---STEP:") = false) :
    scanLineO stepStartAt l = none :=
  scanLineO_none_of stepStartAt (strL "---STEP:") (fun cs hcs => stepStartAt_pre cs hcs) l h

theorem scanExact6_none (pre suf l : Line) (h : containsL l pre = false) :
    scanLine (exact6At pre suf) l = false :=
  scanLine_none_of (exact6At pre suf) pre (fun _ hcs => exact6At_pre hcs) l h

theorem scanLineO_head_some {α : Type} (f : Line → Option α) (l : Line) (a : α)
    (h : f l = some a) (hne : l ≠ []) : scanLineO f l = some a := by
  cases l with
  | nil => exact absurd rfl hne
  | cons c cs => exact scanLineO_cons_some f c cs a h

theorem scanLine_head_true (f : Line → Bool) (l : Line) (h : f l = true)
    (hne : l ≠ []) : scanLine f l = true := by
  cases l with
  | nil => exact absurd rfl hne
  | cons c cs => exact scanLine_cons_true f c cs h

theorem wmarker_ne_nil (w1 : Line) (hw : w1 ≠ []) (pn w2 : Line) :
    w1 ++ pn ++ w2 ≠ [] := by
  intro h
  rw [List.append_eq_nil, List.append_eq_nil] at h
  exact hw h.1.1

/-- The plan marker line matches the block-start regex and captures its
six-digit number. -/
theorem scanPlanStart_marker (n : Nat) (h : n ≤ 999999) :
    scanLineO planStartAt (strL "<<<PLAN:" ++ pad6 n ++ strL ">>>") = some (pad6 n) := by
  have hshape : (strL "<<<PLAN:" ++ pad6 n ++ strL ">>>" : Line) =
      strL "<<<PLAN:" ++ (pad6 n ++ (strL ">>>" ++ [])) := by simp
  have hex : exact6At (strL "<<<PLAN:") (strL ">>>")
      (strL "<<<PLAN:" ++ pad6 n ++ strL ">>>") = true := by
    rw [hshape]
    exact exact6At_pos _ _ _ _ (pad6_length n h) (pad6_all_digit n)
  have hcap : planStartAt (strL "<<<PLAN:" ++ pad6 n ++ strL ">>>") = some (pad6 n) := by
    unfold planStartAt
    rw [hex]
    simp only [if_true]
    congr 1
    rw [hshape, show (8 : Nat) = (strL "<<<PLAN:").length from rfl, List.drop_left,
      ← pad6_length n h, List.take_left]
  refine scanLineO_head_some planStartAt _ _ hcap ?_
  rw [hshape]
  intro hc
  rw [List.append_eq_nil] at hc
  exact absurd hc.1 (by decide)

/-- The step marker line matches the step-start regex and captures its
three-digit number. -/
theorem stepStartAt_marker (m : Nat) (hm : m ≤ 999) (pn : Line) (h6 : pn.length = 6)
    (hdig : ∀ c ∈ pn, c.isDigit = true) :
    stepStartAt (stepMarker m pn) = some (pad3 m) := by
  have hshape : stepMarker m pn =
      strL "---STEP:" ++ (pad3 m ++ (':' :: (pn ++ strL "---"))) := by
    simp [stepMarker]
  unfold stepStartAt
  rw [hshape, isPrefixOf_self_append]
  simp only [if_true]
  rw [show (8 : Nat) = (strL "---STEP:").length from rfl, List.drop_left]
  have htake : (pad3 m ++ (':' :: (pn ++ strL "---"))).take 3 = pad3 m := by
    rw [← pad3_length m hm, List.take_left]
  have hdrop : (pad3 m ++ (':' :: (pn ++ strL "---"))).drop 3 =
      ':' :: (pn ++ strL "---") := by
    rw [← pad3_length m hm, List.drop_left]
  rw [htake, hdrop]
  have hex : exact6At [':'] (strL "---") (':' :: (pn ++ strL "---")) = true := by
    rw [show (':' :: (pn ++ strL "---") : Line) = [':'] ++ (pn ++ (strL "---" ++ []))
      from by simp]
    exact exact6At_pos _ _ _ _ h6 hdig
  rw [pad3_length m hm, hex]
  simp [List.all_eq_true.mpr (pad3_all_digit m)]

/-- The end-step marker line matches the end-step regex of its own step
number. -/
theorem scanEndStep_marker (m : Nat) (pn : Line) (h6 : pn.length = 6)
    (hdig : ∀ c ∈ pn, c.isDigit = true) :
    scanLine (exact6At (strL "---END_STEP:" ++ pad3 m ++ [':']) (strL "---"))
      (endStepMarker m pn) = true := by
  have hshape : endStepMarker m pn =
      (strL "---END_STEP:" ++ pad3 m ++ [':']) ++ (pn ++ (strL "---" ++ [])) := by
    simp [endStepMarker]
  refine scanLine_head_true _ _ ?_ ?_
  · rw [hshape]
    exact exact6At_pos _ _ _ _ h6 hdig
  · rw [show endStepMarker m pn =
      strL "---END_STEP:" ++ (pad3 m ++ (':' :: (pn ++ strL "---"))) from by
        simp [endStepMarker]]
    intro hc
    rw [List.append_eq_nil] at hc
    exact absurd hc.1 (by decide)

/-- The query markers match their exact-six-digit regexes. -/
theorem scanQueryOpen_marker (n : Nat) (h : n ≤ 999999) :
    scanLine (exact6At (strL ">>>QUERY:") (strL ">>>"))
      (strL ">>>QUERY:" ++ pad6 n ++ strL ">>>") = true := by
  refine scanLine_head_true _ _ ?_ (wmarker_ne_nil _ (by decide) _ _)
  rw [show (strL ">>>QUERY:" ++ pad6 n ++ strL ">>>" : Line) =
    strL ">>>QUERY:" ++ (pad6 n ++ (strL ">>>" ++ [])) from by simp]
  exact exact6At_pos _ _ _ _ (pad6_length n h) (pad6_all_digit n)

theorem scanQueryClose_marker (n : Nat) (h : n ≤ 999999) :
    scanLine (exact6At (strL "<<<QUERY:") (strL "<<<"))
      (strL "<<<QUERY:" ++ pad6 n ++ strL "<<<") = true := by
  refine scanLine_head_true _ _ ?_ (wmarker_ne_nil _ (by decide) _ _)
  rw [show (strL "<<<QUERY:" ++ pad6 n ++ strL "<<<" : Line) =
    strL "<<<QUERY:" ++ (pad6 n ++ (strL "<<<" ++ [])) from by simp]
  exact exact6At_pos _ _ _ _ (pad6_length n h) (pad6_all_digit n)

/-! ## Locating the plan blocks of a rendered file -/

theorem containsL_self (l : Line) : containsL l l = true := by
  cases l with
  | nil => rfl
  | cons c cs =>
    rw [containsL_cons]
    have h : (c :: cs).isPrefixOf (c :: cs) = true := by
      have := isPrefixOf_self_append (c :: cs) []
      rwa [List.append_nil] at this
    rw [h]
    rfl

theorem eqLine_no_lt : containsL eqLine (strL "<<<PLAN:") = false := by
  rw [show strL "<<<PLAN:" = '<' :: strL "<<PLAN:" from rfl]
  refine containsL_eq_false_headfree '<' _ _ (fun hm => ?_)
  have := List.eq_of_mem_replicate hm
  simp at this

theorem header_noPlanStart (c u : Line) (t : Nat) (hc : cleanVal c = true)
    (hu : cleanVal u = true) :
    ∀ l ∈ headerLines c u t, scanLineO planStartAt l = none := by
  have hanchor : ∀ (K v : Line), '<' ∉ K → containsL v (strL "<<<PLAN:") = false →
      scanLineO planStartAt (atLine K v) = none := by
    intro K v hK hv
    apply scanPlanStart_none
    rw [show strL "<<<PLAN:" = '<' :: strL "<<PLAN:" from rfl]
    apply contains_pre_atLine K v '<' (strL "<<PLAN:") (by decide) hK (by decide)
    rw [← show strL "<<<PLAN:" = '<' :: strL "<<PLAN:" from rfl]
    exact hv
  intro l hl
  unfold headerLines at hl
  rcases List.mem_cons.mp hl with he | hl
  · subst he; exact scanPlanStart_none _ eqLine_no_lt
  rcases List.mem_cons.mp hl with he | hl
  · subst he; exact scanPlanStart_none _ (by decide)
  rcases List.mem_cons.mp hl with he | hl
  · subst he; exact scanPlanStart_none _ eqLine_no_lt
  rcases List.mem_cons.mp hl with he | hl
  · subst he; exact scanPlanStart_none _ (by decide)
  rcases List.mem_cons.mp hl with he | hl
  · subst he
    exact hanchor _ _ (by decide) (cleanVal_pat hc _ (by simp [badPats]))
  rcases List.mem_cons.mp hl with he | hl
  · subst he
    exact hanchor _ _ (by decide) (cleanVal_pat hu _ (by simp [badPats]))
  rcases List.mem_cons.mp hl with he | hl
  · subst he
    refine hanchor _ _ (by decide) ?_
    rw [show strL "<<<PLAN:" = '<' :: strL "<<PLAN:" from rfl]
    exact containsL_eq_false_headfree '<' _ _
      (fun hm => by simpa using natChars_all_digit t '<' hm)
  rcases List.mem_cons.mp hl with he | hl
  · subst he; exact scanPlanStart_none _ (by decide)
  rcases List.mem_cons.mp hl with he | hl
  · subst he; exact scanPlanStart_none _ (by decide)
  rcases List.mem_cons.mp hl with he | hl
  · subst he; exact scanPlanStart_none _ (by decide)
  rcases List.mem_cons.mp hl with he | hl
  · subst he; exact scanPlanStart_none _ (by decide)
  rcases List.mem_cons.mp hl with he | hl
  · subst he; exact scanPlanStart_none _ eqLine_no_lt
  rw [List.mem_singleton] at hl
  subst hl
  exact scanPlanStart_none _ (by decide)

theorem findBlocksAux_plans :
    ∀ (ps : List FPlan), ps.all wfPlanLoose = true →
    (∀ p ∈ ps, p.plan_num ≤ 999999) →
    findBlocksAux none (ps.flatMap planEntryLines) =
      ps.map (fun p => (pad6 p.plan_num, blockLines p)) := by
  intro ps
  induction ps with
  | nil => intro _ _; rfl
  | cons p ps ih =>
    intro hwf hnum
    rw [List.all_cons, Bool.and_eq_true] at hwf
    rw [List.flatMap_cons, planEntry_decomp2 p]
    rw [show ((([] : Line) :: (strL "<<<PLAN:" ++ pad6 p.plan_num ++ strL ">>>") ::
        (blockLines p ++
          ((strL "<<<END_PLAN:" ++ pad6 p.plan_num ++ strL ">>>") ::
           [([] : Line), eqLine]))) ++ ps.flatMap planEntryLines) =
      ([] : Line) :: (strL "<<<PLAN:" ++ pad6 p.plan_num ++ strL ">>>") ::
        (blockLines p ++
          ((strL "<<<END_PLAN:" ++ pad6 p.plan_num ++ strL ">>>") ::
           ([] : Line) :: eqLine :: ps.flatMap planEntryLines)) from by simp]
    rw [findBlocksAux_skip _ _ (scanPlanStart_none _ (by decide))]
    rw [findBlocksAux_open _ _ _
      (scanPlanStart_marker p.plan_num (hnum p (List.mem_cons_self p ps)))]
    rw [findBlocksAux_collectAll (pad6 p.plan_num) (blockLines p)
      (blockLines_no_endplan_full p hwf.1) [] _]
    rw [findBlocksAux_close _ _ _ _ (containsL_self _)]
    rw [List.append_nil, List.reverse_reverse]
    rw [findBlocksAux_skip _ _ (scanPlanStart_none _ (by decide))]
    rw [findBlocksAux_skip _ _ (scanPlanStart_none _ eqLine_no_lt)]
    rw [ih hwf.2 (fun q hq => hnum q (List.mem_cons_of_mem p hq))]
    rfl

/-- The block finder on a rendered file returns exactly the rendered
entries' blocks, in order. -/
theorem findBlocks_render (G : FFile) (hwf : wfFileLoose G = true)
    (hnum : ∀ p ∈ G.plans, p.plan_num ≤ 999999) :
    findBlocks (renderFile G) =
      G.plans.map (fun p => (pad6 p.plan_num, blockLines p)) := by
  obtain ⟨hc, hu, hps⟩ := wfFileLoose_parts hwf
  unfold findBlocks renderFile
  rw [findBlocksAux_skipAll _ (header_noPlanStart _ _ _ hc hu) _]
  exact findBlocksAux_plans G.plans hps hnum

/-! ## Stepping the step-block parser and the query parser -/

theorem parseStepsAux_skip (l : Line) (ls : List Line)
    (h : scanLineO stepStartAt l = none) :
    parseStepsAux none (l :: ls) = parseStepsAux none ls := by
  simp [parseStepsAux, h]

theorem parseStepsAux_skipAll (ls1 : List Line)
    (h : ∀ l ∈ ls1, scanLineO stepStartAt l = none) :
    ∀ (ls2 : List Line), parseStepsAux none (ls1 ++ ls2) = parseStepsAux none ls2 := by
  induction ls1 with
  | nil => intro ls2; rfl
  | cons l ls ih =>
    intro ls2
    rw [List.cons_append, parseStepsAux_skip l _ (h l (List.mem_cons_self l ls)),
      ih (fun x hx => h x (List.mem_cons_of_mem l hx)) ls2]

theorem parseStepsAux_openS (l : Line) (ls : List Line) (d3 : Line)
    (h : scanLineO stepStartAt l = some d3) :
    parseStepsAux none (l :: ls) = parseStepsAux (some (d3, [])) ls := by
  simp [parseStepsAux, h]

theorem parseStepsAux_collect (d3 : Line) (acc : List Line) (l : Line) (ls : List Line)
    (h : scanLine (exact6At (strL "---END_STEP:" ++ d3 ++ [':']) (strL "---")) l =
      false) :
    parseStepsAux (some (d3, acc)) (l :: ls) =
      parseStepsAux (some (d3, l :: acc)) ls := by
  rw [List.append_assoc] at h
  simp [parseStepsAux, h]

theorem parseStepsAux_collectAll (d3 : Line) (ls1 : List Line)
    (h : ∀ l ∈ ls1,
      scanLine (exact6At (strL "---END_STEP:" ++ d3 ++ [':']) (strL "---")) l = false) :
    ∀ (acc ls2 : List Line),
    parseStepsAux (some (d3, acc)) (ls1 ++ ls2) =
      parseStepsAux (some (d3, ls1.reverse ++ acc)) ls2 := by
  induction ls1 with
  | nil => intro acc ls2; rfl
  | cons l ls ih =>
    intro acc ls2
    rw [List.cons_append, parseStepsAux_collect d3 acc l _
      (h l (List.mem_cons_self l ls)),
      ih (fun x hx => h x (List.mem_cons_of_mem l hx)) (l :: acc) ls2]
    rw [List.reverse_cons, List.append_assoc]
    rfl

theorem parseStepsAux_closeS (d3 : Line) (acc : List Line) (l : Line) (ls : List Line)
    (st : ParsedStep) (rest : List ParsedStep)
    (h : scanLine (exact6At (strL "---END_STEP:" ++ d3 ++ [':']) (strL "---")) l = true)
    (hps : parseStep acc.reverse = some st)
    (hrest : parseStepsAux none ls = some rest) :
    parseStepsAux (some (d3, acc)) (l :: ls) = some (st :: rest) := by
  rw [List.append_assoc] at h
  simp [parseStepsAux, h, hps, hrest]

theorem parseQueryAux_skip (l : Line) (ls : List Line)
    (h : scanLine (exact6At (strL ">>>QUERY:") (strL ">>>")) l = false) :
    parseQueryAux none (l :: ls) = parseQueryAux none ls := by
  simp [parseQueryAux, h]

theorem parseQueryAux_open (l : Line) (ls : List Line)
    (h : scanLine (exact6At (strL ">>>QUERY:") (strL ">>>")) l = true) :
    parseQueryAux none (l :: ls) = parseQueryAux (some []) ls := by
  simp [parseQueryAux, h]

theorem parseQueryAux_collect (acc : List Line) (l : Line) (ls : List Line)
    (h : scanLine (exact6At (strL "<<<QUERY:") (strL "<<<")) l = false) :
    parseQueryAux (some acc) (l :: ls) = parseQueryAux (some (l :: acc)) ls := by
  simp [parseQueryAux, h]

theorem parseQueryAux_close (acc : List Line) (l : Line) (ls : List Line)
    (h : scanLine (exact6At (strL "<<<QUERY:") (strL "<<<")) l = true) :
    parseQueryAux (some acc) (l :: ls) =
      some (stripL (List.intercalate ['\n'] acc.reverse)) := by
  simp [parseQueryAux, h]

/-! ## Containment facts feeding the parsers -/

theorem contains_stepPre_atLine (K v : Line) (hK : '-' ∉ K)
    (hv : containsL v (strL "---STEP:") = false) :
    containsL (atLine K v) (strL "---STEP:") = false := by
  rw [show strL "---STEP:" = '-' :: strL "--STEP:" from rfl]
  apply contains_pre_atLine K v '-' (strL "--STEP:") (by decide) hK (by decide)
  rw [← show strL "---STEP:" = '-' :: strL "--STEP:" from rfl]
  exact hv

theorem contains_endStepPre_atLine (K v : Line) (hK : '-' ∉ K)
    (hv : containsL v (strL "---END_STEP:") = false) :
    containsL (atLine K v) (strL "---END_STEP:") = false := by
  rw [show strL "---END_STEP:" = '-' :: strL "--END_STEP:" from rfl]
  apply contains_pre_atLine K v '-' (strL "--END_STEP:") (by decide) hK (by decide)
  rw [← show strL "---END_STEP:" = '-' :: strL "--END_STEP:" from rfl]
  exact hv

theorem contains_wmarker_pat (w1 w2 pn : Line)
    (hpn : ∀ c ∈ pn, c.isDigit = true) (hpne : pn ≠ []) (pat : Line)
    (hp : pat ≠ []) (hpd : ∀ c ∈ pat, c.isDigit = false)
    (h1 : containsL w1 pat = false) (h2 : containsL w2 pat = false) :
    containsL (w1 ++ pn ++ w2) pat = false := by
  rw [containsL_digit_block pn hpne hpn pat hp hpd w1 w2, h1, h2]
  rfl

/-- No line of the quiet middle of a block (anchor lines, query section,
context section, steps-open marker) contains the step marker prefix. -/
theorem mid_no_stepPre (p : FPlan) (hwf : wfPlanLoose p = true) :
    ∀ l ∈ ([atLine (strL "PLAN_NUMBER") (pad6 p.plan_num),
            atLine (strL "TIMESTAMP") p.timestamp,
            atLine (strL "MULTI_STEPS") (boolChars p.multi_steps),
            atLine (strL "TOTAL_STEPS") (natChars p.total_steps),
            [], strL ">>>QUERY:" ++ pad6 p.plan_num ++ strL ">>>",
            p.query,
            strL "<<<QUERY:" ++ pad6 p.plan_num ++ strL "<<<"] ++
           ctxLines (pad6 p.plan_num) p.context ++
           [[], strL ">>>STEPS:" ++ pad6 p.plan_num ++ strL ">>>"]),
      containsL l (strL "---STEP:") = false := by
  obtain ⟨hid, hts, hq, hctx, hsteps⟩ := wfPlanLoose_parts hwf
  have hpn := pad6_all_digit p.plan_num
  have hpne := pad6_ne_nil p.plan_num
  have hmark : ∀ (w1 w2 : Line), containsL w1 (strL "---STEP:") = false →
      containsL w2 (strL "---STEP:") = false →
      containsL (w1 ++ pad6 p.plan_num ++ w2) (strL "---STEP:") = false :=
    fun w1 w2 h1 h2 => contains_wmarker_pat w1 w2 _ hpn hpne _ (by decide)
      (by decide) h1 h2
  intro l hl
  rcases List.mem_cons.mp hl with he | hl
  · subst he
    exact contains_stepPre_atLine _ _ (by decide)
      (by
        rw [show strL "---STEP:" = '-' :: strL "--STEP:" from rfl]
        exact containsL_eq_false_headfree '-' _ _
          (fun hm => by simpa using hpn '-' hm))
  rcases List.mem_cons.mp hl with he | hl
  · subst he
    exact contains_stepPre_atLine _ _ (by decide) (cleanVal_pat hts _ (by simp [badPats]))
  rcases List.mem_cons.mp hl with he | hl
  · subst he
    exact contains_stepPre_atLine _ _ (by decide) (boolChars_facts p.multi_steps).2.1
  rcases List.mem_cons.mp hl with he | hl
  · subst he
    exact contains_stepPre_atLine _ _ (by decide)
      (by
        rw [show strL "---STEP:" = '-' :: strL "--STEP:" from rfl]
        exact containsL_eq_false_headfree '-' _ _
          (fun hm => by simpa using natChars_all_digit p.total_steps '-' hm))
  rcases List.mem_cons.mp hl with he | hl
  · subst he
    decide
  rcases List.mem_cons.mp hl with he | hl
  · subst he
    exact hmark _ _ (by decide) (by decide)
  rcases List.mem_cons.mp hl with he | hl
  · subst he
    exact cleanVal_pat hq _ (by simp [badPats])
  rcases List.mem_cons.mp hl with he | hl
  · subst he
    exact hmark _ _ (by decide) (by decide)
  rcases List.mem_append.mp hl with hctxm | hB
  rotate_left
  · rcases List.mem_cons.mp hB with he | hB
    · subst he
      decide
    rw [List.mem_singleton] at hB
    subst hB
    exact hmark _ _ (by decide) (by decide)
  have hctx2 : l ∈ ctxLines (pad6 p.plan_num) p.context := hctxm
  unfold ctxLines at hctx2
  by_cases hce : p.context.isEmpty
  · rw [if_pos hce] at hctx2
    exact absurd hctx2 (List.not_mem_nil l)
  rw [if_neg hce] at hctx2
  rcases List.mem_append.mp hctx2 with h3 | h4
  rotate_left
  · rw [List.mem_singleton] at h4
    subst h4
    exact hmark _ _ (by decide) (by decide)
  rcases List.mem_append.mp h3 with h5 | h6
  · rcases List.mem_cons.mp h5 with he | h5
    · subst he
      decide
    rw [List.mem_singleton] at h5
    subst h5
    exact hmark _ _ (by decide) (by decide)
  · rw [List.mem_map] at h6
    obtain ⟨kv, hkv, he⟩ := h6
    subst he
    rw [List.mem_filter] at hkv
    rw [List.all_eq_true] at hctx
    have hk := hctx kv hkv.1
    rw [Bool.and_eq_true] at hk
    exact contains_stepPre_atLine _ _ (cleanKey_not_mem hk.1 '-' (by simp))
      (cleanVal_pat hk.2 _ (by simp [badPats]))

/-! ## Parsing one step block -/

theorem isEmpty_false_of_ne {v : Line} (h : v ≠ []) : v.isEmpty = false := by
  cases v with
  | nil => exact absurd rfl h
  | cons c cs => rfl

theorem parseStep_anchors (s : FStep) (hwf : wfStep s = true)
    (hsk : s.skill_name ≠ []) (hra : s.rationale ≠ []) :
    parseStep (stepAnchorLines s) =
      some ⟨s.step_nr, s.skill_name, s.rationale, s.sub_query, s.status, s.result⟩ := by
  obtain ⟨h1, h2, h3, h4, h5, h6⟩ := wfStep_parts hwf
  have skipNR : ∀ (tag : Line) (ae : Bool), tag ≠ strL "STEP_NR" → ':' ∉ tag →
      findAnchorIn tag notAt ae (atLine (strL "STEP_NR") (natChars s.step_nr)) = none :=
    fun tag ae hne htc => findAnchorIn_otherTag tag _ _ notAt ae hne htc (by decide)
      (by decide) (fun hm => by simpa using natChars_all_digit s.step_nr '@' hm)
  have skipSK : ∀ (tag : Line) (ae : Bool), tag ≠ strL "SKILL_NAME" → ':' ∉ tag →
      findAnchorIn tag notAt ae (atLine (strL "SKILL_NAME") s.skill_name) = none :=
    fun tag ae hne htc => findAnchorIn_otherTag tag _ _ notAt ae hne htc (by decide)
      (by decide) (cleanVal_at h1)
  have skipRA : ∀ (tag : Line) (ae : Bool), tag ≠ strL "RATIONALE" → ':' ∉ tag →
      findAnchorIn tag notAt ae (atLine (strL "RATIONALE") s.rationale) = none :=
    fun tag ae hne htc => findAnchorIn_otherTag tag _ _ notAt ae hne htc (by decide)
      (by decide) (cleanVal_at h2)
  have skipSQ : ∀ (tag : Line) (ae : Bool), tag ≠ strL "SUB_QUERY" → ':' ∉ tag →
      findAnchorIn tag notAt ae (atLine (strL "SUB_QUERY") s.sub_query) = none :=
    fun tag ae hne htc => findAnchorIn_otherTag tag _ _ notAt ae hne htc (by decide)
      (by decide) (cleanVal_at h3)
  have skipST : ∀ (tag : Line) (ae : Bool), tag ≠ strL "STATUS" → ':' ∉ tag →
      findAnchorIn tag notAt ae (atLine (strL "STATUS") s.status) = none :=
    fun tag ae hne htc => findAnchorIn_otherTag tag _ _ notAt ae hne htc (by decide)
      (by decide) (cleanVal_at h4)
  have hitNR : findAnchorIn (strL "STEP_NR") notAt false
      (atLine (strL "STEP_NR") (natChars s.step_nr)) = some (natChars s.step_nr) :=
    findAnchorIn_atLine _ _ _ _
      (notAt_of_not_mem (fun hm => by simpa using natChars_all_digit s.step_nr '@' hm))
      (by decide) (by rw [natChars_isEmpty]; rfl)
  have hitSK : findAnchorIn (strL "SKILL_NAME") notAt false
      (atLine (strL "SKILL_NAME") s.skill_name) = some s.skill_name :=
    findAnchorIn_atLine _ _ _ _ (notAt_of_not_mem (cleanVal_at h1)) (by decide)
      (by rw [isEmpty_false_of_ne hsk]; rfl)
  have hitRA : findAnchorIn (strL "RATIONALE") notAt false
      (atLine (strL "RATIONALE") s.rationale) = some s.rationale :=
    findAnchorIn_atLine _ _ _ _ (notAt_of_not_mem (cleanVal_at h2)) (by decide)
      (by rw [isEmpty_false_of_ne hra]; rfl)
  have hitST : findAnchorIn (strL "STATUS") notAt false
      (atLine (strL "STATUS") s.status) = some s.status :=
    findAnchorIn_atLine _ _ _ _ (notAt_of_not_mem (cleanVal_at h4)) (by decide)
      (by rw [h5]; rfl)
  have hitRE : findAnchorIn (strL "RESULT") notAt true
      (atLine (strL "RESULT") s.result) = some s.result :=
    findAnchorIn_atLine _ _ _ _ (notAt_of_not_mem (cleanVal_at h6)) (by decide) rfl
  by_cases hq : s.sub_query.isEmpty
  · have hqnil : s.sub_query = [] := by
      cases hv : s.sub_query with
      | nil => rfl
      | cons c cs => rw [hv] at hq; exact absurd hq (by simp)
    have hshape : stepAnchorLines s =
        [atLine (strL "STEP_NR") (natChars s.step_nr),
         atLine (strL "SKILL_NAME") s.skill_name,
         atLine (strL "RATIONALE") s.rationale,
         atLine (strL "STATUS") s.status,
         atLine (strL "RESULT") s.result] := by
      simp [stepAnchorLines, hq]
    have hNR : findAnchorLines (strL "STEP_NR") notAt false (stepAnchorLines s) =
        some (natChars s.step_nr) := by
      rw [hshape, findAnchorLines_cons_some _ _ _ _ _ _ hitNR]
    have hSK : findAnchorLines (strL "SKILL_NAME") notAt false (stepAnchorLines s) =
        some s.skill_name := by
      rw [hshape, findAnchorLines_cons_none _ _ _ _ _ (skipNR _ _ (by decide) (by decide)),
        findAnchorLines_cons_some _ _ _ _ _ _ hitSK]
    have hRA : findAnchorLines (strL "RATIONALE") notAt false (stepAnchorLines s) =
        some s.rationale := by
      rw [hshape, findAnchorLines_cons_none _ _ _ _ _ (skipNR _ _ (by decide) (by decide)),
        findAnchorLines_cons_none _ _ _ _ _ (skipSK _ _ (by decide) (by decide)),
        findAnchorLines_cons_some _ _ _ _ _ _ hitRA]
    have hSQ : findAnchorLines (strL "SUB_QUERY") notAt false (stepAnchorLines s) =
        none := by
      rw [hshape, findAnchorLines_cons_none _ _ _ _ _ (skipNR _ _ (by decide) (by decide)),
        findAnchorLines_cons_none _ _ _ _ _ (skipSK _ _ (by decide) (by decide)),
        findAnchorLines_cons_none _ _ _ _ _ (skipRA _ _ (by decide) (by decide)),
        findAnchorLines_cons_none _ _ _ _ _ (skipST _ _ (by decide) (by decide)),
        findAnchorLines_cons_none _ _ _ _ _
          (findAnchorIn_otherTag _ _ _ notAt false (by decide) (by decide) (by decide)
            (by decide) (cleanVal_at h6))]
      rfl
    have hST : findAnchorLines (strL "STATUS") notAt false (stepAnchorLines s) =
        some s.status := by
      rw [hshape, findAnchorLines_cons_none _ _ _ _ _ (skipNR _ _ (by decide) (by decide)),
        findAnchorLines_cons_none _ _ _ _ _ (skipSK _ _ (by decide) (by decide)),
        findAnchorLines_cons_none _ _ _ _ _ (skipRA _ _ (by decide) (by decide)),
        findAnchorLines_cons_some _ _ _ _ _ _ hitST]
    have hRE : findAnchorLines (strL "RESULT") notAt true (stepAnchorLines s) =
        some s.result := by
      rw [hshape, findAnchorLines_cons_none _ _ _ _ _ (skipNR _ _ (by decide) (by decide)),
        findAnchorLines_cons_none _ _ _ _ _ (skipSK _ _ (by decide) (by decide)),
        findAnchorLines_cons_none _ _ _ _ _ (skipRA _ _ (by decide) (by decide)),
        findAnchorLines_cons_none _ _ _ _ _ (skipST _ _ (by decide) (by decide)),
        findAnchorLines_cons_some _ _ _ _ _ _ hitRE]
    unfold parseStep
    rw [hNR, hSK, hRA, hSQ, hST, hRE]
    simp [intParse_natChars, hqnil]
  · have hshape : stepAnchorLines s =
        [atLine (strL "STEP_NR") (natChars s.step_nr),
         atLine (strL "SKILL_NAME") s.skill_name,
         atLine (strL "RATIONALE") s.rationale,
         atLine (strL "SUB_QUERY") s.sub_query,
         atLine (strL "STATUS") s.status,
         atLine (strL "RESULT") s.result] := by
      simp [stepAnchorLines, hq]
    have hitSQ : findAnchorIn (strL "SUB_QUERY") notAt false
        (atLine (strL "SUB_QUERY") s.sub_query) = some s.sub_query :=
      findAnchorIn_atLine _ _ _ _ (notAt_of_not_mem (cleanVal_at h3)) (by decide)
        (by rw [show s.sub_query.isEmpty = false from by simpa using hq]; rfl)
    have hNR : findAnchorLines (strL "STEP_NR") notAt false (stepAnchorLines s) =
        some (natChars s.step_nr) := by
      rw [hshape, findAnchorLines_cons_some _ _ _ _ _ _ hitNR]
    have hSK : findAnchorLines (strL "SKILL_NAME") notAt false (stepAnchorLines s) =
        some s.skill_name := by
      rw [hshape, findAnchorLines_cons_none _ _ _ _ _ (skipNR _ _ (by decide) (by decide)),
        findAnchorLines_cons_some _ _ _ _ _ _ hitSK]
    have hRA : findAnchorLines (strL "RATIONALE") notAt false (stepAnchorLines s) =
        some s.rationale := by
      rw [hshape, findAnchorLines_cons_none _ _ _ _ _ (skipNR _ _ (by decide) (by decide)),
        findAnchorLines_cons_none _ _ _ _ _ (skipSK _ _ (by decide) (by decide)),
        findAnchorLines_cons_some _ _ _ _ _ _ hitRA]
    have hSQ : findAnchorLines (strL "SUB_QUERY") notAt false (stepAnchorLines s) =
        some s.sub_query := by
      rw [hshape, findAnchorLines_cons_none _ _ _ _ _ (skipNR _ _ (by decide) (by decide)),
        findAnchorLines_cons_none _ _ _ _ _ (skipSK _ _ (by decide) (by decide)),
        findAnchorLines_cons_none _ _ _ _ _ (skipRA _ _ (by decide) (by decide)),
        findAnchorLines_cons_some _ _ _ _ _ _ hitSQ]
    have hST : findAnchorLines (strL "STATUS") notAt false (stepAnchorLines s) =
        some s.status := by
      rw [hshape, findAnchorLines_cons_none _ _ _ _ _ (skipNR _ _ (by decide) (by decide)),
        findAnchorLines_cons_none _ _ _ _ _ (skipSK _ _ (by decide) (by decide)),
        findAnchorLines_cons_none _ _ _ _ _ (skipRA _ _ (by decide) (by decide)),
        findAnchorLines_cons_none _ _ _ _ _ (skipSQ _ _ (by decide) (by decide)),
        findAnchorLines_cons_some _ _ _ _ _ _ hitST]
    have hRE : findAnchorLines (strL "RESULT") notAt true (stepAnchorLines s) =
        some s.result := by
      rw [hshape, findAnchorLines_cons_none _ _ _ _ _ (skipNR _ _ (by decide) (by decide)),
        findAnchorLines_cons_none _ _ _ _ _ (skipSK _ _ (by decide) (by decide)),
        findAnchorLines_cons_none _ _ _ _ _ (skipRA _ _ (by decide) (by decide)),
        findAnchorLines_cons_none _ _ _ _ _ (skipSQ _ _ (by decide) (by decide)),
        findAnchorLines_cons_none _ _ _ _ _ (skipST _ _ (by decide) (by decide)),
        findAnchorLines_cons_some _ _ _ _ _ _ hitRE]
    unfold parseStep
    rw [hNR, hSK, hRA, hSQ, hST, hRE]
    simp [intParse_natChars]

/-! ## Parsing the whole steps section and block -/

theorem stepMarker_ne_nil (m : Nat) (pn : Line) : stepMarker m pn ≠ [] := by
  rw [show stepMarker m pn =
    strL "---STEP:" ++ (pad3 m ++ (':' :: (pn ++ strL "---"))) from by simp [stepMarker]]
  intro hc
  rw [List.append_eq_nil] at hc
  exact absurd hc.1 (by decide)

theorem stepAnchors_no_endStep (s : FStep) (hwf : wfStepLoose s = true) :
    ∀ l ∈ stepAnchorLines s, containsL l (strL "---END_STEP:") = false := by
  obtain ⟨h1, h2, h3, h4, h5⟩ := wfStepLoose_parts hwf
  intro l hl
  by_cases hsq : s.sub_query.isEmpty <;> simp only [stepAnchorLines, hsq, if_true,
    if_false, Bool.false_eq_true, List.append_nil, List.cons_append, List.nil_append,
    List.mem_cons, List.not_mem_nil, or_false] at hl
  · rcases hl with he | he | he | he | he <;> subst he
    · exact contains_endStepPre_atLine _ _ (by decide)
        (by
          rw [show strL "---END_STEP:" = '-' :: strL "--END_STEP:" from rfl]
          exact containsL_eq_false_headfree '-' _ _
            (fun hm => by simpa using natChars_all_digit s.step_nr '-' hm))
    · exact contains_endStepPre_atLine _ _ (by decide)
        (cleanVal_pat h1 _ (by simp [badPats]))
    · exact contains_endStepPre_atLine _ _ (by decide)
        (cleanVal_pat h2 _ (by simp [badPats]))
    · exact contains_endStepPre_atLine _ _ (by decide)
        (cleanVal_pat h4 _ (by simp [badPats]))
    · exact contains_endStepPre_atLine _ _ (by decide)
        (cleanVal_pat h5 _ (by simp [badPats]))
  · rcases hl with he | he | he | he | he | he <;> subst he
    · exact contains_endStepPre_atLine _ _ (by decide)
        (by
          rw [show strL "---END_STEP:" = '-' :: strL "--END_STEP:" from rfl]
          exact containsL_eq_false_headfree '-' _ _
            (fun hm => by simpa using natChars_all_digit s.step_nr '-' hm))
    · exact contains_endStepPre_atLine _ _ (by decide)
        (cleanVal_pat h1 _ (by simp [badPats]))
    · exact contains_endStepPre_atLine _ _ (by decide)
        (cleanVal_pat h2 _ (by simp [badPats]))
    · exact contains_endStepPre_atLine _ _ (by decide)
        (cleanVal_pat h3 _ (by simp [badPats]))
    · exact contains_endStepPre_atLine _ _ (by decide)
        (cleanVal_pat h4 _ (by simp [badPats]))
    · exact contains_endStepPre_atLine _ _ (by decide)
        (cleanVal_pat h5 _ (by simp [badPats]))

theorem parseSteps_flat (pn : Line) (h6 : pn.length = 6)
    (hdig : ∀ c ∈ pn, c.isDigit = true) :
    ∀ (steps : List FStep), steps.all wfStep = true →
    (∀ s ∈ steps, s.step_nr ≤ 999 ∧ s.skill_name ≠ [] ∧ s.rationale ≠ []) →
    ∀ (tail : List Line), (∀ l ∈ tail, scanLineO stepStartAt l = none) →
    parseStepsAux none (steps.flatMap (stepLines pn) ++ tail) =
      some (steps.map (fun s =>
        (⟨s.step_nr, s.skill_name, s.rationale, s.sub_query, s.status, s.result⟩ :
          ParsedStep))) := by
  intro steps
  induction steps with
  | nil =>
    intro _ _ tail htail
    rw [List.flatMap_nil, List.nil_append]
    have := parseStepsAux_skipAll tail htail []
    rw [List.append_nil] at this
    rw [this]
    rfl
  | cons s ss ih =>
    intro hwf hside tail htail
    rw [List.all_cons, Bool.and_eq_true] at hwf
    obtain ⟨hm999, hskne, hrane⟩ := hside s (List.mem_cons_self s ss)
    rw [List.flatMap_cons]
    rw [show (stepLines pn s ++ ss.flatMap (stepLines pn)) ++ tail =
      ([] : Line) :: stepMarker s.step_nr pn ::
        (stepAnchorLines s ++
          (endStepMarker s.step_nr pn :: (ss.flatMap (stepLines pn) ++ tail)))
      from by rw [stepLines_decomp]; simp]
    rw [parseStepsAux_skip _ _ (scanStepStart_none _ (by decide))]
    rw [parseStepsAux_openS _ _ _
      (scanLineO_head_some _ _ _ (stepStartAt_marker s.step_nr hm999 pn h6 hdig)
        (stepMarker_ne_nil s.step_nr pn))]
    rw [parseStepsAux_collectAll (pad3 s.step_nr) (stepAnchorLines s)
      (fun l hl => scanExact6_none _ _ l
        (by
          rw [show (strL "---END_STEP:" ++ pad3 s.step_nr ++ [':'] : Line) =
            strL "---END_STEP:" ++ (pad3 s.step_nr ++ [':']) from by simp]
          exact contains_base_of_pre
            (stepAnchors_no_endStep s (wfStepLoose_of_wfStep hwf.1) l hl))) [] _]
    rw [parseStepsAux_closeS _ _ _ _ _ _
      (scanEndStep_marker s.step_nr pn h6 hdig)
      (by
        rw [List.append_nil, List.reverse_reverse]
        exact parseStep_anchors s hwf.1 hskne hrane)
      (ih hwf.2 (fun t ht => hside t (List.mem_cons_of_mem s ht)) tail htail)]
    rfl

theorem blockLines_decomp (p : FPlan) :
    blockLines p =
      atLine (strL "PLAN_ID") p.plan_id ::
      atLine (strL "PLAN_NUMBER") (pad6 p.plan_num) ::
      atLine (strL "TIMESTAMP") p.timestamp ::
      atLine (strL "MULTI_STEPS") (boolChars p.multi_steps) ::
      atLine (strL "TOTAL_STEPS") (natChars p.total_steps) ::
      ([] : Line) ::
      (strL ">>>QUERY:" ++ pad6 p.plan_num ++ strL ">>>") ::
      p.query ::
      (strL "<<<QUERY:" ++ pad6 p.plan_num ++ strL "<<<") ::
      (ctxLines (pad6 p.plan_num) p.context ++
        (([] : Line) :: (strL ">>>STEPS:" ++ pad6 p.plan_num ++ strL ">>>") ::
          (p.steps.flatMap (stepLines (pad6 p.plan_num)) ++
            [strL "<<<STEPS:" ++ pad6 p.plan_num ++ strL "<<<", ([] : Line)]))) := by
  simp [blockLines]

theorem blockLines_midShape (p : FPlan) :
    blockLines p =
      atLine (strL "PLAN_ID") p.plan_id ::
      (([atLine (strL "PLAN_NUMBER") (pad6 p.plan_num),
         atLine (strL "TIMESTAMP") p.timestamp,
         atLine (strL "MULTI_STEPS") (boolChars p.multi_steps),
         atLine (strL "TOTAL_STEPS") (natChars p.total_steps),
         [], strL ">>>QUERY:" ++ pad6 p.plan_num ++ strL ">>>",
         p.query,
         strL "<<<QUERY:" ++ pad6 p.plan_num ++ strL "<<<"] ++
        ctxLines (pad6 p.plan_num) p.context ++
        [[], strL ">>>STEPS:" ++ pad6 p.plan_num ++ strL ">>>"]) ++
       (p.steps.flatMap (stepLines (pad6 p.plan_num)) ++
        [strL "<<<STEPS:" ++ pad6 p.plan_num ++ strL "<<<", ([] : Line)])) := by
  simp [blockLines]

/-- The step parser on a whole block's content lines. -/
theorem parseSteps_block (p : FPlan) (hwf : wfPlan p = true)
    (hnum : p.plan_num ≤ 999999)
    (hside : ∀ s ∈ p.steps, s.step_nr ≤ 999 ∧ s.skill_name ≠ [] ∧ s.rationale ≠ []) :
    parseStepsAux none (blockLines p) =
      some (p.steps.map (fun s =>
        (⟨s.step_nr, s.skill_name, s.rationale, s.sub_query, s.status, s.result⟩ :
          ParsedStep))) := by
  obtain ⟨h1, _, _, _, hsteps⟩ := wfPlan_parts hwf
  rw [blockLines_midShape p]
  rw [← List.cons_append]
  rw [parseStepsAux_skipAll _ ?hpre _]
  case hpre =>
    intro l hl
    apply scanStepStart_none
    rcases List.mem_cons.mp hl with he | hl
    · subst he
      exact contains_stepPre_atLine _ _ (by decide) (cleanVal_pat h1 _ (by simp [badPats]))
    · exact mid_no_stepPre p (wfPlanLoose_of_wfPlan hwf) l hl
  exact parseSteps_flat (pad6 p.plan_num) (pad6_length p.plan_num hnum)
    (pad6_all_digit p.plan_num) p.steps hsteps hside
    [strL "<<<STEPS:" ++ pad6 p.plan_num ++ strL "<<<", ([] : Line)]
    (by
      intro l hl
      apply scanStepStart_none
      rcases List.mem_cons.mp hl with he | hl
      · subst he
        exact contains_wmarker_pat _ _ _ (pad6_all_digit p.plan_num)
          (pad6_ne_nil p.plan_num) _ (by decide) (by decide) (by decide) (by decide)
      rw [List.mem_singleton] at hl
      subst hl
      decide)

/-! ## Parsing the query and the plan anchors of a block -/

theorem intercalate_single (x : Line) : List.intercalate ['\n'] [x] = x := by
  simp [List.intercalate]

theorem parseQuery_block (p : FPlan) (hwf : wfPlan p = true)
    (hnum : p.plan_num ≤ 999999) :
    parseQueryAux none (blockLines p) = some (stripL p.query) := by
  obtain ⟨h1, hts, hq, _, _⟩ := wfPlan_parts hwf
  have hpn := pad6_all_digit p.plan_num
  have hanch : ∀ (K v : Line), '>' ∉ K → containsL v (strL ">>>QUERY:") = false →
      scanLine (exact6At (strL ">>>QUERY:") (strL ">>>")) (atLine K v) = false := by
    intro K v hK hv
    apply scanExact6_none
    rw [show strL ">>>QUERY:" = '>' :: strL ">>QUERY:" from rfl]
    apply contains_pre_atLine K v '>' (strL ">>QUERY:") (by decide) hK (by decide)
    rw [← show strL ">>>QUERY:" = '>' :: strL ">>QUERY:" from rfl]
    exact hv
  rw [blockLines_decomp p]
  rw [parseQueryAux_skip _ _ (hanch _ _ (by decide)
    (cleanVal_pat h1 _ (by simp [badPats])))]
  rw [parseQueryAux_skip _ _ (hanch _ _ (by decide)
    (by
      rw [show strL ">>>QUERY:" = '>' :: strL ">>QUERY:" from rfl]
      exact containsL_eq_false_headfree '>' _ _
        (fun hm => by simpa using hpn '>' hm)))]
  rw [parseQueryAux_skip _ _ (hanch _ _ (by decide)
    (cleanVal_pat hts _ (by simp [badPats])))]
  rw [parseQueryAux_skip _ _ (hanch _ _ (by decide)
    (by cases p.multi_steps <;> decide))]
  rw [parseQueryAux_skip _ _ (hanch _ _ (by decide)
    (by
      rw [show strL ">>>QUERY:" = '>' :: strL ">>QUERY:" from rfl]
      exact containsL_eq_false_headfree '>' _ _
        (fun hm => by simpa using natChars_all_digit p.total_steps '>' hm)))]
  rw [parseQueryAux_skip _ _ (scanExact6_none _ _ _ (by decide))]
  rw [parseQueryAux_open _ _ (scanQueryOpen_marker p.plan_num hnum)]
  rw [parseQueryAux_collect _ _ _ (scanExact6_none _ _ _
    (cleanVal_pat hq _ (by simp [badPats])))]
  rw [parseQueryAux_close _ _ _ (scanQueryClose_marker p.plan_num hnum)]
  rw [show ([p.query] : List Line).reverse = [p.query] from rfl]
  rw [intercalate_single]

theorem findPID_block (p : FPlan) (hwf : wfPlan p = true)
    (hpidne : p.plan_id.isEmpty = false) :
    findAnchorLines (strL "PLAN_ID") notAt false (blockLines p) = some p.plan_id := by
  obtain ⟨h1, _, _, _, _⟩ := wfPlan_parts hwf
  rw [blockLines_decomp p]
  exact findAnchorLines_cons_some _ _ _ _ _ _
    (findAnchorIn_atLine _ _ _ _ (notAt_of_not_mem (cleanVal_at h1)) (by decide)
      (by rw [hpidne]; rfl))

theorem findTS_block (p : FPlan) (hwf : wfPlan p = true)
    (htsne : p.timestamp ≠ []) :
    findAnchorLines (strL "TIMESTAMP") notAt false (blockLines p) =
      some p.timestamp := by
  obtain ⟨h1, hts, _, _, _⟩ := wfPlan_parts hwf
  rw [blockLines_decomp p]
  rw [findAnchorLines_cons_none _ _ _ _ _
    (findAnchorIn_otherTag _ _ _ notAt false (by decide) (by decide) (by decide)
      (by decide) (cleanVal_at h1))]
  rw [findAnchorLines_cons_none _ _ _ _ _
    (findAnchorIn_otherTag _ _ _ notAt false (by decide) (by decide) (by decide)
      (by decide) (fun hm => by simpa using pad6_all_digit p.plan_num '@' hm))]
  exact findAnchorLines_cons_some _ _ _ _ _ _
    (findAnchorIn_atLine _ _ _ _ (notAt_of_not_mem (cleanVal_at hts)) (by decide)
      (by rw [isEmpty_false_of_ne htsne]; rfl))

theorem findMS_block (p : FPlan) (hwf : wfPlan p = true) :
    findAnchorLines (strL "MULTI_STEPS") notAt false (blockLines p) =
      some (boolChars p.multi_steps) := by
  obtain ⟨h1, hts, _, _, _⟩ := wfPlan_parts hwf
  rw [blockLines_decomp p]
  rw [findAnchorLines_cons_none _ _ _ _ _
    (findAnchorIn_otherTag _ _ _ notAt false (by decide) (by decide) (by decide)
      (by decide) (cleanVal_at h1))]
  rw [findAnchorLines_cons_none _ _ _ _ _
    (findAnchorIn_otherTag _ _ _ notAt false (by decide) (by decide) (by decide)
      (by decide) (fun hm => by simpa using pad6_all_digit p.plan_num '@' hm))]
  rw [findAnchorLines_cons_none _ _ _ _ _
    (findAnchorIn_otherTag _ _ _ notAt false (by decide) (by decide) (by decide)
      (by decide) (cleanVal_at hts))]
  exact findAnchorLines_cons_some _ _ _ _ _ _
    (findAnchorIn_atLine _ _ _ _
      (notAt_of_not_mem (boolChars_facts p.multi_steps).1) (by decide)
      (by cases p.multi_steps <;> decide))

theorem findTotal_block (p : FPlan) (hwf : wfPlan p = true) :
    findAnchorLines (strL "TOTAL_STEPS") notAt false (blockLines p) =
      some (natChars p.total_steps) := by
  obtain ⟨h1, hts, _, _, _⟩ := wfPlan_parts hwf
  rw [blockLines_decomp p]
  rw [findAnchorLines_cons_none _ _ _ _ _
    (findAnchorIn_otherTag _ _ _ notAt false (by decide) (by decide) (by decide)
      (by decide) (cleanVal_at h1))]
  rw [findAnchorLines_cons_none _ _ _ _ _
    (findAnchorIn_otherTag _ _ _ notAt false (by decide) (by decide) (by decide)
      (by decide) (fun hm => by simpa using pad6_all_digit p.plan_num '@' hm))]
  rw [findAnchorLines_cons_none _ _ _ _ _
    (findAnchorIn_otherTag _ _ _ notAt false (by decide) (by decide) (by decide)
      (by decide) (cleanVal_at hts))]
  rw [findAnchorLines_cons_none _ _ _ _ _
    (findAnchorIn_otherTag _ _ _ notAt false (by decide) (by decide) (by decide)
      (by decide) (boolChars_facts p.multi_steps).1)]
  exact findAnchorLines_cons_some _ _ _ _ _ _
    (findAnchorIn_atLine _ _ _ _
      (notAt_of_not_mem (fun hm => by
        simpa using natChars_all_digit p.total_steps '@' hm)) (by decide)
      (by rw [natChars_isEmpty]; rfl))

/-- get_plan's block parser on a rendered block recovers the stored plan
record field by field (query whitespace-stripped). -/
theorem parseBlock_blockLines (pid : Line) (p : FPlan) (hwf : wfPlan p = true)
    (hnum : p.plan_num ≤ 999999) (htsne : p.timestamp ≠ [])
    (hside : ∀ s ∈ p.steps, s.step_nr ≤ 999 ∧ s.skill_name ≠ [] ∧ s.rationale ≠ []) :
    parseBlock pid (pad6 p.plan_num) (blockLines p) =
      some ⟨pid, pad6 p.plan_num, some p.timestamp, some (stripL p.query),
        p.multi_steps, p.total_steps,
        p.steps.map (fun s =>
          (⟨s.step_nr, s.skill_name, s.rationale, s.sub_query, s.status, s.result⟩ :
            ParsedStep))⟩ := by
  unfold parseBlock
  rw [findTotal_block p hwf, parseSteps_block p hwf hnum hside, findTS_block p hwf htsne,
    parseQuery_block p hwf hnum, findMS_block p hwf]
  simp only [intParse_natChars]
  cases hb : p.multi_steps <;> simp [boolChars, strL]

/-! ## The write path: appended entry and full metadata pass -/

theorem wfPlan_pid_ne {p : FPlan} (h : wfPlan p = true) : p.plan_id.isEmpty = false := by
  unfold wfPlan at h
  simp only [Bool.and_eq_true] at h
  have := h.1.1.1.1.2
  simp only [Bool.not_eq_true'] at this
  exact this

theorem metaTotal_header (total : Nat) (c u : Line) (t : Nat)
    (hc : '@' ∉ c) (hu : '@' ∉ u) :
    (headerLines c u t).map
        (subAnchor (strL "TOTAL_PLANS") Char.isDigit false (natChars total)) =
      headerLines c u total := by
  have req : subAnchor (strL "TOTAL_PLANS") Char.isDigit false (natChars total) eqLine =
      eqLine := subAnchor_atfree _ _ _ _ _ eqLine_facts.1
  have rnil : subAnchor (strL "TOTAL_PLANS") Char.isDigit false (natChars total) [] = [] :=
    rfl
  have rt1 : subAnchor (strL "TOTAL_PLANS") Char.isDigit false (natChars total)
      (strL "                    QUERY DECOMPOSITION PLANS") =
      strL "                    QUERY DECOMPOSITION PLANS" :=
    subAnchor_atfree _ _ _ _ _ (by decide)
  have rt2 : subAnchor (strL "TOTAL_PLANS") Char.isDigit false (natChars total)
      (strL "This file stores query decomposition plans in a grep-friendly anchor format.") =
      strL "This file stores query decomposition plans in a grep-friendly anchor format." :=
    subAnchor_atfree _ _ _ _ _ (by decide)
  have rt3 : subAnchor (strL "TOTAL_PLANS") Char.isDigit false (natChars total)
      (strL "Each plan can be easily searched, modified, or have steps added/updated.") =
      strL "Each plan can be easily searched, modified, or have steps added/updated." :=
    subAnchor_atfree _ _ _ _ _ (by decide)
  have rfc : subAnchor (strL "TOTAL_PLANS") Char.isDigit false (natChars total)
      (atLine (strL "FILE_CREATED") c) = atLine (strL "FILE_CREATED") c :=
    subAnchor_otherTag _ _ _ _ _ _ (by decide) (by decide) (by decide) (by decide) hc
  have rlu : subAnchor (strL "TOTAL_PLANS") Char.isDigit false (natChars total)
      (atLine (strL "LAST_UPDATED") u) = atLine (strL "LAST_UPDATED") u :=
    subAnchor_otherTag _ _ _ _ _ _ (by decide) (by decide) (by decide) (by decide) hu
  have rtp : subAnchor (strL "TOTAL_PLANS") Char.isDigit false (natChars total)
      (atLine (strL "TOTAL_PLANS") (natChars t)) =
      atLine (strL "TOTAL_PLANS") (natChars total) :=
    subAnchor_atLine _ _ _ _ _ (natChars_all_digit t) (by decide)
      (by rw [natChars_isEmpty]; rfl)
  unfold headerLines
  simp only [List.map_cons, List.map_nil, req, rnil, rt1, rt2, rt3, rfc, rlu, rtp]

/-- The full metadata pass of write_plan over a rendered file rewrites
exactly the header timestamp and plan count. -/
theorem metaFull_render (ts : Line) (total : Nat) (G : FFile) (hfree : fileAtFree G)
    (hts : '@' ∉ ts) :
    metaFullPass ts total (renderFile G) =
      renderFile { G with last_updated := ts, total_plans := total } := by
  unfold metaFullPass
  rw [metaFast_render ts G hfree]
  show (renderFile { G with last_updated := ts }).map
    (subAnchor (strL "TOTAL_PLANS") Char.isDigit false (natChars total)) = _
  unfold renderFile
  rw [List.map_append, metaTotal_header total _ _ _ hfree.1 hts,
    metaPass_entries _ _ _ _ (by decide) (Or.inr rfl) _ hfree.2.2]

theorem renderFile_append_plan (F : FFile) (np : FPlan) :
    renderFile F ++ planEntryLines np =
      renderFile { F with plans := F.plans ++ [np] } := by
  unfold renderFile
  rw [List.append_assoc, List.flatMap_append]
  simp

/-- The line-level effect of write_plan on a rendered file is the rendering
of the structural write. -/
theorem writePlanLines_renders (F : FFile) (count : Nat) (pid ts query : Line)
    (ctx : List (Line × Line)) (d : Decomp) (hfree : fileAtFree F)
    (hplanfree : planAtFree (planOfDecomp (count + 1) pid ts query ctx d))
    (hts : '@' ∉ ts) :
    writePlanLines (renderFile F) count pid ts query ctx d =
      renderFile { F with last_updated := ts, total_plans := count + 1, plans := F.plans ++ [planOfDecomp (count + 1) pid ts query ctx d] } := by
  unfold writePlanLines
  rw [renderFile_append_plan]
  have hfree2 : fileAtFree { F with
      plans := F.plans ++ [planOfDecomp (count + 1) pid ts query ctx d] } := by
    refine ⟨hfree.1, hfree.2.1, ?_⟩
    intro p hp
    rcases List.mem_append.mp hp with h | h
    · exact hfree.2.2 p h
    · rw [List.mem_singleton] at h
      subst h
      exact hplanfree
  rw [metaFull_render ts (count + 1) _ hfree2 hts]

theorem planAtFree_of_decomp (num : Nat) (pid ts query : Line)
    (ctx : List (Line × Line)) (d : Decomp)
    (hpid : '@' ∉ pid) (hts : '@' ∉ ts) (hq : '@' ∉ query)
    (hctx : ∀ kv ∈ ctx, cleanKey kv.1 = true ∧ '@' ∉ kv.2)
    (hsteps : ∀ s ∈ d.output_steps,
      '@' ∉ s.skill_name ∧ '@' ∉ s.rationale ∧ '@' ∉ s.sub_query) :
    planAtFree (planOfDecomp num pid ts query ctx d) := by
  refine ⟨hpid, hts, hq, hctx, ?_⟩
  intro t ht
  unfold planOfDecomp at ht
  rw [List.mem_map] at ht
  obtain ⟨u, hu, he⟩ := ht
  subst he
  obtain ⟨h1, h2, h3⟩ := hsteps u hu
  refine ⟨h1, h2, h3, ?_, ?_⟩
  · show '@' ∉ strL "pending"
    decide
  · show '@' ∉ ([] : Line)
    exact List.not_mem_nil '@'

theorem wfPlan_planOfDecomp (num : Nat) (pid ts query : Line)
    (ctx : List (Line × Line)) (d : Decomp)
    (hpid : cleanVal pid = true) (hpidne : pid ≠ [])
    (hts : cleanVal ts = true) (hq : cleanVal query = true)
    (hctx : ∀ kv ∈ ctx, cleanKey kv.1 = true ∧ cleanVal kv.2 = true)
    (hsteps : ∀ s ∈ d.output_steps, cleanVal s.skill_name = true ∧
      cleanVal s.rationale = true ∧ cleanVal s.sub_query = true) :
    wfPlan (planOfDecomp num pid ts query ctx d) = true := by
  unfold wfPlan planOfDecomp
  show (cleanVal pid && !pid.isEmpty && cleanVal ts && cleanVal query &&
    ctx.all (fun kv => cleanKey kv.1 && cleanVal kv.2) &&
    (d.output_steps.map _).all wfStep) = true
  rw [hpid, hts, hq, isEmpty_false_of_ne hpidne]
  rw [List.all_eq_true.mpr (fun kv hkv => by
    rw [Bool.and_eq_true]
    exact ⟨(hctx kv hkv).1, (hctx kv hkv).2⟩)]
  rw [List.all_eq_true.mpr ?hst]
  case hst =>
    intro t ht
    rw [List.mem_map] at ht
    obtain ⟨u, hu, he⟩ := ht
    subst he
    obtain ⟨h1, h2, h3⟩ := hsteps u hu
    unfold wfStep
    show (cleanVal u.skill_name && cleanVal u.rationale && cleanVal u.sub_query &&
      cleanVal (strL "pending") && !(strL "pending").isEmpty && cleanVal []) = true
    rw [h1, h2, h3]
    decide
  rfl

/-- The block of every prior plan fails the id test when its id differs
from the target. -/
theorem find?_blocks_skip (pid : Line) :
    ∀ (ps : List FPlan), ps.all wfPlan = true → (∀ p ∈ ps, p.plan_id ≠ pid) →
    ∀ (rest : List (Line × List Line)),
    ((ps.map (fun p => (pad6 p.plan_num, blockLines p))) ++ rest).find?
        (fun b => findAnchorLines (strL "PLAN_ID") notAt false b.2 = some pid) =
      rest.find?
        (fun b => findAnchorLines (strL "PLAN_ID") notAt false b.2 = some pid) := by
  intro ps
  induction ps with
  | nil => intro _ _ rest; rfl
  | cons p ps ih =>
    intro hwf hne rest
    rw [List.all_cons, Bool.and_eq_true] at hwf
    have hpidline : findAnchorLines (strL "PLAN_ID") notAt false (blockLines p) =
        some p.plan_id := findPID_block p hwf.1 (wfPlan_pid_ne hwf.1)
    have hpred : (decide (findAnchorLines (strL "PLAN_ID") notAt false
        (blockLines p) = some pid)) = false := by
      rw [hpidline]
      exact decide_eq_false (fun he =>
        hne p (List.mem_cons_self p ps) (Option.some_injective _ he))
    rw [List.map_cons, List.cons_append]
    rw [List.find?_cons]
    simp only [hpred]
    exact ih hwf.2 (fun q hq => hne q (List.mem_cons_of_mem p hq)) rest

/-! ## The write then read round trip -/

theorem getPlan_writePlan (F : FFile) (pid ts query : Line) (ctx : List (Line × Line))
    (d : Decomp) (hwfF : wfFile F = true)
    (hnum : ∀ p ∈ F.plans, p.plan_num ≤ 999999) (hcount : F.total_plans + 1 ≤ 999999)
    (hfresh : ∀ p ∈ F.plans, p.plan_id ≠ pid)
    (hpid : cleanVal pid = true) (hpidne : pid ≠ [])
    (hts : cleanVal ts = true) (htsne : ts ≠ []) (htss : replSafe ts = true)
    (hq : cleanVal query = true) (hqe : query ≠ strL "EOF")
    (hctx : ∀ kv ∈ ctx, cleanKey kv.1 = true ∧ cleanVal kv.2 = true)
    (hsteps : ∀ s ∈ d.output_steps, cleanVal s.skill_name = true ∧ s.skill_name ≠ [] ∧
      cleanVal s.rationale = true ∧ s.rationale ≠ [] ∧ cleanVal s.sub_query = true ∧
      s.step_nr ≤ 999) :
    getPlan pid (writePlanLines (renderFile F) F.total_plans pid ts query ctx d) =
      some ⟨pid, pad6 (F.total_plans + 1), some ts, some (stripL query),
        d.multi_steps, d.output_steps.length,
        d.output_steps.map (fun s =>
          (⟨s.step_nr, s.skill_name, s.rationale, s.sub_query, strL "pending", []⟩ :
            ParsedStep))⟩ := by
  obtain ⟨hf1, hf2, hf3⟩ := wfFile_parts hwfF
  have hwfnp : wfPlan (planOfDecomp (F.total_plans + 1) pid ts query ctx d) = true :=
    wfPlan_planOfDecomp _ _ _ _ _ _ hpid hpidne hts hq hctx
      (fun s hs => ⟨(hsteps s hs).1, (hsteps s hs).2.2.1, (hsteps s hs).2.2.2.2.1⟩)
  have hfreeF : fileAtFree F := fileAtFree_of_loose (wfFileLoose_of_wfFile hwfF)
  have hplanfree : planAtFree (planOfDecomp (F.total_plans + 1) pid ts query ctx d) :=
    planAtFree_of_loose (wfPlanLoose_of_wfPlan hwfnp)
  rw [writePlanLines_renders F F.total_plans pid ts query ctx d hfreeF hplanfree
    (cleanVal_at hts)]
  have hwfG : wfFileLoose { F with last_updated := ts, total_plans := F.total_plans + 1, plans := F.plans ++ [planOfDecomp (F.total_plans + 1) pid ts query ctx d] } = true := by
    show (cleanVal F.file_created && cleanVal ts &&
      (F.plans ++ [planOfDecomp (F.total_plans + 1) pid ts query ctx d]).all
        wfPlanLoose) = true
    rw [hf1, hts]
    rw [List.all_eq_true.mpr ?hall]
    case hall =>
      intro q hq2
      rcases List.mem_append.mp hq2 with h | h
      · rw [List.all_eq_true] at hf3
        exact wfPlanLoose_of_wfPlan (hf3 q h)
      · rw [List.mem_singleton] at h
        subst h
        exact wfPlanLoose_of_wfPlan hwfnp
    rfl
  have hnums : ∀ p ∈ ({ F with last_updated := ts, total_plans := F.total_plans + 1, plans := F.plans ++ [planOfDecomp (F.total_plans + 1) pid ts query ctx d] } : FFile).plans, p.plan_num ≤ 999999 := by
    intro p hp
    rcases List.mem_append.mp hp with h | h
    · exact hnum p h
    · rw [List.mem_singleton] at h
      subst h
      exact hcount
  have hblocks : findBlocks (renderFile { F with last_updated := ts, total_plans := F.total_plans + 1, plans := F.plans ++ [planOfDecomp (F.total_plans + 1) pid ts query ctx d] }) =
      (F.plans ++ [planOfDecomp (F.total_plans + 1) pid ts query ctx d]).map
        (fun p => (pad6 p.plan_num, blockLines p)) := by
    rw [findBlocks_render _ hwfG hnums]
  unfold getPlan
  rw [hblocks, List.map_append]
  rw [find?_blocks_skip pid F.plans hf3 hfresh _]
  have hprednew : (decide (findAnchorLines (strL "PLAN_ID") notAt false
      (blockLines (planOfDecomp (F.total_plans + 1) pid ts query ctx d)) =
        some pid)) = true := by
    rw [findPID_block _ hwfnp (show pid.isEmpty = false from isEmpty_false_of_ne hpidne)]
    simp only [Option.some.injEq]
    exact decide_eq_true rfl
  rw [List.map_cons, List.map_nil, List.find?_cons]
  simp only [hprednew]
  show parseBlock pid
    (pad6 (planOfDecomp (F.total_plans + 1) pid ts query ctx d).plan_num)
    (blockLines (planOfDecomp (F.total_plans + 1) pid ts query ctx d)) = _
  rw [parseBlock_blockLines pid _ hwfnp
    (show (planOfDecomp (F.total_plans + 1) pid ts query ctx d).plan_num ≤ 999999
      from hcount)
    (show (planOfDecomp (F.total_plans + 1) pid ts query ctx d).timestamp ≠ []
      from htsne)
    ?side]
  case side =>
    intro t ht
    have ht2 : t ∈ (planOfDecomp (F.total_plans + 1) pid ts query ctx d).steps := ht
    unfold planOfDecomp at ht2
    rw [List.mem_map] at ht2
    obtain ⟨u, hu, he⟩ := ht2
    subst he
    exact ⟨(hsteps u hu).2.2.2.2.2, (hsteps u hu).2.1, (hsteps u hu).2.2.2.1⟩
  show some _ = some _
  congr 1
  show (⟨pid, pad6 (F.total_plans + 1), some ts, some (stripL query), d.multi_steps,
    d.output_steps.length,
    (d.output_steps.map _).map _⟩ : ParsedPlan) = _
  rw [List.map_map]
  rfl

/-! ## Claim C2: the write then get round trip -/

/-- C2 counterexample.  The claim promises the round trip preserves the
step count and the per-step fields for every plan with non-empty, clean
values.  A plan whose only step has step_nr 1000 is written with the
four-digit padded marker 1000, which the get_plan step regex (exactly
three digits) never matches: the parsed plan reports @TOTAL_STEPS: 1 but
carries an empty step list, so the step and all its fields are lost. -/
theorem C2_counterexample :
    getPlan (strL "plan1")
      (writePlanLines (renderFile ⟨strL "c0", strL "u0", 0, []⟩) 0
        (strL "plan1") (strL "t1") (strL "q1") []
        ⟨false, [⟨1000, strL "sk", strL "ra", strL "su"⟩]⟩) =
      some ⟨strL "plan1", pad6 1, some (strL "t1"), some (strL "q1"), false, 1, []⟩ := by
  decide

/-- C2 amended.  For a well-formed prior file, a fresh plan id, clean and
non-empty anchor values, a query different from the literal line EOF, and
every step number at most 999 (and the file holding fewer than a million
plans), write_plan followed by get_plan on the same id returns exactly the
written plan: multi_steps and the step count are preserved, each step's
step_nr, skill_name, rationale and sub_query are returned verbatim, new
steps carry status pending and an empty result, and the query is returned
whitespace-stripped.  The EOF exclusion is required: the entry is appended
through a quoted heredoc with delimiter EOF, and a query line equal to the
delimiter truncates the append, makes bash fail, and lets the Python
fallback re-append the whole entry over the partial one, corrupting the
block. -/
theorem C2_amended (F : FFile) (pid ts query : Line) (ctx : List (Line × Line))
    (d : Decomp) (hwfF : wfFile F = true)
    (hnum : ∀ p ∈ F.plans, p.plan_num ≤ 999999) (hcount : F.total_plans + 1 ≤ 999999)
    (hfresh : ∀ p ∈ F.plans, p.plan_id ≠ pid)
    (hpid : cleanVal pid = true) (hpidne : pid ≠ [])
    (hts : cleanVal ts = true) (htsne : ts ≠ []) (htss : replSafe ts = true)
    (hq : cleanVal query = true) (hqe : query ≠ strL "EOF")
    (hctx : ∀ kv ∈ ctx, cleanKey kv.1 = true ∧ cleanVal kv.2 = true)
    (hsteps : ∀ s ∈ d.output_steps, cleanVal s.skill_name = true ∧ s.skill_name ≠ [] ∧
      cleanVal s.rationale = true ∧ s.rationale ≠ [] ∧ cleanVal s.sub_query = true ∧
      s.step_nr ≤ 999) :
    getPlan pid (writePlanLines (renderFile F) F.total_plans pid ts query ctx d) =
      some ⟨pid, pad6 (F.total_plans + 1), some ts, some (stripL query),
        d.multi_steps, d.output_steps.length,
        d.output_steps.map (fun s =>
          (⟨s.step_nr, s.skill_name, s.rationale, s.sub_query, strL "pending", []⟩ :
            ParsedStep))⟩ :=
  getPlan_writePlan F pid ts query ctx d hwfF hnum hcount hfresh hpid hpidne hts htsne
    htss hq hqe hctx hsteps

/-- C2 witness: the amended round trip applied to a concrete two-step
write into an empty file. -/
theorem C2_witness :
    getPlan (strL "plan1")
      (writePlanLines
        (renderFile ⟨strL "2026-01-01T00:00:00", strL "2026-01-01T00:00:00", 0, []⟩) 0
        (strL "plan1") (strL "t1") (strL "list tasks") []
        ⟨true, [⟨1, strL "task-list", strL "find tasks", strL "show tasks"⟩,
                ⟨2, strL "final_response", strL "answer", []⟩]⟩) =
      some ⟨strL "plan1", pad6 1, some (strL "t1"), some (stripL (strL "list tasks")),
        true, 2,
        [⟨1, strL "task-list", strL "find tasks", strL "show tasks",
          strL "pending", []⟩,
         ⟨2, strL "final_response", strL "answer", [], strL "pending", []⟩]⟩ :=
  C2_amended ⟨strL "2026-01-01T00:00:00", strL "2026-01-01T00:00:00", 0, []⟩
    (strL "plan1") (strL "t1") (strL "list tasks") []
    ⟨true, [⟨1, strL "task-list", strL "find tasks", strL "show tasks"⟩,
            ⟨2, strL "final_response", strL "answer", []⟩]⟩
    (by decide) (by decide) (by decide) (by decide) (by decide) (by decide)
    (by decide) (by decide) (by decide) (by decide) (by decide) (by decide)
    (by decide)

end PlanSpec
